import Mathlib

/-!
# Fleta proof-of-formulation core: a shallow embedding

Machine integers are natural numbers (or integers for signed values) reduced
explicitly modulo the word size wherever the Go source can overflow.  Go
strings and byte slices are lists of byte values.
-/

namespace Fleta

/-! ## Machine words -/

/-- The value of a Go `uint64` expression whose mathematical value is `n`. -/
def u64 (n : Nat) : Nat := n % 2 ^ 64

/-- The value of a Go `uint32` expression whose mathematical value is `n`. -/
def u32 (n : Nat) : Nat := n % 2 ^ 32

/-- The value of a Go `uint16` expression whose mathematical value is `n`. -/
def u16 (n : Nat) : Nat := n % 2 ^ 16

/-- The value of a Go `uint8` / `byte` expression whose mathematical value is `n`. -/
def u8 (n : Nat) : Nat := n % 2 ^ 8

/-- Unsigned 32-bit subtraction with wrap-around. -/
def subU32 (a b : Nat) : Nat := (a + 2 ^ 32 - b % 2 ^ 32) % 2 ^ 32

/-- Unsigned 64-bit subtraction with wrap-around. -/
def subU64 (a b : Nat) : Nat := (a + 2 ^ 64 - b % 2 ^ 64) % 2 ^ 64

/-- Reinterpretation of a 64-bit pattern as a Go `int64` (two's complement). -/
def toInt64 (n : Nat) : Int :=
  if n % 2 ^ 64 < 2 ^ 63 then ((n % 2 ^ 64 : Nat) : Int) else ((n % 2 ^ 64 : Nat) : Int) - 2 ^ 64

/-- The value of a Go `int64` expression whose mathematical value is `z`. -/
def wrapInt64 (z : Int) : Int := (z + 2 ^ 63) % 2 ^ 64 - 2 ^ 63

/-- The Go constant `time.Second` in nanoseconds. -/
def second : Nat := 1000000000

/-- The Go constant `time.Millisecond` in nanoseconds. -/
def millisecond : Nat := 1000000

/-! ## Errors -/

/-- The error values the embedded functions return.  `external` stands for an
error produced by a collaborator outside the embedded code (codec, crypto,
network, process validation, rank table). -/
inductive Err where
  | ErrTransactionPoolOverflowed
  | ErrExistTransaction
  | ErrPastSeq
  | ErrTooFarSeq
  | ErrInvalidHandshake
  | ErrInvalidChainID
  | ErrInvalidRequest
  | ErrInvalidTransactionIDFormat
  | ErrInvalidUTXO
  | ErrFoundForkedBlock
  | ErrUnknownMessage
  | ErrInvalidPublicHash
  | ErrInvalidObserverKey
  | ErrLength
  | ErrMinusBalance
  | InvalidByteError (b : Nat)
  | external (code : Nat)
  deriving DecidableEq, Repr

/-! ## core/types/util.go -/

/-- Go `UnmarshalID`: `uint32(id >> 32), uint16(id >> 16), uint16(id)`. -/
def UnmarshalID (id : Nat) : Nat × Nat × Nat :=
  (u32 (id >>> 32), u16 (id >>> 16), u16 id)

/-- Go `MarshalID`: `uint64(height)<<32 | uint64(index)<<16 | uint64(n)`.  The
parameters are a `uint32` and two `uint16`: an argument is taken at that width,
and the shifts are `uint64` shifts. -/
def MarshalID (height index n : Nat) : Nat :=
  u64 (u64 (u32 height) <<< 32) ||| u64 (u64 (u16 index) <<< 16) ||| u64 (u16 n)

/-- Go `binary.BigEndian.PutUint32` into a fresh four-byte slice. -/
def putUint32BE (v : Nat) : List Nat :=
  [u8 (v >>> 24), u8 (v >>> 16), u8 (v >>> 8), u8 v]

/-- Go `binary.BigEndian.PutUint16` into a fresh two-byte slice. -/
def putUint16BE (v : Nat) : List Nat :=
  [u8 (v >>> 8), u8 v]

/-- Go `binary.BigEndian.Uint32` on the first four bytes of `bs`. -/
def uint32BE (bs : List Nat) : Nat :=
  bs.getD 3 0 ||| u32 (bs.getD 2 0 <<< 8) ||| u32 (bs.getD 1 0 <<< 16) ||| u32 (bs.getD 0 0 <<< 24)

/-- Go `binary.BigEndian.Uint16` on the first two bytes of `bs`. -/
def uint16BE (bs : List Nat) : Nat :=
  bs.getD 1 0 ||| u16 (bs.getD 0 0 <<< 8)

/-- One character of Go's `hextable = "0123456789abcdef"`, as a byte value. -/
def hexDigit (n : Nat) : Nat := if n < 10 then 48 + n else 87 + n

/-- Go `hex.EncodeToString`: two table characters per byte, high nibble first. -/
def hexEncode : List Nat → List Nat
  | [] => []
  | b :: bs => hexDigit (b >>> 4) :: hexDigit (b &&& 15) :: hexEncode bs

/-- Go's `reverseHexTable` lookup: the nibble of a hexadecimal character. -/
def fromHexChar (c : Nat) : Option Nat :=
  if 48 ≤ c ∧ c ≤ 57 then some (c - 48)
  else if 97 ≤ c ∧ c ≤ 102 then some (c - 97 + 10)
  else if 65 ≤ c ∧ c ≤ 70 then some (c - 65 + 10)
  else none

/-- Go `hex.DecodeString`: pairs of hexadecimal characters to bytes; an invalid
character or an odd length is an error. -/
def hexDecode : List Nat → Except Err (List Nat)
  | [] => .ok []
  | [p] =>
    match fromHexChar p with
    | none => .error (.InvalidByteError p)
    | some _ => .error .ErrLength
  | p :: q :: rest =>
    match fromHexChar p with
    | none => .error (.InvalidByteError p)
    | some a =>
      match fromHexChar q with
      | none => .error (.InvalidByteError q)
      | some b =>
        match hexDecode rest with
        | .error e => .error e
        | .ok bs => .ok (((a <<< 4) ||| b) :: bs)

/-- Go `TransactionID`: hexadecimal text of big-endian height and index. -/
def TransactionID (Height Index : Nat) : List Nat :=
  hexEncode (putUint32BE Height ++ putUint16BE Index)

/-- Go `ParseTransactionID`: length check, hex decoding, big-endian reads. -/
def ParseTransactionID (TXID : List Nat) : Except Err (Nat × Nat) :=
  if TXID.length ≠ 12 then .error .ErrInvalidTransactionIDFormat
  else
    match hexDecode TXID with
    | .error e => .error e
    | .ok bs => .ok (uint32BE bs, uint16BE (bs.drop 4))

/-! ## Ledger and pool collaborators -/

/-- The staging context the chain hands out (`types.Context`), reduced to the
values the embedded code reads from it. -/
structure Context where
  id : Nat
  LastTimestamp : Nat
  TargetHeight : Nat
  deriving DecidableEq, Repr

/-- A transaction as the admission code observes it.  `account` is
`some (from, seq)` exactly when the transaction implements
`chain.AccountTransaction`, with `From()` and `Seq()` as the two values. -/
structure Transaction where
  body : Nat
  account : Option (Nat × Nat)
  deriving DecidableEq, Repr

/-- A record of the transaction pool (`txpool.PoolItem`). -/
structure PoolItem where
  TxType : Nat
  TxHash : Nat
  Transaction : Transaction
  Signatures : List Nat
  Signers : List Nat
  deriving DecidableEq, Repr

/-- Go `p2p.TransactionMessage`. -/
structure TransactionMessage where
  TxType : Nat
  Tx : Transaction
  Sigs : List Nat
  deriving DecidableEq, Repr

/-- The transaction pool and the expire queue of a formulator node
(`fr.txpool`, `fr.txQ`). -/
structure TxStore where
  txpool : List PoolItem
  txQ : List (Nat × TransactionMessage)
  deriving DecidableEq, Repr

/-- Go `txpool.Size`. -/
def TxStore.Size (st : TxStore) : Nat := st.txpool.length

/-- Go `txpool.IsExist`. -/
def TxStore.IsExist (st : TxStore) (TxHash : Nat) : Bool :=
  st.txpool.any (fun r => r.TxHash == TxHash)

/-- Modelled from the spec: `txpool.Push` of core/txpool, which is not among the
sources: "fail if size ≥ 65535 or hash exists"; otherwise the record is added. -/
def TxStore.Push (st : TxStore) (t TxHash : Nat) (tx : Transaction) (sigs signers : List Nat) :
    Except Err (List PoolItem) :=
  if st.Size ≥ 65535 then .error .ErrTransactionPoolOverflowed
  else if st.IsExist TxHash then .error .ErrExistTransaction
  else .ok (st.txpool ++ [⟨t, TxHash, tx, sigs, signers⟩])

/-- The collaborators `addTx` calls: chain id, transaction hashing, the fresh
context and its sequence numbers, public-key recovery, the process table and
the transaction's own validation. -/
structure AddTxEnv where
  ChainID : Nat
  HashTransactionByType : Nat → Nat → Transaction → Nat
  NewContext : Context
  Seq : Context → Nat → Nat
  RecoverPubkey : Nat → Nat → Except Err Nat
  NewPublicHash : Nat → Nat
  Process : Nat → Except Err Nat
  Validate : Transaction → Nat → Nat → Context → List Nat → Option Err

/-! ## pof/formulator_node.go: transaction admission -/

/-- The sequence check of `addTx` (the `if atx, is := tx.(chain.AccountTransaction)`
block): `seq+100` is a `uint64` sum. -/
def seqGate (env : AddTxEnv) (ctx : Context) (tx : Transaction) : Option Err :=
  match tx.account with
  | some (sender, txSeq) =>
    let seq := env.Seq ctx sender
    if txSeq ≤ seq then some .ErrPastSeq
    else if txSeq > u64 (seq + 100) then some .ErrTooFarSeq
    else none
  | none => none

/-- The signer loop of `addTx`: recover one public hash per signature, stopping
at the first recovery error. -/
def recoverSigners (env : AddTxEnv) (TxHash : Nat) : List Nat → List Nat → Except Err (List Nat)
  | [], signers => .ok signers
  | sig :: rest, signers =>
    match env.RecoverPubkey TxHash sig with
    | .error e => .error e
    | .ok pubkey => recoverSigners env TxHash rest (signers ++ [env.NewPublicHash pubkey])

/-- Go `FormulatorNode.addTx`: the returned error (`none` is Go's `nil`) and the
pool and expire queue after the call. -/
def addTx (env : AddTxEnv) (st : TxStore) (t : Nat) (tx : Transaction) (sigs : List Nat) :
    Option Err × TxStore :=
  if st.Size > 65535 then (some .ErrTransactionPoolOverflowed, st)
  else
    let TxHash := env.HashTransactionByType env.ChainID t tx
    let ctx := env.NewContext
    if st.IsExist TxHash then (some .ErrExistTransaction, st)
    else
      match seqGate env ctx tx with
      | some e => (some e, st)
      | none =>
        match recoverSigners env TxHash sigs [] with
        | .error e => (some e, st)
        | .ok signers =>
          let pid := u8 (t >>> 8)
          match env.Process pid with
          | .error e => (some e, st)
          | .ok p =>
            match env.Validate tx p pid ctx signers with
            | some e => (some e, st)
            | none =>
              match st.Push t TxHash tx sigs signers with
              | .error e => (some e, st)
              | .ok pool =>
                (none, { txpool := pool, txQ := st.txQ ++ [(TxHash, ⟨t, tx, sigs⟩)] })

/-! ## Handshake (pof/formulator_mesh.go, service/p2p/node_mesh.go,
pof/observer_formulator_service.go) -/

/-- Go `binary.LittleEndian.Uint64` on the first eight bytes of `b`. -/
def uint64LE (b : List Nat) : Nat :=
  b.getD 0 0 ||| u64 (b.getD 1 0 <<< 8) ||| u64 (b.getD 2 0 <<< 16) ||| u64 (b.getD 3 0 <<< 24)
    ||| u64 (b.getD 4 0 <<< 32) ||| u64 (b.getD 5 0 <<< 40) ||| u64 (b.getD 6 0 <<< 48)
    ||| u64 (b.getD 7 0 <<< 56)

/-- Go `binary.LittleEndian.PutUint64` into a fresh eight-byte slice. -/
def putUint64LE (v : Nat) : List Nat :=
  [u8 v, u8 (v >>> 8), u8 (v >>> 16), u8 (v >>> 24), u8 (v >>> 32), u8 (v >>> 40),
    u8 (v >>> 48), u8 (v >>> 56)]

/-- The connection and key a handshake runs against: `FillBytes n` is the
outcome of reading `n` bytes, `Write` the outcome of a write, `Hash` and `Sign`
the digest and the key's signature of it. -/
structure HandshakeConn where
  FillBytes : Nat → Except Err (List Nat)
  Write : List Nat → Option Err
  Hash : List Nat → Nat
  Sign : Nat → Except Err (List Nat)

/-- The clock-skew test shared verbatim by the three `recvHandshake` functions:
`diff := time.Duration(uint64(now) - timestamp); if diff < 0 { diff = -diff };
diff > time.Second*30`, with `now` the value of `uint64(time.Now().UnixNano())`.
The subtraction is a `uint64` one and the negation an `int64` one. -/
def skewTooLarge (now timestamp : Nat) : Bool :=
  let diff := toInt64 (subU64 now timestamp)
  let diff := if diff < 0 then wrapInt64 (-diff) else diff
  decide (diff > (second : Int) * 30)

/-- Go `FormulatorNodeMesh.recvHandshake`: the returned error and the byte
strings written to the connection. -/
def FormulatorNodeMesh.recvHandshake (chainID now : Nat) (conn : HandshakeConn) :
    Option Err × List (List Nat) :=
  match conn.FillBytes 40 with
  | .error e => (some e, [])
  | .ok req =>
    let ChainID := req.getD 0 0
    if ChainID ≠ chainID then (some .ErrInvalidChainID, [])
    else
      let timestamp := uint64LE (req.drop 32)
      if skewTooLarge now timestamp then (some .ErrInvalidHandshake, [])
      else
        match conn.Sign (conn.Hash req) with
        | .error e => (some e, [])
        | .ok sig =>
          match conn.Write sig with
          | some e => (some e, [])
          | none => (none, [sig])

/-- Go `NodeMesh.recvHandshake`: as above, followed by the one-byte length and
the bytes of the bind address. -/
def NodeMesh.recvHandshake (chainID now : Nat) (BindAddress : List Nat) (conn : HandshakeConn) :
    Option Err × List (List Nat) :=
  match conn.FillBytes 40 with
  | .error e => (some e, [])
  | .ok req =>
    let ChainID := req.getD 0 0
    if ChainID ≠ chainID then (some .ErrInvalidChainID, [])
    else
      let timestamp := uint64LE (req.drop 32)
      if skewTooLarge now timestamp then (some .ErrInvalidHandshake, [])
      else
        match conn.Sign (conn.Hash req) with
        | .error e => (some e, [])
        | .ok sig =>
          match conn.Write sig with
          | some e => (some e, [])
          | none =>
            let length := u8 BindAddress.length
            match conn.Write [length] with
            | some e => (some e, [sig])
            | none =>
              match conn.Write BindAddress with
              | some e => (some e, [sig, [length]])
              | none => (none, [sig, [length], BindAddress])

/-- Go `FormulatorService.recvHandshake` (observer side): the challenge carries
the formulator address after the 40 bytes; the result is the address or the
error, and the byte strings written. -/
def FormulatorService.recvHandshake (AddressSize chainID now : Nat) (conn : HandshakeConn) :
    Except Err (List Nat) × List (List Nat) :=
  match conn.FillBytes (40 + AddressSize) with
  | .error e => (.error e, [])
  | .ok req =>
    let ChainID := req.getD 0 0
    if ChainID ≠ chainID then (.error .ErrInvalidChainID, [])
    else
      let timestamp := uint64LE (req.drop 32)
      let Formulator := (req.drop 40).take AddressSize
      if skewTooLarge now timestamp then (.error .ErrInvalidHandshake, [])
      else
        match conn.Sign (conn.Hash req) with
        | .error e => (.error e, [])
        | .ok sig =>
          match conn.Write sig with
          | some e => (.error e, [])
          | none => (.ok Formulator, [sig])

/-! ## Round state (pof/messages.go, pof/formulator_node.go) -/

/-- Go `types.Header`, reduced to the fields the round driver reads or sets. -/
structure Header where
  Height : Nat
  PrevHash : Nat
  Generator : Nat
  Timestamp : Nat
  ConsensusData : Nat
  deriving DecidableEq, Repr

/-- Go `types.Block`. -/
structure Block where
  Header : Header
  TransactionTypes : List Nat
  Transactions : List Transaction
  TransactionSignatures : List (List Nat)
  TransactionResults : List Nat
  Signatures : List Nat
  deriving DecidableEq, Repr

/-- Go `pof.BlockReqMessage`. -/
structure BlockReqMessage where
  PrevHash : Nat
  TargetHeight : Nat
  TimeoutCount : Nat
  Formulator : Nat
  FormulatorPublicHash : Nat
  deriving DecidableEq, Repr

/-- Go `pof.BlockGenMessage`. -/
structure BlockGenMessage where
  Block : Block
  GeneratorSignature : Nat
  IsReply : Bool
  deriving DecidableEq, Repr

/-- Go `pof.BlockObSignMessage`; `BlockSign` is reduced to its header hash. -/
structure BlockObSignMessage where
  TargetHeight : Nat
  HeaderHash : Nat
  ObserverSignatures : List Nat
  deriving DecidableEq, Repr

/-- Go `p2p.RequestMessage`. -/
structure RequestMessage where
  Height : Nat
  Count : Nat
  deriving DecidableEq, Repr

/-- The round fields of `FormulatorNode`. -/
structure RoundState where
  lastGenMessages : List BlockGenMessage
  lastObSignMessageMap : List (Nat × BlockObSignMessage)
  lastContextes : List Context
  lastReqMessage : Option BlockReqMessage
  lastGenHeight : Nat
  lastGenTime : Int
  deriving DecidableEq, Repr

/-- What the `BlockReqMessage` branch reads from outside the round state: the
chain tip, the clock (`time.Now().UnixNano()`), the address of the rank that
`fr.cs.rt.TopRank(int(TimeoutCount))` returns or its error, the configured
formulator address, the public hash of the node key, and the outcome of
`fr.ms.SendTo`. -/
structure ReqEnv where
  Height : Nat
  LastHash : Nat
  now : Int
  TopRank : Nat → Except Err Nat
  ConfigFormulator : Nat
  keyPublicHash : Nat
  SendTo : RequestMessage → Option Err

/-- The observable result of handling one `BlockReqMessage`: the returned error,
the round state, the messages sent to the observer, the retry count of the
delayed re-invocation the handler scheduled (if any), and the request for which
it started `genBlock` (if any). -/
structure ReqOutcome where
  err : Option Err
  state : RoundState
  sent : List RequestMessage
  retry : Option Nat
  gen : Option BlockReqMessage
  deriving DecidableEq, Repr

/-- The `case *BlockReqMessage` branch of Go `FormulatorNode.handleObserverMessage`.
Heights are `uint32`, `lastGenTime+int64(30*time.Second)` is an `int64` sum. -/
def handleBlockReqMessage (env : ReqEnv) (fr : RoundState) (msg : BlockReqMessage)
    (RetryCount : Nat) : ReqOutcome :=
  let Height := env.Height
  if msg.TargetHeight ≤ fr.lastGenHeight ∧
      wrapInt64 (fr.lastGenTime + 30 * (second : Int)) > env.now then
    ⟨none, fr, [], none, none⟩
  else if (match fr.lastReqMessage with
      | some last => decide (msg.TargetHeight ≤ last.TargetHeight)
      | none => false) then
    ⟨none, fr, [], none, none⟩
  else if msg.TargetHeight ≤ Height then
    ⟨none, fr, [], none, none⟩
  else if msg.TargetHeight > u32 (Height + 1) then
    if RetryCount ≥ 10 then ⟨none, fr, [], none, none⟩
    else if RetryCount = 0 then
      let Count := u8 (subU32 (subU32 msg.TargetHeight Height) 1)
      let Count := if Count > 10 then 10 else Count
      let sm : RequestMessage := ⟨u32 (Height + 1), Count⟩
      match env.SendTo sm with
      | some e => ⟨some e, fr, [], none, none⟩
      | none => ⟨none, fr, [sm], some (RetryCount + 1), none⟩
    else ⟨none, fr, [], some (RetryCount + 1), none⟩
  else
    match env.TopRank msg.TimeoutCount with
    | .error e => ⟨some e, fr, [], none, none⟩
    | .ok TopAddress =>
      if msg.Formulator ≠ TopAddress then ⟨some .ErrInvalidRequest, fr, [], none, none⟩
      else if msg.Formulator ≠ env.ConfigFormulator then
        ⟨some .ErrInvalidRequest, fr, [], none, none⟩
      else if msg.FormulatorPublicHash ≠ env.keyPublicHash then
        ⟨some .ErrInvalidRequest, fr, [], none, none⟩
      else if msg.PrevHash ≠ env.LastHash then ⟨some .ErrInvalidRequest, fr, [], none, none⟩
      else if msg.TargetHeight ≠ u32 (Height + 1) then
        ⟨some .ErrInvalidRequest, fr, [], none, none⟩
      else ⟨none, { fr with lastReqMessage := some msg }, [], none, some msg⟩

/-! ## Block generation (pof/formulator_node.go, `genBlock`) -/

/-- Modelled from the spec: the block creator of core/chain, which is not among
the sources.  It holds the context the block is built on and the transactions
kept so far ("on failure revert and continue; on success keep"). -/
structure BlockCreator where
  ctx : Context
  Generator : Nat
  ConsensusData : Nat
  txs : List PoolItem
  deriving DecidableEq, Repr

/-- What `genBlock` reads from outside the round state.  `timerPasses i` is the
number of passes of the transaction loop of block `i` that find the 600ms timer
not yet fired; `clock i` is `time.Now().UnixNano()` after block `i` was sent.
`UnsafePop`, `execute` and the error outcomes stand for the pool, the ledger,
the codec, the key and the mesh. -/
structure GenEnv where
  maxBlocksPerFormulator : Nat
  blocksBySameFormulator : Nat
  MaxTransactionsPerBlock : Int
  ConfigFormulator : Nat
  Now : Nat
  LastTimestamp : Nat
  NewContext : Context
  NextContext : Context → Nat → Nat → Context
  LastHash : Context → Nat
  hashHeader : Header → Nat
  EncodeUint32 : Nat → Option Err
  Init : Nat → Option Err
  timerPasses : Nat → Nat
  UnsafePop : List PoolItem → Context → Option (PoolItem × List PoolItem)
  execute : Context → PoolItem → Except Err Context
  FinalizeErr : Nat → Option Err
  Sign : Nat → Except Err Nat
  SendTo : BlockGenMessage → Option Err
  clock : Nat → Int

/-- The loop bound of `genBlock`: `maxBlocksPerFormulator`, or, when the request
has `TimeoutCount == 0`, the `uint32` difference
`maxBlocksPerFormulator - blocksBySameFormulator`. -/
def RemainBlocks (env : GenEnv) (msg : BlockReqMessage) : Nat :=
  if msg.TimeoutCount = 0 then subU32 env.maxBlocksPerFormulator env.blocksBySameFormulator
  else env.maxBlocksPerFormulator

/-- Modelled from the spec: `BlockCreator.UnsafeAddTx`; a transaction that
executes on the creator's context is kept, a failing one leaves it as it was. -/
def UnsafeAddTx (env : GenEnv) (bc : BlockCreator) (item : PoolItem) : Except Err BlockCreator :=
  match env.execute bc.ctx item with
  | .error e => .error e
  | .ok ctx => .ok { bc with ctx := ctx, txs := bc.txs ++ [item] }

/-- Modelled from the spec: `BlockCreator.Finalize`; the header takes the
context's target height and last hash and the chosen timestamp. -/
def Finalize (env : GenEnv) (bc : BlockCreator) (Timestamp : Nat) : Block :=
  { Header := ⟨bc.ctx.TargetHeight, env.LastHash bc.ctx, bc.Generator, Timestamp,
      bc.ConsensusData⟩
    TransactionTypes := bc.txs.map (fun r => r.TxType)
    Transactions := bc.txs.map (fun r => r.Transaction)
    TransactionSignatures := bc.txs.map (fun r => r.Signatures)
    TransactionResults := []
    Signatures := [] }

/-- The `TxLoop` of `genBlock`, recursive on the number of passes left before the
timer fires.  Each pass pops a record (the context is snapshotted and reverted
around the pop), tries `UnsafeAddTx`, and after a success increments `Count` and
leaves the loop when `Count > MaxTransactionsPerBlock`.  The result is the pool,
the block creator and `Count` at loop exit. -/
def TxLoop (env : GenEnv) : Nat → List PoolItem → BlockCreator → Int →
    List PoolItem × BlockCreator × Int
  | 0, pool, bc, Count => (pool, bc, Count)
  | passes + 1, pool, bc, Count =>
    match env.UnsafePop pool bc.ctx with
    | none => (pool, bc, Count)
    | some (item, pool) =>
      match UnsafeAddTx env bc item with
      | .error _ => TxLoop env passes pool bc Count
      | .ok bc =>
        if Count + 1 > env.MaxTransactionsPerBlock then (pool, bc, Count + 1)
        else TxLoop env passes pool bc (Count + 1)

/-- The observable result of one run of `genBlock`: the returned error, the
round state, the pool, and the `BlockGenMessage`s sent to the observer in
order. -/
structure GenOutcome where
  err : Option Err
  state : RoundState
  pool : List PoolItem
  sent : List BlockGenMessage
  deriving DecidableEq, Repr

/-- The timestamp `genBlock` gives block `i` on context `ctx`. -/
def blockTimestamp (env : GenEnv) (StartBlockTime : Nat) (bNoDelay : Bool) (i : Nat)
    (ctx : Context) : Nat :=
  let Timestamp := StartBlockTime
  let Timestamp :=
    if bNoDelay ∨ Timestamp > u64 (env.Now + 3 * second) then
      u64 (Timestamp + u64 (i * millisecond))
    else u64 (Timestamp + u64 (i * (500 * millisecond)))
  if Timestamp ≤ ctx.LastTimestamp then u64 (ctx.LastTimestamp + 1) else Timestamp

/-- The `for i := uint32(0); i < RemainBlocks; i++` loop of `genBlock`, recursive
on the number of iterations left.  `lastHeader` is `none` only before the first
iteration.  The pacing sleep at the end of an iteration changes no value and is
left out. -/
def genBlockLoop (env : GenEnv) (msg : BlockReqMessage) (StartBlockTime : Nat)
    (bNoDelay : Bool) : Nat → Nat → Context → Option Header → RoundState → List PoolItem →
    List BlockGenMessage → GenOutcome
  | 0, _, _, _, fr, pool, sent => ⟨none, fr, pool, sent⟩
  | left + 1, i, ctx, lastHeader, fr, pool, sent =>
    let TimeoutCount := if i = 0 then msg.TimeoutCount else 0
    let ctx :=
      if i = 0 then ctx
      else
        match lastHeader with
        | some h => env.NextContext ctx (env.hashHeader h) h.Timestamp
        | none => ctx
    let Timestamp := blockTimestamp env StartBlockTime bNoDelay i ctx
    match env.EncodeUint32 TimeoutCount with
    | some e => ⟨some e, fr, pool, sent⟩
    | none =>
      let bc : BlockCreator := ⟨ctx, msg.Formulator, TimeoutCount, []⟩
      match env.Init i with
      | some e => ⟨some e, fr, pool, sent⟩
      | none =>
        match TxLoop env (env.timerPasses i) pool bc 0 with
        | (pool, bc, _) =>
          match env.FinalizeErr i with
          | some e => ⟨some e, fr, pool, sent⟩
          | none =>
            let b := Finalize env bc Timestamp
            match env.Sign (env.hashHeader b.Header) with
            | .error e => ⟨some e, fr, pool, sent⟩
            | .ok sig =>
              let nm : BlockGenMessage := ⟨b, sig, false⟩
              match env.SendTo nm with
              | some e => ⟨some e, fr, pool, sent⟩
              | none =>
                let fr := { fr with
                  lastGenMessages := fr.lastGenMessages ++ [nm]
                  lastContextes := fr.lastContextes ++ [bc.ctx]
                  lastGenHeight := bc.ctx.TargetHeight
                  lastGenTime := env.clock i }
                genBlockLoop env msg StartBlockTime bNoDelay left (i + 1) bc.ctx
                  (some b.Header) fr pool (sent ++ [nm])

/-- Go `FormulatorNode.genBlock`. -/
def genBlock (env : GenEnv) (fr : RoundState) (pool : List PoolItem) (msg : BlockReqMessage) :
    GenOutcome :=
  let fr := { fr with lastGenMessages := [], lastObSignMessageMap := [], lastContextes := [] }
  let Now := env.Now
  let Remain := RemainBlocks env msg
  let LastTimestamp := env.LastTimestamp
  let StartBlockTime :=
    if Now < LastTimestamp then u64 (LastTimestamp + millisecond) else Now
  let bNoDelay : Bool :=
    if Now < LastTimestamp then false
    else decide (Now > u64 (LastTimestamp + u64 (Remain * (500 * millisecond))))
  genBlockLoop env msg StartBlockTime bNoDelay Remain 0 env.NewContext none fr pool []

/-! ## Transaction messages (pof/formulator_node.go) -/

/-- The result of handing a `TransactionMessage` to a transaction worker: the
error that comes back on the channel (or is returned by the handler), the pool
and expire queue, and the gossip `exceptLimitCastMessage(1, sender, msg)` the
worker queues after an admission. -/
structure TxOutcome where
  err : Option Err
  store : TxStore
  gossip : List (Nat × TransactionMessage)
  deriving DecidableEq, Repr

/-- The body of a transaction worker in `Run`: `addTx`, the error sent back on
`ErrCh`, and on success the gossip to peers other than the sender. -/
def txWorker (env : AddTxEnv) (st : TxStore) (PeerID : Nat) (msg : TransactionMessage) :
    TxOutcome :=
  match addTx env st msg.TxType msg.Tx msg.Sigs with
  | (some e, st) => ⟨some e, st, []⟩
  | (none, st) => ⟨none, st, [(PeerID, msg)]⟩

/-- The `case *p2p.TransactionMessage` branch of Go `FormulatorNode.handlePeerMessage`:
the worker's answer is returned unless it is one of the four swallowed errors. -/
def handlePeerTransactionMessage (env : AddTxEnv) (st : TxStore) (ID : Nat)
    (msg : TransactionMessage) : TxOutcome :=
  let out := txWorker env st ID msg
  let err := out.err
  if err ≠ some .ErrInvalidUTXO ∧ err ≠ some .ErrExistTransaction ∧ err ≠ some .ErrTooFarSeq ∧
      err ≠ some .ErrPastSeq then
    { out with err := err }
  else { out with err := none }

/-- The `case *p2p.TransactionMessage` branch of Go
`FormulatorNode.handleObserverMessage`. -/
def handleObserverTransactionMessage (env : AddTxEnv) (st : TxStore) (ID : Nat)
    (msg : TransactionMessage) : TxOutcome :=
  let out := txWorker env st ID msg
  let err := out.err
  if err ≠ some .ErrInvalidUTXO ∧ err ≠ some .ErrExistTransaction ∧ err ≠ some .ErrTooFarSeq ∧
      err ≠ some .ErrPastSeq then
    { out with err := err }
  else { out with err := none }

/-! ## Received blocks (pof/formulator_node.go, `addBlock` and the `BlockMessage`
branches) -/

/-- Modelled from the spec: `queue.SortedQueue` of common/queue, which is not
among the sources: entries `(height, block)` sorted ascending by height. -/
structure SortedQueue where
  items : List (Nat × Block)
  deriving DecidableEq, Repr

/-- Modelled from the spec: `SortedQueue.Find`, the entry stored under `key`. -/
def SortedQueue.Find (q : SortedQueue) (key : Nat) : Option Block :=
  (q.items.find? (fun e => e.1 == key)).map (fun e => e.2)

/-- Insertion of `(key, b)` before the first entry with a larger key. -/
def insertSorted (key : Nat) (b : Block) : List (Nat × Block) → List (Nat × Block)
  | [] => [(key, b)]
  | e :: rest => if key < e.1 then (key, b) :: e :: rest else e :: insertSorted key b rest

/-- Modelled from the spec: `SortedQueue.FindOrInsert` "returns the existing
entry if height already present"; otherwise it inserts and returns nil. -/
def SortedQueue.FindOrInsert (q : SortedQueue) (b : Block) (key : Nat) :
    Option Block × SortedQueue :=
  match q.Find key with
  | some old => (some old, q)
  | none => (none, ⟨insertSorted key b q.items⟩)

/-- What `addBlock` reads from the chain provider: the height, the stored hash of
a height (or the store's error code) and the header hash `encoding.Hash`. -/
structure ChainView where
  Height : Nat
  Hash : Nat → Except Nat Nat
  hashHeader : Header → Nat

/-- Go `FormulatorNode.addBlock`: the returned error and the block queue.  An
error of the provider's hash lookup is returned as it is (`external`). -/
def addBlock (cp : ChainView) (q : SortedQueue) (b : Block) : Option Err × SortedQueue :=
  if b.Header.Height ≤ cp.Height then
    match cp.Hash b.Header.Height with
    | .error code => (some (.external code), q)
    | .ok h =>
      if h ≠ cp.hashHeader b.Header then (some .ErrFoundForkedBlock, q)
      else (none, q)
  else
    match q.FindOrInsert b (u64 b.Header.Height) with
    | (some old, q) =>
      if cp.hashHeader old.Header ≠ cp.hashHeader b.Header then (some .ErrFoundForkedBlock, q)
      else (none, q)
    | (none, q) => (none, q)

/-- The `for _, b := range msg.Blocks` loop of both `BlockMessage` branches up to
its first `addBlock` error. -/
def addBlocks (cp : ChainView) : SortedQueue → List Block → Option Err × SortedQueue
  | q, [] => (none, q)
  | q, b :: rest =>
    match addBlock cp q b with
    | (some e, q) => (some e, q)
    | (none, q) => addBlocks cp q rest

/-- The observable result of a `BlockMessage` branch: the returned error, the
value the handler panicked with (if it did), the block queue, the peers passed
to `RemovePeer`, and the height recorded for the sending peer (if it has a
status entry). -/
structure BlockMsgOutcome where
  err : Option Err
  panic : Option Err
  blockQ : SortedQueue
  removed : List Nat
  status : Option Nat
  deriving DecidableEq, Repr

/-- The height update both branches make after a message whose blocks were all
added: the status entry of the peer is raised to the last block's height. -/
def raiseStatus (status : Option Nat) (Blocks : List Block) : Option Nat :=
  match Blocks.getLast?, status with
  | some last, some height =>
    if height < last.Header.Height then some last.Header.Height else some height
  | _, _ => status

/-- The `case *p2p.BlockMessage` branch of Go `FormulatorNode.handlePeerMessage`. -/
def handlePeerBlockMessage (cp : ChainView) (q : SortedQueue) (ID : Nat) (status : Option Nat)
    (Blocks : List Block) : BlockMsgOutcome :=
  match addBlocks cp q Blocks with
  | (some e, q) =>
    if e = .ErrFoundForkedBlock then ⟨some e, none, q, [ID], status⟩
    else ⟨some e, none, q, [], status⟩
  | (none, q) => ⟨none, none, q, [], raiseStatus status Blocks⟩

/-- The `case *p2p.BlockMessage` branch of Go `FormulatorNode.handleObserverMessage`:
a forked block makes the handler panic.  The follow-up `tryRequestNext` after a
non-empty message is left out. -/
def handleObserverBlockMessage (cp : ChainView) (q : SortedQueue) (status : Option Nat)
    (Blocks : List Block) : BlockMsgOutcome :=
  match addBlocks cp q Blocks with
  | (some e, q) =>
    if e = .ErrFoundForkedBlock then ⟨none, some e, q, [], status⟩
    else ⟨some e, none, q, [], status⟩
  | (none, q) => ⟨none, none, q, [], raiseStatus status Blocks⟩

/-! ## Observer signatures (pof/formulator_node.go, the `BlockObSignMessage`
branch) -/

/-- What the `BlockObSignMessage` branch reads from outside the round state: the
chain height at handler entry, the header hash, and the outcome of
`ConnectBlockWithContext`. -/
structure ObSignEnv where
  Height : Nat
  hashHeader : Header → Nat
  ConnectBlockWithContext : Block → Context → Option Err

/-- The observable result of handling one `BlockObSignMessage`: the returned
error, whether the handler panicked (nil dereference or index out of range),
whether it loops forever, the round state, and the calls made to
`ConnectBlockWithContext` in order. -/
structure ObSignOutcome where
  err : Option Err
  panic : Bool
  hang : Bool
  state : RoundState
  calls : List (Block × Context)
  deriving DecidableEq, Repr

/-- The map store `fr.lastObSignMessageMap[key] = msg`. -/
def signMapSet (m : List (Nat × BlockObSignMessage)) (key : Nat) (msg : BlockObSignMessage) :
    List (Nat × BlockObSignMessage) :=
  (key, msg) :: m.filter (fun e => e.1 != key)

/-- The block the handler assembles for a commit: the generated block with
`Signatures = append([GeneratorSignature], sm.ObserverSignatures...)`. -/
def signedBlock (GenMessage : BlockGenMessage) (sm : BlockObSignMessage) : Block :=
  { Header := GenMessage.Block.Header
    TransactionTypes := GenMessage.Block.TransactionTypes
    Transactions := GenMessage.Block.Transactions
    TransactionSignatures := GenMessage.Block.TransactionSignatures
    TransactionResults := GenMessage.Block.TransactionResults
    Signatures := GenMessage.GeneratorSignature :: sm.ObserverSignatures }

/-- The `for len(fr.lastGenMessages) > 0` loop of the branch.  `TargetHeight` is
the value computed once at handler entry; `fr` carries the fields the loop does
not touch.  Popping the head keeps the tails when more than one generated
message is left and empties both lists otherwise; `lastContextes[1:]` and
`lastContextes[0]` panic on an empty list.  The status broadcast, pool cleaning
and status-map update after a commit are left out. -/
def drainGenerated (env : ObSignEnv) (TargetHeight : Nat)
    (signMap : List (Nat × BlockObSignMessage)) (fr : RoundState) :
    List BlockGenMessage → List Context → List (Block × Context) → ObSignOutcome
  | [], ctxs, calls =>
    ⟨none, false, false, { fr with lastGenMessages := [], lastContextes := ctxs }, calls⟩
  | GenMessage :: gens, ctxs, calls =>
    if GenMessage.Block.Header.Height < TargetHeight then
      if gens.isEmpty then
        ⟨none, false, false, { fr with lastGenMessages := [], lastContextes := [] }, calls⟩
      else
        match ctxs with
        | [] =>
          ⟨none, true, false, { fr with lastGenMessages := gens, lastContextes := [] }, calls⟩
        | _ :: rest => drainGenerated env TargetHeight signMap fr gens rest calls
    else if GenMessage.Block.Header.Height > TargetHeight then
      ⟨none, false, false,
        { fr with lastGenMessages := GenMessage :: gens, lastContextes := ctxs }, calls⟩
    else
      match signMap.lookup GenMessage.Block.Header.Height with
      | none =>
        ⟨none, false, false,
          { fr with lastGenMessages := GenMessage :: gens, lastContextes := ctxs }, calls⟩
      | some sm =>
        if GenMessage.Block.Header.Height = sm.TargetHeight then
          match ctxs with
          | [] =>
            ⟨none, true, false,
              { fr with lastGenMessages := GenMessage :: gens, lastContextes := [] }, calls⟩
          | ctx :: rest =>
            if sm.HeaderHash ≠ env.hashHeader GenMessage.Block.Header then
              ⟨some .ErrInvalidRequest, false, false,
                { fr with lastGenMessages := GenMessage :: gens, lastContextes := ctx :: rest },
                calls⟩
            else
              let b := signedBlock GenMessage sm
              match env.ConnectBlockWithContext b ctx with
              | some e =>
                ⟨some e, false, false,
                  { fr with lastGenMessages := GenMessage :: gens, lastContextes := ctx :: rest },
                  calls ++ [(b, ctx)]⟩
              | none =>
                drainGenerated env TargetHeight signMap fr gens
                  (if gens.isEmpty then [] else rest) (calls ++ [(b, ctx)])
        else
          ⟨none, false, true,
            { fr with lastGenMessages := GenMessage :: gens, lastContextes := ctxs }, calls⟩

/-- The `case *BlockObSignMessage` branch of Go `FormulatorNode.handleObserverMessage`. -/
def handleBlockObSignMessage (env : ObSignEnv) (fr : RoundState) (msg : BlockObSignMessage) :
    ObSignOutcome :=
  let TargetHeight := u32 (env.Height + 1)
  if msg.TargetHeight < TargetHeight then ⟨none, false, false, fr, []⟩
  else
    match fr.lastReqMessage with
    | none => ⟨none, true, false, fr, []⟩
    | some req =>
      if msg.TargetHeight ≥ u32 (req.TargetHeight + 10) then
        ⟨some .ErrInvalidRequest, false, false, fr, []⟩
      else
        let signMap := signMapSet fr.lastObSignMessageMap msg.TargetHeight msg
        let fr := { fr with lastObSignMessageMap := signMap }
        drainGenerated env TargetHeight signMap fr fr.lastGenMessages fr.lastContextes []

/-! ## Observer connection (pof/formulator_mesh.go, `onObserverRecv`) -/

/-- A message of the round protocol as it reaches `onObserverRecv`. -/
inductive ObserverMessage where
  | blockReq (m : BlockReqMessage)
  | blockObSign (m : BlockObSignMessage)
  deriving DecidableEq, Repr

/-- Go `FormulatorNode.onObserverRecv` on the two round messages:
`handleObserverMessage(ID, m, 0)` and its error.  The result is `none` when the
handler does not return (panic or endless loop). -/
def onObserverRecv (reqEnv : ReqEnv) (signEnv : ObSignEnv) (fr : RoundState) :
    ObserverMessage → Option (Option Err × RoundState)
  | .blockReq m =>
    let out := handleBlockReqMessage reqEnv fr m 0
    some (out.err, out.state)
  | .blockObSign m =>
    let out := handleBlockObSignMessage signEnv fr m
    if out.panic ∨ out.hang then none else some (out.err, out.state)

/-- The part of the formulator mesh and node a connection touches: the peer map
(`ID → connection`), the connections closed so far, and the ids that have an
entry in `obStatusMap`. -/
structure MeshState where
  peerMap : List (Nat × Nat)
  closed : List Nat
  obStatus : List Nat
  deriving DecidableEq, Repr

/-- Closing a connection. -/
def MeshState.Close (ms : MeshState) (conn : Nat) : MeshState :=
  if conn ∈ ms.closed then ms else { ms with closed := ms.closed ++ [conn] }

/-- Go `FormulatorNodeMesh.RemovePeer`: delete the entry and close its peer. -/
def MeshState.RemovePeer (ms : MeshState) (ID : Nat) : MeshState :=
  match ms.peerMap.lookup ID with
  | some conn => ({ ms with peerMap := ms.peerMap.filter (fun e => e.1 != ID) }).Close conn
  | none => ms

/-- The read loop of Go `FormulatorNodeMesh.handleConnection`: the messages the
connection delivers are `reads`, after which `ReadMessageData` fails with `eof`.
The loop ends at the first read error or handler error; the result is that
error, the handler state and the messages left unread, or `none` when the
handler does not return. -/
def readLoop {σ μ : Type} (recv : σ → μ → Option (Option Err × σ)) (eof : Err) :
    σ → List μ → Option (Err × σ × List μ)
  | st, [] => some (eof, st, [])
  | st, m :: rest =>
    match recv st m with
    | none => none
    | some (some e, st) => some (e, st, rest)
    | some (none, st) => readLoop recv eof st rest

/-- The state after `recv` accepted (returned nil for) every message of a list,
if it did. -/
def acceptAll {σ μ : Type} (recv : σ → μ → Option (Option Err × σ)) : σ → List μ → Option σ
  | st, [] => some st
  | st, m :: rest =>
    match recv st m with
    | some (none, st) => acceptAll recv st rest
    | _ => none

/-- The observable result of one run of `client`: the returned error, the mesh,
the handler state, the messages left unread, and the error the connection loop
ended with (which `client` only logs). -/
structure ClientOutcome (σ μ : Type) where
  err : Option Err
  mesh : MeshState
  state : σ
  unread : List μ
  loopErr : Option Err

/-- Go `FormulatorNodeMesh.handleConnection`: `OnObserverConnected`, the read
loop, and the deferred `OnObserverDisconnected`. -/
def FormulatorNodeMesh.handleConnection {σ μ : Type}
    (recv : σ → μ → Option (Option Err × σ)) (eof : Err) (ID : Nat) (ms : MeshState) (st : σ)
    (reads : List μ) : Option (Err × MeshState × σ × List μ) :=
  let ms := { ms with obStatus := ID :: ms.obStatus.filter (fun x => x != ID) }
  match readLoop recv eof st reads with
  | none => none
  | some (e, st, rest) =>
    some (e, { ms with obStatus := ms.obStatus.filter (fun x => x != ID) }, st, rest)

/-- Go `FormulatorNodeMesh.client`: dial, the two handshakes, the checks of the
peer's public hash, installation of the peer under its id, the connection loop,
and the deferred `RemovePeer` and `conn.Close`.  `dial`, `recvHandshake` and
`sendHandshake` are the outcomes of those steps, `conn` names the new
connection.  The result is `none` when the message handler does not return. -/
def FormulatorNodeMesh.client {σ μ : Type} (dial recvHandshake : Option Err)
    (sendHandshake : Except Err Nat) (TargetPubHash : Nat) (netAddressMap : List Nat)
    (conn : Nat) (recv : σ → μ → Option (Option Err × σ)) (eof : Err) (ms : MeshState)
    (st : σ) (reads : List μ) : Option (ClientOutcome σ μ) :=
  match dial with
  | some e => some ⟨some e, ms, st, reads, none⟩
  | none =>
    match recvHandshake with
    | some e => some ⟨some e, ms.Close conn, st, reads, none⟩
    | none =>
      match sendHandshake with
      | .error e => some ⟨some e, ms.Close conn, st, reads, none⟩
      | .ok pubhash =>
        if pubhash ≠ TargetPubHash then
          some ⟨some .ErrInvalidPublicHash, ms.Close conn, st, reads, none⟩
        else if pubhash ∉ netAddressMap then
          some ⟨some .ErrInvalidObserverKey, ms.Close conn, st, reads, none⟩
        else
          let ID := pubhash
          let ms := ms.RemovePeer ID
          let ms := { ms with peerMap := (ID, conn) :: ms.peerMap }
          match FormulatorNodeMesh.handleConnection recv eof ID ms st reads with
          | none => none
          | some (e, ms, st, rest) =>
            some ⟨none, ((ms.RemovePeer ID).Close conn), st, rest, some e⟩

/-! ## Framed peer (service/p2p/tcp_peer.go) -/

/-- Go `binary.LittleEndian.PutUint32` into a fresh four-byte slice. -/
def putUint32LE (v : Nat) : List Nat :=
  [u8 v, u8 (v >>> 8), u8 (v >>> 16), u8 (v >>> 24)]

/-- Go `binary.LittleEndian.Uint32` on the first four bytes of `b`. -/
def uint32LE (b : List Nat) : Nat :=
  b.getD 0 0 ||| u32 (b.getD 1 0 <<< 8) ||| u32 (b.getD 2 0 <<< 16) ||| u32 (b.getD 3 0 <<< 24)

/-- Go `binary.LittleEndian.Uint16` on the first two bytes of `b`. -/
def uint16LE (b : List Nat) : Nat :=
  b.getD 0 0 ||| u16 (b.getD 1 0 <<< 8)

/-- Go `TCPPeer.SendRaw` for a message of at least two bytes: the returned error
and the buffer handed to `conn.Write` (nothing when setting the write deadline
fails).  `gzip` is the output of the gzip writer for a body.  For shorter input
`bs[:2]` is out of range and the result is `none`. -/
def TCPPeer.SendRaw (gzip : List Nat → List Nat) (deadlineErr writeErr : Option Err)
    (bs : List Nat) : Option (Option Err × List Nat) :=
  if bs.length < 2 then none
  else
    let buffer := bs.take 2 ++ [0, 0, 0, 0]
    let buffer :=
      if bs.length > 1000 then buffer ++ [1] ++ gzip (bs.drop 2)
      else if bs.length > 2 then buffer ++ [0] ++ bs.drop 2
      else buffer ++ [0]
    let wbs := buffer.take 2 ++ putUint32LE (u32 (buffer.length - 7)) ++ buffer.drop 6
    match deadlineErr with
    | some e => some (some e, [])
    | none => some (writeErr, wbs)

/-- The header and payload of one frame as `ReadMessageData` reads them. -/
structure Frame where
  t : Nat
  Len : Nat
  cps : Nat
  zbs : List Nat
  deriving DecidableEq, Repr

/-- Modelled from the spec: the reads `ReadUint16`, `ReadUint32` and `FillBytes`
of service/p2p, which are not among the sources, take little-endian values off
the stream and fail when it ends early.  This is the header parse of Go
`TCPPeer.ReadMessageData`: type ids equal to the ping type are skipped, a zero
length is `ErrUnknownMessage`, then one flag byte and `Len` payload bytes are
read.  The result is the frame and the rest of the stream. -/
def TCPPeer.readFrame (pingType : Nat) : List Nat → Except Err (Frame × List Nat)
  | a :: b :: stream =>
    let v := uint16LE [a, b]
    if v = pingType then TCPPeer.readFrame pingType stream
    else
      let t := v
      if stream.length < 4 then .error (.external 0)
      else
        let Len := uint32LE (stream.take 4)
        let stream := stream.drop 4
        if Len = 0 then .error .ErrUnknownMessage
        else
          match stream with
          | [] => .error (.external 0)
          | cps :: stream =>
            if stream.length < Len then .error (.external 0)
            else .ok (⟨t, Len, cps, stream.take Len⟩, stream.drop Len)
  | _ => .error (.external 0)

/-- Go `TCPPeer.ReadMessageData`: the header parse, decompression when the flag
is 1, and the decoding of the body by the message factory (`decode`).  The
result is the message, the body bytes and the rest of the stream. -/
def TCPPeer.ReadMessageData {μ : Type} (pingType : Nat)
    (gunzip : List Nat → Except Err (List Nat)) (decode : Nat → List Nat → Except Err μ)
    (stream : List Nat) : Except Err (μ × List Nat × List Nat) :=
  match TCPPeer.readFrame pingType stream with
  | .error e => .error e
  | .ok (frame, rest) =>
    match (if frame.cps = 1 then gunzip frame.zbs else .ok frame.zbs) with
    | .error e => .error e
    | .ok bs =>
      match decode frame.t bs with
      | .error e => .error e
      | .ok m => .ok (m, bs, rest)

/-! ## Base timestamp of a round (pof/formulator_node.go, `genBlock`) -/

/-- The value `genBlock` gives `StartBlockTime` before its loop: `Now`, or
`LastTimestamp + uint64(time.Millisecond)` when `Now < LastTimestamp`. -/
def startBlockTime (Now LastTimestamp : Nat) : Nat :=
  if Now < LastTimestamp then u64 (LastTimestamp + millisecond) else Now

/-- The value `genBlock` gives `bNoDelay` before its loop. -/
def startNoDelay (Now LastTimestamp Remain : Nat) : Bool :=
  if Now < LastTimestamp then false
  else decide (Now > u64 (LastTimestamp + u64 (Remain * (500 * millisecond))))

/-! ## Block timer (pof/formulator_node.go, `Run`, the 50ms branch) -/

/-- Modelled from the spec: `SortedQueue.PopUntil`, which is not among the sources.
It pops the head entry when its height is exactly `key` ("popped in strict height
order", "queued blocks whose height is exactly `chain.height + 1`") and returns
nil otherwise. -/
def SortedQueue.PopUntil (q : SortedQueue) (key : Nat) : Option Block × SortedQueue :=
  match q.items with
  | (k, b) :: rest => if k = key then (some b, ⟨rest⟩) else (none, q)
  | [] => (none, q)

/-- What the block timer uses of the chain, over an abstract chain state: the
height of the provider and `ConnectBlock`, which returns an error or the next
state. -/
structure ChainOps (σ : Type) where
  Height : σ → Nat
  ConnectBlock : σ → Block → Except Err σ

/-- A block connected by the timer, with the value of `TargetHeight` it was popped
at and the chain height at that moment. -/
structure Connected where
  chainHeight : Nat
  TargetHeight : Nat
  block : Block
  deriving DecidableEq, Repr

/-- Result of one firing of the block timer: the chain state, the connected
blocks in order, the popped block whose `ConnectBlock` failed, `hasItem` (status is
broadcast and `tryRequestBlocks` runs when it is set), the block queue, and
`running`, set when the loop has not returned within the iterations given. -/
structure BlockTimerOutcome (σ : Type) where
  chain : σ
  connected : List Connected
  failed : Option Block
  hasItem : Bool
  blockQ : SortedQueue
  running : Bool

/-- The loop `for item != nil` of the block timer, by recursion on the number of
iterations left to run.  `cleanPool` and the log line do not touch the chain or
the queue and are left out. -/
def blockTimerLoop {σ : Type} (ops : ChainOps σ) :
    Nat → σ → Option Block → SortedQueue → Nat → Nat → Bool → List Connected →
      BlockTimerOutcome σ
  | 0, s, _, q, _, _, hasItem, done => ⟨s, done, none, hasItem, q, true⟩
  | _ + 1, s, none, q, _, _, hasItem, done => ⟨s, done, none, hasItem, q, false⟩
  | n + 1, s, some b, q, TargetHeight, Count, hasItem, done =>
    match ops.ConnectBlock s b with
    | .error _ => ⟨s, done, some b, hasItem, q, false⟩
    | .ok s2 =>
      if Count + 1 > 100 then
        ⟨s2, done ++ [⟨ops.Height s, TargetHeight, b⟩], none, hasItem, q, false⟩
      else
        blockTimerLoop ops n s2 (q.PopUntil (u64 (TargetHeight + 1))).1
          (q.PopUntil (u64 (TargetHeight + 1))).2 (u64 (TargetHeight + 1)) (Count + 1) true
          (done ++ [⟨ops.Height s, TargetHeight, b⟩])

/-- Go `Run`, the body of `case <-blockTimer.C` up to the test of `hasItem`, with
101 iterations of the loop available. -/
def blockTimer {σ : Type} (ops : ChainOps σ) (s : σ) (q : SortedQueue) : BlockTimerOutcome σ :=
  let TargetHeight := u64 (u32 (ops.Height s + 1))
  blockTimerLoop ops 101 s (q.PopUntil TargetHeight).1 (q.PopUntil TargetHeight).2
    TargetHeight 0 false []

/-! ## Drain tasks (pof/formulator_node.go, `Run`) -/

/-- One pass `for _, q := range queues` of a drain task, over what `Pop` returns
on each queue during the pass: queues returning nil are skipped, the first value
found is handled and ends the pass. -/
def drainPass : List (Option Nat) → Option Nat
  | [] => none
  | none :: rest => drainPass rest
  | some v :: _ => some v

/-- Where a drain task stands after the passes given: `left` is set when the
inner loop was left, after which the task sleeps 10ms and tests `isClose`;
`passes` counts the passes made and `handled` lists the handled values. -/
structure DrainOutcome where
  left : Bool
  passes : Nat
  handled : List Nat
  deriving DecidableEq, Repr

/-- The inner `for { ... }` of the recv-drain and of the send-drain task, which have
the same shape, over the passes given.  `hasMessage` is the variable declared
before the loop; a pass that finds a value sets it, and the loop is left after a
pass only when it is not set. -/
def drainInner : List (List (Option Nat)) → Bool → Nat → List Nat → DrainOutcome
  | [], _, n, handled => ⟨false, n, handled⟩
  | pass :: rest, hasMessage, n, handled =>
    match drainPass pass with
    | some v => drainInner rest true (n + 1) (handled ++ [v])
    | none =>
      if !hasMessage then ⟨true, n + 1, handled⟩
      else drainInner rest hasMessage (n + 1) handled

/-- One iteration of `for !fr.isClose`: `hasMessage := false`, then the inner
loop. -/
def drainIteration (passes : List (List (Option Nat))) : DrainOutcome :=
  drainInner passes false 0 []

/-! ## Status of an observer (pof/formulator_node.go, `handleObserverMessage`,
the `StatusMessage` branch) -/

/-- What the request loop of the `StatusMessage` branch reads: the chain height,
whether `blockQ.Find` has an entry for a height, and the result of sending the
`RequestMessage` for a height. -/
structure StatusEnv where
  Height : Nat
  queued : Nat → Bool
  SendTo : Nat → Option Err

/-- Result of the request loop: the returned error, the heights tracked by the
request timer, the heights requested and the number of completed iterations. -/
structure StatusOutcome where
  err : Option Err
  timer : List Nat
  sent : List Nat
  iterations : Nat
  deriving DecidableEq, Repr

/-- The loop `for TargetHeight <= msg.Height` of the `StatusMessage` branch, by
recursion on the number of iterations left to run; `none` when the loop has not
returned within them.  `TargetHeight` is a `uint32`.  Modelled from the spec:
`RequestTimer.Exist` and `RequestTimer.Add`, not among the sources, are
membership in and insertion into the tracked heights. -/
def requestLoop (env : StatusEnv) (msgHeight : Nat) :
    Nat → Nat → List Nat → List Nat → Nat → Option StatusOutcome
  | 0, _, _, _, _ => none
  | fuel + 1, TargetHeight, timer, sent, k =>
    if TargetHeight ≤ msgHeight then
      if !timer.contains TargetHeight then
        if !env.queued TargetHeight then
          match env.SendTo TargetHeight with
          | some e => some ⟨some e, timer, sent, k⟩
          | none =>
            requestLoop env msgHeight fuel (u32 (TargetHeight + 1)) (TargetHeight :: timer)
              (sent ++ [TargetHeight]) (k + 1)
        else requestLoop env msgHeight fuel (u32 (TargetHeight + 1)) timer sent (k + 1)
      else requestLoop env msgHeight fuel (u32 (TargetHeight + 1)) timer sent (k + 1)
    else some ⟨none, timer, sent, k⟩

/-- Go `handleObserverMessage`, the `StatusMessage` branch after the update of
`obStatusMap`: `TargetHeight := cp.Height() + 1`, then the request loop. -/
def handleObserverStatusMessage (env : StatusEnv) (msgHeight : Nat) (timer : List Nat)
    (fuel : Nat) : Option StatusOutcome :=
  requestLoop env msgHeight fuel (u32 (env.Height + 1)) timer [] 0

/-! ## Node mesh (service/p2p/node_mesh.go) -/

/-- A peer of the node mesh: its `ID()` and the connection it wraps. -/
structure NodePeer where
  ID : Nat
  conn : Nat
  deriving DecidableEq, Repr

/-- Go `m[k]` on a `map[string]peer.Peer`, kept as an association list. -/
def mapGet (m : List (Nat × NodePeer)) (k : Nat) : Option NodePeer :=
  match m with
  | [] => none
  | (k2, p) :: rest => if k2 = k then some p else mapGet rest k

/-- Go `m[k] = p`. -/
def mapSet (m : List (Nat × NodePeer)) (k : Nat) (p : NodePeer) : List (Nat × NodePeer) :=
  match m with
  | [] => [(k, p)]
  | (k2, p2) :: rest => if k2 = k then (k, p) :: rest else (k2, p2) :: mapSet rest k p

/-- Go `delete(m, k)`. -/
def mapDelete (m : List (Nat × NodePeer)) (k : Nat) : List (Nat × NodePeer) :=
  m.filter (fun e => e.1 != k)

/-- The two peer maps of `NodeMesh` and the connections closed so far. -/
structure NodeMeshState where
  clientPeerMap : List (Nat × NodePeer)
  serverPeerMap : List (Nat × NodePeer)
  closed : List Nat
  deriving DecidableEq, Repr

/-- Go `NodeMesh.removePeerInMap`: the lookup and the delete are made on
`ms.clientPeerMap`; the parameter `peerMap` is not used by the body. -/
def NodeMeshState.removePeerInMap (ms : NodeMeshState) (ID : Nat)
    (_peerMap : List (Nat × NodePeer)) : NodeMeshState :=
  match mapGet ms.clientPeerMap ID with
  | some p =>
    { ms with clientPeerMap := mapDelete ms.clientPeerMap ID, closed := ms.closed ++ [p.conn] }
  | none => ms

/-- Go `NodeMesh.GetPeer`: the client map first, then the server map. -/
def NodeMeshState.GetPeer (ms : NodeMeshState) (ID : Nat) : Option NodePeer :=
  match mapGet ms.clientPeerMap ID with
  | some cp => some cp
  | none => mapGet ms.serverPeerMap ID

/-- Go `NodeMesh.client`, from `ms.Lock()` to the call of `removePeerInMap` on a
collision: the handshaken peer `p` is stored under its id and, when the id had an
entry `old`, `removePeerInMap(old.ID(), ms.clientPeerMap)` runs. -/
def NodeMeshState.installClient (ms : NodeMeshState) (p : NodePeer) : NodeMeshState :=
  let old := mapGet ms.clientPeerMap p.ID
  let ms2 := { ms with clientPeerMap := mapSet ms.clientPeerMap p.ID p }
  match old with
  | some o => ms2.removePeerInMap o.ID ms2.clientPeerMap
  | none => ms2

/-- Go `NodeMesh.server`, the same steps of the accept goroutine on
`ms.serverPeerMap`. -/
def NodeMeshState.installServer (ms : NodeMeshState) (p : NodePeer) : NodeMeshState :=
  let old := mapGet ms.serverPeerMap p.ID
  let ms2 := { ms with serverPeerMap := mapSet ms.serverPeerMap p.ID p }
  match old with
  | some o => ms2.removePeerInMap o.ID ms2.serverPeerMap
  | none => ms2

/-- Go `NodeMesh.server`, what runs in the accept goroutine when
`handleConnection(p)` has returned: the deferred
`removePeerInMap(p.ID(), ms.serverPeerMap)`, then the deferred `conn.Close()`. -/
def NodeMeshState.serverCleanup (ms : NodeMeshState) (p : NodePeer) : NodeMeshState :=
  let ms2 := ms.removePeerInMap p.ID ms.serverPeerMap
  { ms2 with closed := ms2.closed ++ [p.conn] }

/-- The reconnect test of Go `NodeMesh.Run`: a dial is made when the id has an
entry in neither map. -/
def NodeMeshState.dials (ms : NodeMeshState) (ID : Nat) : Bool :=
  (mapGet ms.clientPeerMap ID).isNone && (mapGet ms.serverPeerMap ID).isNone

/-- The loops of `ExceptCastLimit` and `Peers` that copy a peer map into
`peerMap` under `p.ID()`, leaving out the peers with id `ID`. -/
def collectExcept (ID : Nat) (peerMap src : List (Nat × NodePeer)) : List (Nat × NodePeer) :=
  match src with
  | [] => peerMap
  | (_, p) :: rest =>
    if p.ID ≠ ID then collectExcept ID (mapSet peerMap p.ID p) rest
    else collectExcept ID peerMap rest

/-- Insertion into an ascending list of ids. -/
def insertId (id : Nat) : List Nat → List Nat
  | [] => [id]
  | x :: rest => if id ≤ x then id :: x :: rest else x :: insertId id rest

/-- Go `sort.Strings(ids)` on the keys of `peerMap`. -/
def sortIds : List Nat → List Nat
  | [] => []
  | x :: rest => insertId x (sortIds rest)

/-- Go `targetMap[id] = true` on a set of ids. -/
def setAdd (s : List Nat) (id : Nat) : List Nat :=
  if id ∈ s then s else s ++ [id]

/-- The sorted ids `ExceptCastLimit` draws from. -/
def castIds (ms : NodeMeshState) (ID : Nat) : List Nat :=
  sortIds ((collectExcept ID (collectExcept ID [] ms.clientPeerMap) ms.serverPeerMap).map
    (fun e => e.1))

/-- Go `NodeMesh.ExceptCastLimit`: the returned error and the peers `SendRaw` is
called on.  `packet` is the result of `MessageToPacket(m)`; the three values of
`rand.Intn(len(ids))` are `r0`, `r1` and `r2` reduced modulo `len(ids)`.  The
parameter `Limit` is not used by the body. -/
def NodeMeshState.ExceptCastLimit (ms : NodeMeshState) (ID : Nat)
    (packet : Except Err (List Nat)) (_Limit : Int) (r0 r1 r2 : Nat) :
    Option Err × List NodePeer :=
  match packet with
  | .error err => (some err, [])
  | .ok _ =>
    let peerMap := collectExcept ID (collectExcept ID [] ms.clientPeerMap) ms.serverPeerMap
    let ids := sortIds (peerMap.map (fun e => e.1))
    if ids.length > 0 then
      let targetMap :=
        setAdd (setAdd (setAdd [] (ids.getD (r0 % ids.length) 0)) (ids.getD (r1 % ids.length) 0))
          (ids.getD (r2 % ids.length) 0)
      (none, targetMap.filterMap (fun id => mapGet peerMap id))
    else (none, [])

/-! ## Vault fee (process/vault/vault_method.go) -/

/-- The data of the context the vault reads and writes: the balance stored under
`tagBalance` for an address, the amount stored under `tagCollectedFee`, and the
rest of the context, which the callback of `WithFee` may write.  Amounts are
integers. -/
structure VaultState where
  balance : Nat → Option Int
  collectedFee : Option Int
  other : List Nat

/-- Go `Vault.Balance`: the stored amount, zero when there is no data. -/
def Vault.Balance (st : VaultState) (addr : Nat) : Int :=
  match st.balance addr with
  | some am => am
  | none => 0

/-- Go `Vault.RemoveBalance`. -/
def Vault.RemoveBalance (st : VaultState) (addr : Nat) : VaultState :=
  { st with balance := Function.update st.balance addr none }

/-- Go `Vault.SubBalance`. -/
def Vault.SubBalance (st : VaultState) (addr : Nat) (am : Int) : Option Err × VaultState :=
  let sum := Vault.Balance st addr
  if sum < am then (some .ErrMinusBalance, st)
  else
    let sum := sum - am
    if sum = 0 then (none, Vault.RemoveBalance st addr)
    else (none, { st with balance := Function.update st.balance addr (some sum) })

/-- Go `Vault.CollectedFee`: the stored amount, zero when there is no data. -/
def Vault.CollectedFee (st : VaultState) : Int :=
  match st.collectedFee with
  | some am => am
  | none => 0

/-- Result of `WithFee`: the returned error, the state, and whether the callback
was run. -/
structure WithFeeOutcome where
  err : Option Err
  state : VaultState
  ran : Bool

/-- Go `Vault.WithFee` with `fee = tx.Fee(ctw)` and `sender = tx.From()`.  The
callback returns its error and the context with its writes; `Revert(sn)` puts
back the context of the snapshot. -/
def Vault.WithFee (st : VaultState) (sender : Nat) (fee : Int)
    (fn : VaultState → Option Err × VaultState) : WithFeeOutcome :=
  match Vault.SubBalance st sender fee with
  | (some err, st1) => ⟨some err, st1, false⟩
  | (none, st1) =>
    let st2 := { st1 with collectedFee := some (Vault.CollectedFee st1 + fee) }
    let sn := st2
    match fn st2 with
    | (some err, _) => ⟨some err, sn, true⟩
    | (none, st3) => ⟨none, st3, true⟩

/-! ## Re-runs of the request handler (pof/formulator_node.go, the retry branch of
`BlockReqMessage`) -/

/-- What takes the node's lock on behalf of an observer connection, in the order
in which it happens: a message read by the connection loop, or the re-run of the
handler on a `BlockReqMessage` by the goroutine of the retry branch,
`go func() { time.Sleep(50 * time.Millisecond); fr.handleObserverMessage(ID, m, RetryCount+1) }()`,
under the environment of that moment. -/
inductive ObserverEvent where
  | read (m : ObserverMessage)
  | rerun (env : ReqEnv) (m : BlockReqMessage) (RetryCount : Nat)

/-- The handler on an event, as the connection loop sees it.  A read is
`onObserverRecv`.  The goroutine of a re-run does not use the value the handler
returns, so no error reaches the connection loop: only the round state the
handler leaves is kept. -/
def onObserverEvent (reqEnv : ReqEnv) (signEnv : ObSignEnv) (fr : RoundState) :
    ObserverEvent → Option (Option Err × RoundState)
  | .read m => onObserverRecv reqEnv signEnv fr m
  | .rerun env m RetryCount => some (none, (handleBlockReqMessage env fr m RetryCount).state)

/-! ## Sample collaborators for concrete evaluation -/

/-- A connection that delivers the byte string `req`, accepts every write, and
a key that signs the digest `h` as the one-byte string `[h]`; the digest of a
byte string is its length. -/
def sampleConn (req : List Nat) : HandshakeConn where
  FillBytes := fun _ => .ok req
  Write := fun _ => none
  Hash := fun bs => bs.length
  Sign := fun h => .ok [h]

/-- A 40-byte challenge `chain_id | 31 zero bytes | timestamp (u64, little endian)`
followed by `extra`. -/
def challenge (chainID timestamp : Nat) (extra : List Nat) : List Nat :=
  chainID :: List.replicate 31 0 ++ putUint64LE timestamp ++ extra

/-- A clock reading in November 2023, in nanoseconds since the epoch. -/
def clock2023 : Nat := 1700000000000000000

/-- A small admission environment: a transaction hashes to its body, every
account is at sequence number `seq`, every signature recovers and every
transaction validates. -/
def sampleAddTxEnv (seq : Nat) : AddTxEnv where
  ChainID := 1
  HashTransactionByType := fun _ _ tx => tx.body
  NewContext := ⟨0, 0, 1⟩
  Seq := fun _ _ => seq
  RecoverPubkey := fun _ sig => .ok sig
  NewPublicHash := fun k => k
  Process := fun pid => .ok pid
  Validate := fun _ _ _ _ _ => none

/-- A pool of `n` records with pairwise distinct hashes `0 .. n-1` and an empty
expire queue. -/
def storeOfSize (n : Nat) : TxStore :=
  ⟨(List.range n).map (fun i => ⟨0, i, ⟨i, none⟩, [], []⟩), []⟩

/-- A chain at height 10 with last hash 77, a clock at `clock2023`, a rank table
whose lookup gives `top`, a node configured as formulator 5 with key hash 6, and
an observer link that accepts every message. -/
def sampleReqEnv (top : Except Err Nat) : ReqEnv where
  Height := 10
  LastHash := 77
  now := clock2023
  TopRank := fun _ => top
  ConfigFormulator := 5
  keyPublicHash := 6
  SendTo := fun _ => none

/-- A round state with nothing generated and no request recorded. -/
def idleRound : RoundState := ⟨[], [], [], none, 0, 0⟩

/-- A generation environment in which every collaborator succeeds, the pool
hands out its records front to back, the timer leaves ten passes per block, and
the observer link fails from block height `stop` on. -/
def sampleGenEnv (maxBlocks sameBlocks : Nat) (maxTx : Int) (stop : Nat) : GenEnv where
  maxBlocksPerFormulator := maxBlocks
  blocksBySameFormulator := sameBlocks
  MaxTransactionsPerBlock := maxTx
  ConfigFormulator := 5
  Now := clock2023
  LastTimestamp := clock2023 - 1000000
  NewContext := ⟨0, clock2023 - 1000000, 11⟩
  NextContext := fun ctx _ ts => ⟨ctx.id + 1, ts, ctx.TargetHeight + 1⟩
  LastHash := fun ctx => ctx.id
  hashHeader := fun h => h.Height
  EncodeUint32 := fun _ => none
  Init := fun _ => none
  timerPasses := fun _ => 10
  UnsafePop := fun pool _ =>
    match pool with
    | [] => none
    | item :: rest => some (item, rest)
  execute := fun ctx _ => .ok ctx
  FinalizeErr := fun _ => none
  Sign := fun h => .ok h
  SendTo := fun nm => if nm.Block.Header.Height ≥ stop then some (.external 1) else none
  clock := fun i => (clock2023 : Int) + i

/-- A chain at height 10 whose stored hash of height `h` is `100 * h`; a header
hashes to `100 * Height + ConsensusData`, so a block with consensus data 0 is
the stored one and any other value at that height is a fork. -/
def sampleChain : ChainView where
  Height := 10
  Hash := fun h => .ok (100 * h)
  hashHeader := fun hd => 100 * hd.Height + hd.ConsensusData

/-- A block without transactions at the given height and consensus data. -/
def sampleBlock (height data : Nat) : Block :=
  ⟨⟨height, 0, 5, 0, data⟩, [], [], [], [], []⟩

/-- A commit environment at chain height `height`: a header hashes to
`100 * Height + ConsensusData` and every `ConnectBlockWithContext` succeeds. -/
def sampleObSignEnv (height : Nat) : ObSignEnv where
  Height := height
  hashHeader := fun hd => 100 * hd.Height + hd.ConsensusData
  ConnectBlockWithContext := fun _ _ => none

/-- The generated message for `sampleBlock height 0` with generator signature
`height`. -/
def sampleGen (height : Nat) : BlockGenMessage := ⟨sampleBlock height 0, height, false⟩

/-- A round in which blocks 11 and 12 were generated for a request at height 11,
with the given sign messages stashed. -/
def generatedRound (signMap : List (Nat × BlockObSignMessage)) : RoundState :=
  ⟨[sampleGen 11, sampleGen 12], signMap, [⟨0, 0, 11⟩, ⟨1, 0, 12⟩],
    some ⟨77, 11, 0, 5, 6⟩, 12, 0⟩

/-- The sample generation environment on a chain whose last timestamp is the
largest `uint64`. -/
def lastTickGenEnv : GenEnv :=
  { sampleGenEnv 1 0 5000 100 with
    LastTimestamp := 2 ^ 64 - 1
    NewContext := ⟨0, 2 ^ 64 - 1, 11⟩ }

/-- A stand-in for the gzip writer that stores the body as it is. -/
def storeOnly (body : List Nat) : List Nat := body

/-- The sample admission environment with a key recovery that always fails. -/
def failingRecoverEnv : AddTxEnv :=
  { sampleAddTxEnv 5 with RecoverPubkey := fun _ _ => .error (.external 3) }

/-- A chain that is its height: `ConnectBlock` accepts exactly the block of the
next height. -/
def heightChain : ChainOps Nat where
  Height := fun s => s
  ConnectBlock := fun s b => if b.Header.Height = s + 1 then .ok (s + 1) else .error (.external 1)

/-- A queue holding the `n` blocks of heights `from`, `from + 1`, ... -/
def queueFrom (start n : Nat) : SortedQueue :=
  ⟨(List.range' start n).map (fun h => (h, sampleBlock h 0))⟩

/-- A pass over four queues that are all empty. -/
def emptyPass : List (Option Nat) := [none, none, none, none]

/-- A chain at height 10 with an empty block queue and a peer that accepts every
send. -/
def sampleStatusEnv : StatusEnv where
  Height := 10
  queued := fun _ => false
  SendTo := fun _ => none

/-- A mesh with the dialed peers 1, 2, 3 and the accepted peers 4, 5, 6, the peer
of id `i` on connection `10 + i`. -/
def sampleMesh : NodeMeshState :=
  ⟨[(1, ⟨1, 11⟩), (2, ⟨2, 12⟩), (3, ⟨3, 13⟩)], [(4, ⟨4, 14⟩), (5, ⟨5, 15⟩), (6, ⟨6, 16⟩)], []⟩

/-- A vault in which address 1 holds 100 and address 2 holds 5, with 7 collected so
far. -/
def sampleVault : VaultState where
  balance := fun addr => if addr = 1 then some 100 else if addr = 2 then some 5 else none
  collectedFee := some 7
  other := []

/-- A callback that writes to the context and to the sender's balance and then
fails. -/
def failingFn (st : VaultState) : Option Err × VaultState :=
  (some (.external 3), { st with balance := fun _ => some 0, other := [1] })

/-! ## Bit-level helper lemmas -/

theorem shl_lor_of_lt (a b k : Nat) (hb : b < 2 ^ k) : (a <<< k) ||| b = a * 2 ^ k + b := by
  rw [Nat.shiftLeft_eq, Nat.mul_comm, Nat.mul_add_lt_is_or hb]

theorem lor_shl_of_lt (a b k : Nat) (hb : b < 2 ^ k) : b ||| (a <<< k) = a * 2 ^ k + b := by
  rw [Nat.lor_comm, shl_lor_of_lt a b k hb]

theorem hexDigit_roundtrip (n : Nat) (h : n < 16) : fromHexChar (hexDigit n) = some n := by
  interval_cases n <;> rfl

theorem nibbles_join (b : Nat) (h : b < 256) : ((b >>> 4) <<< 4) ||| (b &&& 15) = b := by
  interval_cases b <;> rfl

theorem hexDecode_hexEncode (bs : List Nat) (h : ∀ b ∈ bs, b < 256) :
    hexDecode (hexEncode bs) = .ok bs := by
  induction bs with
  | nil => rfl
  | cons b bs ih =>
    have hb : b < 256 := h b (List.mem_cons_self _ _)
    have h1 : b >>> 4 < 16 := by
      rw [Nat.shiftRight_eq_div_pow]; omega
    have h2 : b &&& 15 < 16 := by
      have : b &&& 15 = b % 16 := Nat.and_pow_two_sub_one_eq_mod b 4
      omega
    have ih1 := ih (fun x hx => h x (List.mem_cons_of_mem _ hx))
    simp only [hexEncode, hexDecode, hexDigit_roundtrip _ h1, hexDigit_roundtrip _ h2, ih1,
      nibbles_join b hb]

theorem hexEncode_length (bs : List Nat) : (hexEncode bs).length = 2 * bs.length := by
  induction bs with
  | nil => rfl
  | cons b bs ih => simp only [hexEncode, List.length_cons, ih]; omega


theorem putUint32BE_bytes (v : Nat) : ∀ b ∈ putUint32BE v, b < 256 := by
  intro b hb
  simp only [putUint32BE, u8, List.mem_cons, List.mem_singleton, List.not_mem_nil, or_false] at hb
  rcases hb with h | h | h | h <;> subst h <;> exact Nat.mod_lt _ (by norm_num)

theorem putUint16BE_bytes (v : Nat) : ∀ b ∈ putUint16BE v, b < 256 := by
  intro b hb
  simp only [putUint16BE, u8, List.mem_cons, List.mem_singleton, List.not_mem_nil, or_false] at hb
  rcases hb with h | h <;> subst h <;> exact Nat.mod_lt _ (by norm_num)

theorem uint32BE_putUint32BE (v : Nat) (rest : List Nat) (hv : v < 2 ^ 32) :
    uint32BE (putUint32BE v ++ rest) = v := by
  simp only [uint32BE, putUint32BE, u8, u32, List.cons_append, List.getD_cons_succ,
    List.getD_cons_zero, Nat.shiftRight_eq_div_pow, Nat.shiftLeft_eq]
  have m0 : v % 2 ^ 8 < 2 ^ 8 := Nat.mod_lt _ (by norm_num)
  have e1 : v / 2 ^ 8 % 2 ^ 8 * 2 ^ 8 % 2 ^ 32 = 2 ^ 8 * (v / 2 ^ 8 % 2 ^ 8) := by omega
  have e2 : v / 2 ^ 16 % 2 ^ 8 * 2 ^ 16 % 2 ^ 32 = 2 ^ 16 * (v / 2 ^ 16 % 2 ^ 8) := by omega
  have e3 : v / 2 ^ 24 % 2 ^ 8 * 2 ^ 24 % 2 ^ 32 = 2 ^ 24 * (v / 2 ^ 24) := by omega
  rw [e1, e2, e3]
  have a1 : v % 2 ^ 8 ||| 2 ^ 8 * (v / 2 ^ 8 % 2 ^ 8) = v % 2 ^ 16 := by
    rw [Nat.lor_comm, ← Nat.mul_add_lt_is_or m0]; omega
  have a2 : v % 2 ^ 16 ||| 2 ^ 16 * (v / 2 ^ 16 % 2 ^ 8) = v % 2 ^ 24 := by
    rw [Nat.lor_comm, ← Nat.mul_add_lt_is_or (Nat.mod_lt _ (by norm_num))]; omega
  have a3 : v % 2 ^ 24 ||| 2 ^ 24 * (v / 2 ^ 24) = v := by
    rw [Nat.lor_comm, ← Nat.mul_add_lt_is_or (Nat.mod_lt _ (by norm_num))]; omega
  rw [a1, a2, a3]

theorem uint16BE_putUint16BE (v : Nat) (hv : v < 2 ^ 16) :
    uint16BE (putUint16BE v) = v := by
  simp only [uint16BE, putUint16BE, u8, u16, List.getD_cons_succ,
    List.getD_cons_zero, Nat.shiftRight_eq_div_pow, Nat.shiftLeft_eq]
  have m0 : v % 2 ^ 8 < 2 ^ 8 := Nat.mod_lt _ (by norm_num)
  have e1 : v / 2 ^ 8 % 2 ^ 8 * 2 ^ 8 % 2 ^ 16 = 2 ^ 8 * (v / 2 ^ 8) := by omega
  rw [e1, Nat.lor_comm, ← Nat.mul_add_lt_is_or m0]; omega

/-! ## Identifier packing -/

/-- C4: for every unsigned 64-bit `x`, the three fields `UnmarshalID x` returns
are a `uint32` and two `uint16` - bits 32 to 63, bits 16 to 31 and bits 0 to 15
of `x` - and packing them with `MarshalID` gives `x` back. -/
theorem MarshalID_UnmarshalID (x : Nat) (hx : x < 2 ^ 64) :
    MarshalID (UnmarshalID x).1 (UnmarshalID x).2.1 (UnmarshalID x).2.2 = x ∧
    (UnmarshalID x).1 = x / 2 ^ 32 ∧
    (UnmarshalID x).2.1 = x / 2 ^ 16 % 2 ^ 16 ∧
    (UnmarshalID x).2.2 = x % 2 ^ 16 ∧
    (UnmarshalID x).1 < 2 ^ 32 ∧ (UnmarshalID x).2.1 < 2 ^ 16 ∧ (UnmarshalID x).2.2 < 2 ^ 16 := by
  simp only [MarshalID, UnmarshalID, u64, u32, u16, Nat.shiftRight_eq_div_pow]
  have h3 : x % 2 ^ 16 < 2 ^ 16 := Nat.mod_lt _ (by norm_num)
  have h2 : x / 2 ^ 16 % 2 ^ 16 < 2 ^ 16 := Nat.mod_lt _ (by norm_num)
  have h1 : x / 2 ^ 32 % 2 ^ 32 < 2 ^ 32 := Nat.mod_lt _ (by norm_num)
  refine ⟨?_, by omega, trivial, trivial, h1, h2, h3⟩
  rw [Nat.shiftLeft_eq, Nat.shiftLeft_eq]
  have e1 : x / 2 ^ 32 % 2 ^ 32 % 2 ^ 32 % 2 ^ 64 * 2 ^ 32 % 2 ^ 64
      = 2 ^ 32 * (x / 2 ^ 32) := by omega
  have e2 : x / 2 ^ 16 % 2 ^ 16 % 2 ^ 16 % 2 ^ 64 * 2 ^ 16 % 2 ^ 64
      = 2 ^ 16 * (x / 2 ^ 16 % 2 ^ 16) := by omega
  have e0 : x % 2 ^ 16 % 2 ^ 16 % 2 ^ 64 = x % 2 ^ 16 := by omega
  rw [e1, e2, e0]
  have e3 : 2 ^ 32 * (x / 2 ^ 32) ||| 2 ^ 16 * (x / 2 ^ 16 % 2 ^ 16)
      = 2 ^ 32 * (x / 2 ^ 32) + 2 ^ 16 * (x / 2 ^ 16 % 2 ^ 16) := by
    rw [← Nat.mul_add_lt_is_or (by omega)]
  rw [e3]
  have e4 : 2 ^ 32 * (x / 2 ^ 32) + 2 ^ 16 * (x / 2 ^ 16 % 2 ^ 16) = 2 ^ 16 * (x / 2 ^ 16) := by
    omega
  rw [e4, ← Nat.mul_add_lt_is_or h3]
  omega

/-- Witness for `MarshalID_UnmarshalID` at a value with all three fields non-zero:
`0x0000000700050003` splits into 7, 5 and 3. -/
theorem MarshalID_UnmarshalID_witness :
    (0x0000000700050003 : Nat) < 2 ^ 64 ∧
      UnmarshalID 0x0000000700050003 = (7, 5, 3) ∧
      MarshalID 7 5 3 = 0x0000000700050003 ∧
      MarshalID (UnmarshalID 0x0000000700050003).1 (UnmarshalID 0x0000000700050003).2.1
        (UnmarshalID 0x0000000700050003).2.2 = 0x0000000700050003 :=
  ⟨by norm_num, by decide, by decide,
    (MarshalID_UnmarshalID 0x0000000700050003 (by norm_num)).1⟩

/-! ## Transaction identifiers -/

/-- C5: for every 32-bit height `h` and 16-bit index `i`, the text produced by
`TransactionID h i` has exactly 12 characters and `ParseTransactionID` returns
`(h, i)` on it without an error. -/
theorem ParseTransactionID_TransactionID (h i : Nat) (hh : h < 2 ^ 32) (hi : i < 2 ^ 16) :
    (TransactionID h i).length = 12 ∧
      ParseTransactionID (TransactionID h i) = .ok (h, i) := by
  have hlen : (TransactionID h i).length = 12 := by
    simp [TransactionID, hexEncode_length, putUint32BE, putUint16BE]
  refine ⟨hlen, ?_⟩
  have hbytes : ∀ b ∈ putUint32BE h ++ putUint16BE i, b < 256 := by
    intro b hb
    rcases List.mem_append.mp hb with hb | hb
    · exact putUint32BE_bytes h b hb
    · exact putUint16BE_bytes i b hb
  have hdec := hexDecode_hexEncode _ hbytes
  unfold ParseTransactionID
  rw [if_neg (by rw [hlen]; decide)]
  simp only [TransactionID] at hdec ⊢
  rw [hdec]
  have hdrop : (putUint32BE h ++ putUint16BE i).drop 4 = putUint16BE i := by
    simp [putUint32BE]
  simp only [hdrop, uint32BE_putUint32BE h _ hh, uint16BE_putUint16BE i hi]

/-- Witness for `ParseTransactionID_TransactionID` at height 11, index 3. -/
theorem ParseTransactionID_TransactionID_witness :
    (11 : Nat) < 2 ^ 32 ∧ (3 : Nat) < 2 ^ 16 ∧ (TransactionID 11 3).length = 12 ∧
      ParseTransactionID (TransactionID 11 3) = .ok (11, 3) :=
  ⟨by norm_num, by norm_num, ParseTransactionID_TransactionID 11 3 (by norm_num) (by norm_num)⟩

/-! ## Transaction admission -/

theorem addTx_of_size_gt (env : AddTxEnv) (st : TxStore) (t : Nat) (tx : Transaction)
    (sigs : List Nat) (h : st.Size > 65535) :
    addTx env st t tx sigs = (some .ErrTransactionPoolOverflowed, st) := by
  unfold addTx
  rw [if_pos h]

theorem addTx_of_exist (env : AddTxEnv) (st : TxStore) (t : Nat) (tx : Transaction)
    (sigs : List Nat) (hsize : st.Size ≤ 65535)
    (hex : st.IsExist (env.HashTransactionByType env.ChainID t tx) = true) :
    addTx env st t tx sigs = (some .ErrExistTransaction, st) := by
  unfold addTx
  rw [if_neg (by omega)]
  simp only [hex, if_true]

theorem addTx_of_gate (env : AddTxEnv) (st : TxStore) (t : Nat) (tx : Transaction)
    (sigs : List Nat) (e : Err) (hsize : st.Size ≤ 65535)
    (hex : st.IsExist (env.HashTransactionByType env.ChainID t tx) = false)
    (hg : seqGate env env.NewContext tx = some e) :
    addTx env st t tx sigs = (some e, st) := by
  unfold addTx
  rw [if_neg (by omega)]
  simp only [hex, hg, Bool.false_eq_true, if_false]

theorem addTx_admit_gate (env : AddTxEnv) (st : TxStore) (t : Nat) (tx : Transaction)
    (sigs : List Nat) (h : (addTx env st t tx sigs).1 = none) :
    seqGate env env.NewContext tx = none := by
  unfold addTx at h
  split at h
  · simp at h
  · simp only at h
    split at h
    · simp at h
    · split at h
      · simp at h
      · assumption

theorem seqGate_none_bounds (env : AddTxEnv) (ctx : Context) (tx : Transaction) (A txSeq : Nat)
    (hacc : tx.account = some (A, txSeq)) (hc : env.Seq ctx A < 2 ^ 64)
    (h : seqGate env ctx tx = none) :
    env.Seq ctx A < txSeq ∧ txSeq ≤ env.Seq ctx A + 100 := by
  unfold seqGate at h
  rw [hacc] at h
  simp only [u64] at h
  split at h
  · simp at h
  · split at h
    · simp at h
    · constructor
      · omega
      · by_cases hw : env.Seq ctx A + 100 < 2 ^ 64
        · rw [Nat.mod_eq_of_lt hw] at *
          omega
        · have : (env.Seq ctx A + 100) % 2 ^ 64 = env.Seq ctx A + 100 - 2 ^ 64 := by omega
          omega

/-- C1 (as amended): for an account transaction with sender `A` and sequence
number `txSeq`, when the pool holds at most 65535 records and does not hold the
transaction's hash, `addTx` returns `ErrPastSeq` if `txSeq ≤ C.Seq(A)` and
`ErrTooFarSeq` if `txSeq > C.Seq(A)` and `txSeq` exceeds the 64-bit sum
`C.Seq(A)+100`; in both cases the pool is untouched.  Whatever the pool, a
transaction that `addTx` admits satisfies `C.Seq(A) < txSeq ≤ C.Seq(A) + 100`
over the integers. -/
theorem addTx_sequence_gate (env : AddTxEnv) (st : TxStore) (t : Nat) (tx : Transaction)
    (sigs : List Nat) (A txSeq : Nat) (hacc : tx.account = some (A, txSeq))
    (hc : env.Seq env.NewContext A < 2 ^ 64) :
    (st.Size ≤ 65535 → st.IsExist (env.HashTransactionByType env.ChainID t tx) = false →
        txSeq ≤ env.Seq env.NewContext A →
        addTx env st t tx sigs = (some .ErrPastSeq, st)) ∧
    (st.Size ≤ 65535 → st.IsExist (env.HashTransactionByType env.ChainID t tx) = false →
        env.Seq env.NewContext A < txSeq → txSeq > u64 (env.Seq env.NewContext A + 100) →
        addTx env st t tx sigs = (some .ErrTooFarSeq, st)) ∧
    ((addTx env st t tx sigs).1 = none →
        (env.Seq env.NewContext A : Int) < txSeq ∧
          (txSeq : Int) ≤ (env.Seq env.NewContext A : Int) + 100) := by
  refine ⟨?_, ?_, ?_⟩
  · intro hsize hex hle
    apply addTx_of_gate env st t tx sigs _ hsize hex
    simp only [seqGate, hacc, if_pos hle]
  · intro hsize hex hlt hfar
    apply addTx_of_gate env st t tx sigs _ hsize hex
    simp only [seqGate, hacc, if_neg (Nat.not_le.mpr hlt), if_pos hfar]
  · intro hadm
    have hg := addTx_admit_gate env st t tx sigs hadm
    have hb := seqGate_none_bounds env env.NewContext tx A txSeq hacc hc hg
    omega

/-- Witness for `addTx_sequence_gate`: with every account at sequence number 5
and an empty pool, sequence 5 is past, 106 is too far, and 6 is admitted. -/
theorem addTx_sequence_gate_witness :
    addTx (sampleAddTxEnv 5) (storeOfSize 0) 0 ⟨7, some (1, 5)⟩ [] =
        (some .ErrPastSeq, storeOfSize 0) ∧
    addTx (sampleAddTxEnv 5) (storeOfSize 0) 0 ⟨7, some (1, 106)⟩ [] =
        (some .ErrTooFarSeq, storeOfSize 0) ∧
    (addTx (sampleAddTxEnv 5) (storeOfSize 0) 0 ⟨7, some (1, 6)⟩ [3]).1 = none ∧
    ((5 : Int) < 6 ∧ (6 : Int) ≤ 5 + 100) :=
  ⟨(addTx_sequence_gate (sampleAddTxEnv 5) (storeOfSize 0) 0 ⟨7, some (1, 5)⟩ [] 1 5 rfl
      (by decide)).1 (by decide) (by decide) (by decide),
   (addTx_sequence_gate (sampleAddTxEnv 5) (storeOfSize 0) 0 ⟨7, some (1, 106)⟩ [] 1 106 rfl
      (by decide)).2.1 (by decide) (by decide) (by decide) (by decide),
   by decide,
   (addTx_sequence_gate (sampleAddTxEnv 5) (storeOfSize 0) 0 ⟨7, some (1, 6)⟩ [3] 1 6 rfl
      (by decide)).2.2 (by decide)⟩

/-- C1 as stated fails: (a) a transaction whose hash is already pooled and whose
sequence number 5 is not above the account's sequence number 5 gets
`ErrExistTransaction`, not `ErrPastSeq`; (b) with the account at sequence
number `2^64-1`, a transaction with that same sequence number exceeds the
64-bit sum `seq+100 = 99` and yet gets `ErrPastSeq`, not `ErrTooFarSeq`. -/
theorem addTx_sequence_gate_counterexample :
    ((5 : Nat) ≤ (sampleAddTxEnv 5).Seq (sampleAddTxEnv 5).NewContext 1 ∧
      (storeOfSize 3).Size ≤ 65535 ∧
      (addTx (sampleAddTxEnv 5) (storeOfSize 3) 0 ⟨2, some (1, 5)⟩ []).1 =
        some .ErrExistTransaction) ∧
    ((2 ^ 64 - 1 : Nat) >
        u64 ((sampleAddTxEnv (2 ^ 64 - 1)).Seq (sampleAddTxEnv (2 ^ 64 - 1)).NewContext 1 + 100) ∧
      (addTx (sampleAddTxEnv (2 ^ 64 - 1)) (storeOfSize 0) 0 ⟨7, some (1, 2 ^ 64 - 1)⟩ []).1 =
        some .ErrPastSeq) := by
  refine ⟨⟨by decide, by decide, by decide⟩, by decide, by decide⟩

/-- C2: when the pool is not over its size limit and already holds the
transaction's hash, `addTx` returns `ErrExistTransaction` whatever the
transaction's sequence number and signatures are, and the pool and the expire
queue are exactly as before (no `Push`, no enqueue). -/
theorem addTx_duplicate (env : AddTxEnv) (st : TxStore) (t : Nat) (tx : Transaction)
    (sigs : List Nat) (hsize : st.Size ≤ 65535)
    (hex : st.IsExist (env.HashTransactionByType env.ChainID t tx) = true) :
    addTx env st t tx sigs = (some .ErrExistTransaction, st) :=
  addTx_of_exist env st t tx sigs hsize hex

/-- Witness for `addTx_duplicate`: hash 2 is in a pool of three records. -/
theorem addTx_duplicate_witness :
    (storeOfSize 3).Size ≤ 65535 ∧
    (storeOfSize 3).IsExist ((sampleAddTxEnv 5).HashTransactionByType
        (sampleAddTxEnv 5).ChainID 0 ⟨2, some (1, 900)⟩) = true ∧
    addTx (sampleAddTxEnv 5) (storeOfSize 3) 0 ⟨2, some (1, 900)⟩ [4] =
        (some .ErrExistTransaction, storeOfSize 3) :=
  ⟨by decide, by decide,
   addTx_duplicate (sampleAddTxEnv 5) (storeOfSize 3) 0 ⟨2, some (1, 900)⟩ [4]
     (by decide) (by decide)⟩

theorem storeOfSize_Size (n : Nat) : (storeOfSize n).Size = n := by
  simp [storeOfSize, TxStore.Size]

theorem storeOfSize_IsExist (n h : Nat) (hlt : h < n) : (storeOfSize n).IsExist h = true := by
  simp only [storeOfSize, TxStore.IsExist, List.any_eq_true, List.mem_map, List.mem_range]
  exact ⟨⟨0, h, ⟨h, none⟩, [], []⟩, ⟨h, hlt, rfl⟩, by simp⟩

/-- C3 as stated fails: with exactly 65535 records in the pool the size check
lets the call through; a transaction whose hash is pooled reaches the
duplicate check and gets `ErrExistTransaction`. -/
theorem addTx_size_check_counterexample :
    (storeOfSize 65535).Size = 65535 ∧
    addTx (sampleAddTxEnv 5) (storeOfSize 65535) 0 ⟨2, none⟩ [] =
        (some .ErrExistTransaction, storeOfSize 65535) :=
  ⟨storeOfSize_Size 65535,
   addTx_of_exist (sampleAddTxEnv 5) (storeOfSize 65535) 0 ⟨2, none⟩ []
     (by rw [storeOfSize_Size]) (storeOfSize_IsExist 65535 2 (by norm_num))⟩

/-- C3 (as amended): the size check of `addTx` rejects with
`ErrTransactionPoolOverflowed` for every pool size strictly above 65535 (at
least 65536), before hashing, the duplicate check and signature recovery, and
leaves pool and expire queue untouched. -/
theorem addTx_size_check (env : AddTxEnv) (st : TxStore) (t : Nat) (tx : Transaction)
    (sigs : List Nat) (h : 65536 ≤ st.Size) :
    addTx env st t tx sigs = (some .ErrTransactionPoolOverflowed, st) :=
  addTx_of_size_gt env st t tx sigs (by omega)

/-- Witness for `addTx_size_check` at a pool of 65536 records. -/
theorem addTx_size_check_witness :
    65536 ≤ (storeOfSize 65536).Size ∧
    addTx (sampleAddTxEnv 5) (storeOfSize 65536) 0 ⟨2, none⟩ [] =
        (some .ErrTransactionPoolOverflowed, storeOfSize 65536) :=
  ⟨by rw [storeOfSize_Size],
   addTx_size_check (sampleAddTxEnv 5) (storeOfSize 65536) 0 ⟨2, none⟩ []
     (by rw [storeOfSize_Size])⟩

/-! ## Handshake clock skew -/

theorem skewTooLarge_of_small_clocks (now timestamp : Nat) (hn : now < 2 ^ 63)
    (ht : timestamp < 2 ^ 63)
    (h : (now : Int) - timestamp > 30 * second ∨ (timestamp : Int) - now > 30 * second) :
    skewTooLarge now timestamp = true := by
  simp only [skewTooLarge, toInt64, subU64, wrapInt64, second, decide_eq_true_eq] at *
  split_ifs <;> omega

/-- C6 at its failing input: the clock reads `clock2023` and the challenge
carries the timestamp `clock2023 + 2^63`, a valid `uint64`.  The two differ by
`2^63` ns (about 292 years), far more than 30 s, yet all three `recvHandshake`
functions return no error and write the signature: the 64-bit difference is the
least `int64`, whose negation is itself, so `diff > 30s` is false. -/
theorem recvHandshake_accepts_large_skew :
    clock2023 + 2 ^ 63 < 2 ^ 64 ∧
    |(clock2023 : Int) - ((clock2023 + 2 ^ 63 : Nat) : Int)| > 30 * (second : Int) ∧
    FormulatorNodeMesh.recvHandshake 1 clock2023
        (sampleConn (challenge 1 (clock2023 + 2 ^ 63) [])) = (none, [[40]]) ∧
    NodeMesh.recvHandshake 1 clock2023 [5, 6]
        (sampleConn (challenge 1 (clock2023 + 2 ^ 63) [])) = (none, [[40], [2], [5, 6]]) ∧
    FormulatorService.recvHandshake 2 1 clock2023
        (sampleConn (challenge 1 (clock2023 + 2 ^ 63) [8, 9])) = (.ok [8, 9], [[42]]) := by
  refine ⟨by decide, by decide, by decide, by decide, by rfl⟩

/-! ## Round cap of `genBlock` -/

theorem genBlockLoop_sent_length (env : GenEnv) (msg : BlockReqMessage) (S : Nat) (nd : Bool)
    (left : Nat) : ∀ (i : Nat) (ctx : Context) (lastHeader : Option Header) (fr : RoundState)
      (pool : List PoolItem) (sent : List BlockGenMessage),
      (genBlockLoop env msg S nd left i ctx lastHeader fr pool sent).sent.length
        ≤ sent.length + left := by
  induction left with
  | zero => intro i ctx lastHeader fr pool sent; simp [genBlockLoop]
  | succ left ih =>
    intro i ctx lastHeader fr pool sent
    simp only [genBlockLoop]
    repeat' split
    all_goals
      first
        | (refine le_trans (ih _ _ _ _ _ _) ?_
           simp only [List.length_append, List.length_singleton]
           omega)
        | (dsimp only
           omega)

theorem genBlock_sent_length (env : GenEnv) (fr : RoundState) (pool : List PoolItem)
    (msg : BlockReqMessage) :
    (genBlock env fr pool msg).sent.length ≤ RemainBlocks env msg := by
  unfold genBlock
  refine le_trans (genBlockLoop_sent_length _ _ _ _ _ _ _ _ _ _ _) ?_
  simp

/-- C7 (as amended): for 32-bit `maxBlocksPerFormulator` and
`blocksBySameFormulator` with `blocksBySameFormulator ≤ maxBlocksPerFormulator`
(or a request with `timeout_count > 0`), one run of `genBlock` sends at most
`RemainBlocks` blocks, `RemainBlocks` is `maxBlocksPerFormulator` when
`timeout_count > 0` and `maxBlocksPerFormulator - blocksBySameFormulator`
otherwise, and it never exceeds `maxBlocksPerFormulator`. -/
theorem genBlock_round_cap (env : GenEnv) (fr : RoundState) (pool : List PoolItem)
    (msg : BlockReqMessage) (hmax : env.maxBlocksPerFormulator < 2 ^ 32)
    (hsame : env.blocksBySameFormulator < 2 ^ 32)
    (h : 0 < msg.TimeoutCount ∨ env.blocksBySameFormulator ≤ env.maxBlocksPerFormulator) :
    (genBlock env fr pool msg).sent.length ≤ RemainBlocks env msg ∧
    RemainBlocks env msg =
      (if 0 < msg.TimeoutCount then env.maxBlocksPerFormulator
       else env.maxBlocksPerFormulator - env.blocksBySameFormulator) ∧
    RemainBlocks env msg ≤ env.maxBlocksPerFormulator ∧
    (genBlock env fr pool msg).sent.length ≤ env.maxBlocksPerFormulator := by
  have h1 := genBlock_sent_length env fr pool msg
  have h2 : RemainBlocks env msg =
      (if 0 < msg.TimeoutCount then env.maxBlocksPerFormulator
       else env.maxBlocksPerFormulator - env.blocksBySameFormulator) := by
    unfold RemainBlocks subU32
    by_cases htc : msg.TimeoutCount = 0
    · rw [if_pos htc, if_neg (by omega)]
      have hle : env.blocksBySameFormulator ≤ env.maxBlocksPerFormulator := by
        rcases h with h | h
        · omega
        · exact h
      omega
    · rw [if_neg htc, if_pos (by omega)]
  have h3 : RemainBlocks env msg ≤ env.maxBlocksPerFormulator := by
    rw [h2]; split <;> omega
  exact ⟨h1, h2, h3, le_trans h1 h3⟩

/-- Witness for `genBlock_round_cap`: ten blocks per formulator, four already
produced, no timeout. -/
theorem genBlock_round_cap_witness :
    (genBlock (sampleGenEnv 10 4 5000 100) idleRound [] ⟨77, 11, 0, 5, 6⟩).sent.length
      ≤ RemainBlocks (sampleGenEnv 10 4 5000 100) ⟨77, 11, 0, 5, 6⟩ ∧
    RemainBlocks (sampleGenEnv 10 4 5000 100) ⟨77, 11, 0, 5, 6⟩ = 6 ∧
    RemainBlocks (sampleGenEnv 10 4 5000 100) ⟨77, 11, 0, 5, 6⟩ ≤ 10 ∧
    (genBlock (sampleGenEnv 10 4 5000 100) idleRound [] ⟨77, 11, 0, 5, 6⟩).sent.length ≤ 10 :=
  genBlock_round_cap (sampleGenEnv 10 4 5000 100) idleRound [] ⟨77, 11, 0, 5, 6⟩
    (by decide) (by decide) (Or.inr (by decide))

/-- C7 as stated fails: with `maxBlocksPerFormulator = 1`,
`blocksBySameFormulator = 2` and `timeout_count = 0` the 32-bit difference is
`4294967295`, which exceeds the maximum, and a run whose observer link fails at
the third block has sent two blocks by then. -/
theorem genBlock_round_cap_counterexample :
    RemainBlocks (sampleGenEnv 1 2 5000 13) ⟨77, 11, 0, 5, 6⟩ = 4294967295 ∧
    ¬ RemainBlocks (sampleGenEnv 1 2 5000 13) ⟨77, 11, 0, 5, 6⟩
        ≤ (sampleGenEnv 1 2 5000 13).maxBlocksPerFormulator ∧
    (genBlock (sampleGenEnv 1 2 5000 13) idleRound [] ⟨77, 11, 0, 5, 6⟩).sent.length = 2 ∧
    ¬ (genBlock (sampleGenEnv 1 2 5000 13) idleRound [] ⟨77, 11, 0, 5, 6⟩).sent.length
        ≤ (sampleGenEnv 1 2 5000 13).maxBlocksPerFormulator := by
  refine ⟨by decide, by decide, by decide, by decide⟩

/-! ## Transactions per block -/

theorem TxLoop_count (env : GenEnv) (passes : Nat) :
    ∀ (pool : List PoolItem) (bc : BlockCreator) (Count : Int),
      Count ≤ env.MaxTransactionsPerBlock →
      (TxLoop env passes pool bc Count).2.2 ≤ env.MaxTransactionsPerBlock + 1 ∧
      ((TxLoop env passes pool bc Count).2.1.txs.length : Int) + Count
        = bc.txs.length + (TxLoop env passes pool bc Count).2.2 := by
  induction passes with
  | zero =>
    intro pool bc Count h
    simp only [TxLoop]
    refine ⟨?_, ?_⟩ <;> first | omega | (dsimp only; try omega)
  | succ passes ih =>
    intro pool bc Count h
    simp only [TxLoop]
    split
    · refine ⟨?_, ?_⟩ <;> first | omega | (dsimp only; try omega)
    · split
      · exact ih _ _ _ h
      · rename_i bc2 hadd
        have hlen : (bc2.txs.length : Int) = bc.txs.length + 1 := by
          unfold UnsafeAddTx at hadd
          split at hadd
          · simp at hadd
          · simp only [Except.ok.injEq] at hadd
            subst hadd
            simp
        split
        · refine ⟨?_, ?_⟩ <;> first | omega | (dsimp only; try omega)
        · rename_i pool2 _ _ hgt
          have := ih pool2 bc2 (Count + 1) (by omega)
          constructor
          · exact this.1
          · omega

/-- C8 at its failing input: `MaxTransactionsPerBlock = 1`, three poolable
records, timer not fired.  The loop keeps two transactions: after the first
success `Count = 1` and `1 > 1` is false, so a second record is added before
`Count > MaxTransactionsPerBlock` ends the loop; the block `genBlock` sends
carries two transactions. -/
theorem TxLoop_exceeds_max :
    (sampleGenEnv 1 0 1 13).MaxTransactionsPerBlock = 1 ∧
    (TxLoop (sampleGenEnv 1 0 1 13) 10 (storeOfSize 3).txpool ⟨⟨0, 0, 11⟩, 5, 0, []⟩ 0).2.2 = 2 ∧
    (TxLoop (sampleGenEnv 1 0 1 13) 10 (storeOfSize 3).txpool
        ⟨⟨0, 0, 11⟩, 5, 0, []⟩ 0).2.1.txs.length = 2 ∧
    (genBlock (sampleGenEnv 1 0 1 13) idleRound (storeOfSize 3).txpool
        ⟨77, 11, 0, 5, 6⟩).sent.map (fun m => m.Block.Transactions.length) = [2] := by
  refine ⟨by decide, by decide, by decide, by decide⟩

/-! ## Block request handling -/

theorem wrapInt64_of_range (z : Int) (h1 : -2 ^ 63 ≤ z) (h2 : z < 2 ^ 63) : wrapInt64 z = z := by
  unfold wrapInt64
  omega

/-- C9: a `BlockReqMessage` is dropped - the handler returns nil, sends nothing,
schedules no retry, starts no generation and leaves the whole round state as it
was - whenever `target_height ≤ last_gen_height` and `now < last_gen_time + 30s`
(the `int64` sum of the code), or `last_req` is set and
`target_height ≤ last_req.target_height`, or `target_height ≤ chain.height`. -/
theorem handleBlockReqMessage_drop (env : ReqEnv) (fr : RoundState) (msg : BlockReqMessage)
    (RetryCount : Nat)
    (h : (msg.TargetHeight ≤ fr.lastGenHeight ∧
            env.now < wrapInt64 (fr.lastGenTime + 30 * (second : Int))) ∨
         (∃ last, fr.lastReqMessage = some last ∧ msg.TargetHeight ≤ last.TargetHeight) ∨
         msg.TargetHeight ≤ env.Height) :
    handleBlockReqMessage env fr msg RetryCount = ⟨none, fr, [], none, none⟩ := by
  unfold handleBlockReqMessage
  simp only
  split
  · rfl
  · split
    · rfl
    · split
      · rfl
      · rename_i h1 h2 h3
        rcases h with h | ⟨last, hl, hle⟩ | h
        · exact absurd ⟨h.1, h.2⟩ h1
        · rw [hl] at h2
          simp only [decide_eq_true_eq] at h2
          exact absurd hle h2
        · exact absurd h h3

/-- Witness for `handleBlockReqMessage_drop`, once per drop condition: a
repeated request 5 s after the last generation, a request not above the recorded
one, and a request for a height the chain already has. -/
theorem handleBlockReqMessage_drop_witness :
    handleBlockReqMessage (sampleReqEnv (.ok 5))
        { idleRound with lastGenHeight := 11, lastGenTime := (clock2023 : Int) - 5 * second }
        ⟨77, 11, 0, 5, 6⟩ 0
      = ⟨none, { idleRound with lastGenHeight := 11,
                                lastGenTime := (clock2023 : Int) - 5 * second }, [], none, none⟩ ∧
    handleBlockReqMessage (sampleReqEnv (.ok 5))
        { idleRound with lastReqMessage := some ⟨77, 11, 0, 5, 6⟩ } ⟨77, 11, 0, 5, 6⟩ 0
      = ⟨none, { idleRound with lastReqMessage := some ⟨77, 11, 0, 5, 6⟩ }, [], none, none⟩ ∧
    handleBlockReqMessage (sampleReqEnv (.ok 5)) idleRound ⟨77, 10, 0, 5, 6⟩ 0
      = ⟨none, idleRound, [], none, none⟩ :=
  ⟨handleBlockReqMessage_drop _ _ _ _ (Or.inl ⟨by decide, by decide⟩),
   handleBlockReqMessage_drop _ _ _ _ (Or.inr (Or.inl ⟨_, rfl, by decide⟩)),
   handleBlockReqMessage_drop _ _ _ _ (Or.inr (Or.inr (by decide)))⟩

/-- C10 (as amended): for a `BlockReqMessage` with
`target_height = chain.height + 1` that is not dropped, if the rank lookup
`TopRank(timeout_count)` fails the handler returns that error and leaves
`last_req` unchanged; if it returns a rank, the handler returns
`ErrInvalidRequest` and leaves `last_req` unchanged (no generation is started)
when `request.formulator` differs from the rank's address or from the
configured formulator address, or `request.formulator_pub` differs from the
public hash of the node's key, or `request.prev_hash` differs from
`chain.last_hash`, and otherwise records the request as `last_req`, starts
generation for it and returns nil. -/
theorem handleBlockReqMessage_validate (env : ReqEnv) (fr : RoundState)
    (msg : BlockReqMessage) (RetryCount : Nat)
    (hnext : msg.TargetHeight = env.Height + 1) (hu32 : msg.TargetHeight < 2 ^ 32)
    (hd1 : ¬ (msg.TargetHeight ≤ fr.lastGenHeight ∧
            env.now < wrapInt64 (fr.lastGenTime + 30 * (second : Int))))
    (hd2 : ∀ last, fr.lastReqMessage = some last → ¬ msg.TargetHeight ≤ last.TargetHeight) :
    match env.TopRank msg.TimeoutCount with
    | .error e => handleBlockReqMessage env fr msg RetryCount = ⟨some e, fr, [], none, none⟩
    | .ok TopAddress =>
      ((msg.Formulator ≠ TopAddress ∨ msg.Formulator ≠ env.ConfigFormulator ∨
          msg.FormulatorPublicHash ≠ env.keyPublicHash ∨ msg.PrevHash ≠ env.LastHash) →
        handleBlockReqMessage env fr msg RetryCount
          = ⟨some .ErrInvalidRequest, fr, [], none, none⟩) ∧
      (¬ (msg.Formulator ≠ TopAddress ∨ msg.Formulator ≠ env.ConfigFormulator ∨
          msg.FormulatorPublicHash ≠ env.keyPublicHash ∨ msg.PrevHash ≠ env.LastHash) →
        handleBlockReqMessage env fr msg RetryCount
          = ⟨none, { fr with lastReqMessage := some msg }, [], none, some msg⟩) := by
  have hu : u32 (env.Height + 1) = env.Height + 1 := by
    unfold u32; omega
  have c1 : ¬ (msg.TargetHeight ≤ fr.lastGenHeight ∧
      wrapInt64 (fr.lastGenTime + 30 * (second : Int)) > env.now) := hd1
  have c2 : (match fr.lastReqMessage with
      | some last => decide (msg.TargetHeight ≤ last.TargetHeight)
      | none => false) = false := by
    cases hl : fr.lastReqMessage with
    | none => rfl
    | some last => simpa using hd2 last hl
  have c3 : ¬ msg.TargetHeight ≤ env.Height := by omega
  have c4 : ¬ msg.TargetHeight > u32 (env.Height + 1) := by rw [hu]; omega
  have c5 : ¬ msg.TargetHeight ≠ u32 (env.Height + 1) := by rw [hu]; omega
  unfold handleBlockReqMessage
  simp only [if_neg c1, c2, if_neg c3, if_neg c4, if_neg c5, Bool.false_eq_true, if_false]
  cases env.TopRank msg.TimeoutCount with
  | error e => rfl
  | ok TopAddress =>
    simp only
    constructor
    · intro hm
      by_cases m1 : msg.Formulator ≠ TopAddress
      · rw [if_pos m1]
      · rw [if_neg m1]
        by_cases m2 : msg.Formulator ≠ env.ConfigFormulator
        · rw [if_pos m2]
        · rw [if_neg m2]
          by_cases m3 : msg.FormulatorPublicHash ≠ env.keyPublicHash
          · rw [if_pos m3]
          · rw [if_neg m3]
            by_cases m4 : msg.PrevHash ≠ env.LastHash
            · rw [if_pos m4]
            · exact absurd hm (by tauto)
    · intro hm
      rw [if_neg (by tauto), if_neg (by tauto), if_neg (by tauto), if_neg (by tauto)]

/-- Witness for `handleBlockReqMessage_validate`: chain at height 10, a matching
request for height 11 is recorded and generation starts. -/
theorem handleBlockReqMessage_validate_witness :
    handleBlockReqMessage (sampleReqEnv (.ok 5)) idleRound ⟨77, 11, 0, 5, 6⟩ 0
      = ⟨none, { idleRound with lastReqMessage := some ⟨77, 11, 0, 5, 6⟩ }, [], none,
          some ⟨77, 11, 0, 5, 6⟩⟩ :=
  (handleBlockReqMessage_validate (sampleReqEnv (.ok 5)) idleRound ⟨77, 11, 0, 5, 6⟩ 0
    (by decide) (by decide) (by decide) (by intro last h; cases h)).2 (by decide)

/-- C10 as stated fails: the chain is at height 10 and the request for height 11
is not dropped; its formulator 4 differs from the configured formulator 5, but
the rank lookup fails, and the handler returns the lookup's error, not
`ErrInvalidRequest`. -/
theorem handleBlockReqMessage_validate_counterexample :
    (⟨77, 11, 0, 4, 6⟩ : BlockReqMessage).Formulator
        ≠ (sampleReqEnv (.error (.external 7))).ConfigFormulator ∧
    (handleBlockReqMessage (sampleReqEnv (.error (.external 7))) idleRound
        ⟨77, 11, 0, 4, 6⟩ 0).err = some (.external 7) ∧
    (handleBlockReqMessage (sampleReqEnv (.error (.external 7))) idleRound
        ⟨77, 11, 0, 4, 6⟩ 0).err ≠ some .ErrInvalidRequest := by
  refine ⟨by decide, by decide, by decide⟩

/-! ## Future-height requests -/

theorem handleBlockReqMessage_future (env : ReqEnv) (fr : RoundState) (msg : BlockReqMessage)
    (RetryCount : Nat) (hH : env.Height < 2 ^ 32) (hT : msg.TargetHeight < 2 ^ 32)
    (hfut : env.Height + 1 < msg.TargetHeight)
    (hd1 : ¬ (msg.TargetHeight ≤ fr.lastGenHeight ∧
            env.now < wrapInt64 (fr.lastGenTime + 30 * (second : Int))))
    (hd2 : ∀ last, fr.lastReqMessage = some last → ¬ msg.TargetHeight ≤ last.TargetHeight) :
    (RetryCount = 0 → env.SendTo ⟨env.Height + 1,
          min ((msg.TargetHeight - env.Height - 1) % 256) 10⟩ = none →
        handleBlockReqMessage env fr msg RetryCount
          = ⟨none, fr, [⟨env.Height + 1, min ((msg.TargetHeight - env.Height - 1) % 256) 10⟩],
              some 1, none⟩) ∧
    (1 ≤ RetryCount → RetryCount ≤ 9 →
        handleBlockReqMessage env fr msg RetryCount
          = ⟨none, fr, [], some (RetryCount + 1), none⟩) ∧
    (10 ≤ RetryCount →
        handleBlockReqMessage env fr msg RetryCount = ⟨none, fr, [], none, none⟩) := by
  have hu : u32 (env.Height + 1) = env.Height + 1 := by
    unfold u32; omega
  have c1 : ¬ (msg.TargetHeight ≤ fr.lastGenHeight ∧
      wrapInt64 (fr.lastGenTime + 30 * (second : Int)) > env.now) := hd1
  have c2 : (match fr.lastReqMessage with
      | some last => decide (msg.TargetHeight ≤ last.TargetHeight)
      | none => false) = false := by
    cases hl : fr.lastReqMessage with
    | none => rfl
    | some last => simpa using hd2 last hl
  have c3 : ¬ msg.TargetHeight ≤ env.Height := by omega
  have c4 : msg.TargetHeight > env.Height + 1 := by omega
  have hcount : (if u8 (subU32 (subU32 msg.TargetHeight env.Height) 1) > 10 then 10
      else u8 (subU32 (subU32 msg.TargetHeight env.Height) 1))
      = min ((msg.TargetHeight - env.Height - 1) % 256) 10 := by
    have e : u8 (subU32 (subU32 msg.TargetHeight env.Height) 1)
        = (msg.TargetHeight - env.Height - 1) % 256 := by
      unfold u8 subU32; omega
    rw [e]
    split <;> omega
  unfold handleBlockReqMessage
  simp only [if_neg c1, c2, if_neg c3, hu, if_pos c4, Bool.false_eq_true, if_false, hcount]
  refine ⟨?_, ?_, ?_⟩
  · intro h0 hsend
    subst h0
    simp only [ge_iff_le, Nat.reduceLeDiff, if_false, if_true, hsend, Nat.zero_add]
  · intro h1 h9
    rw [if_neg (by omega), if_neg (by omega)]
  · intro h10
    rw [if_pos (by omega)]

/-- C11 at its failing input: chain at height 10, a request for height 267 that
is not dropped, `RetryCount = 0`.  The gap is `267 - 10 - 1 = 256`, so the claim
gives `Count = min(256, 10) = 10`; the code converts the gap to `uint8` before
clamping, `uint8(256) = 0`, and sends `RequestMessage{Height: 11, Count: 0}`. -/
theorem handleBlockReqMessage_count_truncated :
    (267 : Nat) > (sampleReqEnv (.ok 5)).Height + 1 ∧
    min (267 - (sampleReqEnv (.ok 5)).Height - 1) 10 = 10 ∧
    handleBlockReqMessage (sampleReqEnv (.ok 5)) idleRound ⟨77, 267, 0, 5, 6⟩ 0
      = ⟨none, idleRound, [⟨11, 0⟩], some 1, none⟩ := by
  refine ⟨by decide, by decide, by decide⟩

/-! ## Swallowed admission errors -/

/-- C18: on the node path and on the observer path alike, the
`TransactionMessage` handler returns nil exactly when the admission result is
nil or one of `ErrInvalidUTXO`, `ErrExistTransaction`, `ErrTooFarSeq`,
`ErrPastSeq`, and returns every other admission error unchanged. -/
theorem handleTransactionMessage_swallow (env : AddTxEnv) (st : TxStore) (ID : Nat)
    (msg : TransactionMessage) :
    ((handlePeerTransactionMessage env st ID msg).err = none ↔
      (addTx env st msg.TxType msg.Tx msg.Sigs).1 = none ∨
      (addTx env st msg.TxType msg.Tx msg.Sigs).1 = some .ErrInvalidUTXO ∨
      (addTx env st msg.TxType msg.Tx msg.Sigs).1 = some .ErrExistTransaction ∨
      (addTx env st msg.TxType msg.Tx msg.Sigs).1 = some .ErrTooFarSeq ∨
      (addTx env st msg.TxType msg.Tx msg.Sigs).1 = some .ErrPastSeq) ∧
    (∀ e, (addTx env st msg.TxType msg.Tx msg.Sigs).1 = some e →
      e ≠ .ErrInvalidUTXO → e ≠ .ErrExistTransaction → e ≠ .ErrTooFarSeq → e ≠ .ErrPastSeq →
      (handlePeerTransactionMessage env st ID msg).err = some e) ∧
    handleObserverTransactionMessage env st ID msg = handlePeerTransactionMessage env st ID msg := by
  have hw : (txWorker env st ID msg).err = (addTx env st msg.TxType msg.Tx msg.Sigs).1 := by
    unfold txWorker
    split <;> simp_all
  refine ⟨?_, ?_, rfl⟩
  · unfold handlePeerTransactionMessage
    simp only [hw]
    generalize (addTx env st msg.TxType msg.Tx msg.Sigs).1 = r
    split
    · rename_i h
      simp only
      constructor
      · intro h0; exact Or.inl h0
      · rintro (h0 | h0 | h0 | h0 | h0)
        · exact h0
        · exact absurd h0 h.1
        · exact absurd h0 h.2.1
        · exact absurd h0 h.2.2.1
        · exact absurd h0 h.2.2.2
    · rename_i h
      simp only [true_iff]
      by_contra hc
      apply h
      refine ⟨?_, ?_, ?_, ?_⟩ <;> intro h0 <;> apply hc <;> simp [h0]
  · intro e he h1 h2 h3 h4
    unfold handlePeerTransactionMessage
    simp only [hw, he]
    rw [if_pos]
    simp [h1, h2, h3, h4]

/-- Witness for `handleTransactionMessage_swallow`: a past sequence number is
swallowed, a failed key recovery is returned. -/
theorem handleTransactionMessage_swallow_witness :
    (handlePeerTransactionMessage (sampleAddTxEnv 5) (storeOfSize 0) 4
        ⟨0, ⟨7, some (1, 5)⟩, []⟩).err = none ∧
    (handlePeerTransactionMessage failingRecoverEnv (storeOfSize 0) 4
        ⟨0, ⟨7, some (1, 6)⟩, [2]⟩).err = some (.external 3) :=
  ⟨(handleTransactionMessage_swallow (sampleAddTxEnv 5) (storeOfSize 0) 4
      ⟨0, ⟨7, some (1, 5)⟩, []⟩).1.mpr (Or.inr (Or.inr (Or.inr (Or.inr (by decide))))),
   (handleTransactionMessage_swallow failingRecoverEnv (storeOfSize 0) 4
      ⟨0, ⟨7, some (1, 6)⟩, [2]⟩).2.1 (.external 3) (by decide) (by decide) (by decide)
      (by decide) (by decide)⟩

/-! ## Fork detection -/

/-- C16: for a block `b` with a 32-bit height, `addBlock` returns
`ErrFoundForkedBlock` exactly when either `b.height ≤ chain.height` and the
chain's hash at `b.height` differs from `hash(b.header)`, or
`b.height > chain.height` and the block queue already holds a block at
`b.height` whose header hash differs; when `b.height ≤ chain.height` the block
queue is not modified; and a block whose header hash equals the one already
known at its height (in the chain or in the queue) is answered with nil. -/
theorem addBlock_forked (cp : ChainView) (q : SortedQueue) (b : Block)
    (hb : b.Header.Height < 2 ^ 32) :
    ((addBlock cp q b).1 = some .ErrFoundForkedBlock ↔
      (b.Header.Height ≤ cp.Height ∧
        ∃ h, cp.Hash b.Header.Height = .ok h ∧ h ≠ cp.hashHeader b.Header) ∨
      (cp.Height < b.Header.Height ∧
        ∃ old, q.Find b.Header.Height = some old ∧
          cp.hashHeader old.Header ≠ cp.hashHeader b.Header)) ∧
    (b.Header.Height ≤ cp.Height → (addBlock cp q b).2 = q) ∧
    (b.Header.Height ≤ cp.Height → cp.Hash b.Header.Height = .ok (cp.hashHeader b.Header) →
      (addBlock cp q b).1 = none) ∧
    (cp.Height < b.Header.Height → ∀ old, q.Find b.Header.Height = some old →
      cp.hashHeader old.Header = cp.hashHeader b.Header →
      addBlock cp q b = (none, q)) := by
  have hu : u64 b.Header.Height = b.Header.Height := by
    unfold u64; omega
  unfold addBlock SortedQueue.FindOrInsert
  rw [hu]
  by_cases hle : b.Header.Height ≤ cp.Height
  · simp only [if_pos hle]
    have hnlt : ¬ cp.Height < b.Header.Height := by omega
    refine ⟨?_, ?_, ?_, ?_⟩
    · cases hH : cp.Hash b.Header.Height with
      | error code => simp [hnlt]
      | ok h =>
        by_cases hne : h = cp.hashHeader b.Header
        · simp [hne, hnlt]
        · simp [hne, hnlt, hle]
    · intro _
      cases hH : cp.Hash b.Header.Height with
      | error code => rfl
      | ok h => simp only; split <;> rfl
    · intro _ hH
      simp [hH]
    · intro hlt; omega
  · simp only [if_neg hle]
    have hlt : cp.Height < b.Header.Height := by omega
    refine ⟨?_, ?_, ?_, ?_⟩
    · cases hF : q.Find b.Header.Height with
      | none => simp [hle]
      | some old =>
        by_cases hne : cp.hashHeader old.Header = cp.hashHeader b.Header
        · simp [hne, hle]
        · simp [hne, hle, hlt]
    · intro h; omega
    · intro h; omega
    · intro _ old hF heq
      simp [hF, heq]

/-- Witness for `addBlock_forked`: on the sample chain at height 10, a block at
height 9 with another header hash is a fork and leaves the queue alone, the
stored block at height 9 is accepted. -/
theorem addBlock_forked_witness :
    (addBlock sampleChain ⟨[]⟩ (sampleBlock 9 1)).1 = some .ErrFoundForkedBlock ∧
    (addBlock sampleChain ⟨[]⟩ (sampleBlock 9 1)).2 = ⟨[]⟩ ∧
    (addBlock sampleChain ⟨[]⟩ (sampleBlock 9 0)).1 = none :=
  ⟨(addBlock_forked sampleChain ⟨[]⟩ (sampleBlock 9 1) (by decide)).1.mpr
      (Or.inl ⟨by decide, 900, rfl, by decide⟩),
   (addBlock_forked sampleChain ⟨[]⟩ (sampleBlock 9 1) (by decide)).2.1 (by decide),
   (addBlock_forked sampleChain ⟨[]⟩ (sampleBlock 9 0) (by decide)).2.2.1 (by decide) rfl⟩

theorem addBlocks_append (cp : ChainView) (pre rest : List Block) :
    ∀ q : SortedQueue, (addBlocks cp q pre).1 = none →
      addBlocks cp q (pre ++ rest) = addBlocks cp (addBlocks cp q pre).2 rest := by
  induction pre with
  | nil => intro q _; rfl
  | cons x pre ih =>
    intro q h
    simp only [List.cons_append, addBlocks] at h ⊢
    split at h
    · simp at h
    · rename_i q2 heq
      exact ih q2 h

theorem addBlocks_fork_head (cp : ChainView) (q : SortedQueue) (b : Block) (post : List Block)
    (h : Nat) (hb : b.Header.Height ≤ cp.Height) (hH : cp.Hash b.Header.Height = .ok h)
    (hne : h ≠ cp.hashHeader b.Header) :
    addBlocks cp q (b :: post) = (some .ErrFoundForkedBlock, q) := by
  simp [addBlocks, addBlock, hb, hH, hne]

/-- C17 (as amended): a `BlockMessage` whose first block that `addBlock` rejects
is a block `b` at an already-committed height with a header hash other than the
chain's.  On the node path (`handlePeerMessage`) the handler returns
`ErrFoundForkedBlock`, removes the delivering peer, and does not process the
blocks after `b`.  On the observer path (`handleObserverMessage`) the handler
panics with `ErrFoundForkedBlock`: it returns nothing and removes no peer; the
blocks after `b` are not processed either. -/
theorem BlockMessage_fork (cp : ChainView) (q : SortedQueue) (ID : Nat) (status : Option Nat)
    (pre post : List Block) (b : Block) (h : Nat)
    (hpre : (addBlocks cp q pre).1 = none)
    (hb : b.Header.Height ≤ cp.Height) (hH : cp.Hash b.Header.Height = .ok h)
    (hne : h ≠ cp.hashHeader b.Header) :
    handlePeerBlockMessage cp q ID status (pre ++ b :: post)
      = ⟨some .ErrFoundForkedBlock, none, (addBlocks cp q pre).2, [ID], status⟩ ∧
    handleObserverBlockMessage cp q status (pre ++ b :: post)
      = ⟨none, some .ErrFoundForkedBlock, (addBlocks cp q pre).2, [], status⟩ := by
  have e : addBlocks cp q (pre ++ b :: post)
      = (some .ErrFoundForkedBlock, (addBlocks cp q pre).2) := by
    rw [addBlocks_append cp pre (b :: post) q hpre, addBlocks_fork_head cp _ b post h hb hH hne]
  constructor
  · unfold handlePeerBlockMessage
    rw [e]
    simp
  · unfold handleObserverBlockMessage
    rw [e]
    simp

/-- Witness for `BlockMessage_fork`: a queued block at height 11, then a fork at
height 9, then a block at height 12 that is never looked at. -/
theorem BlockMessage_fork_witness :
    handlePeerBlockMessage sampleChain ⟨[]⟩ 4 (some 3)
        ([sampleBlock 11 0] ++ sampleBlock 9 1 :: [sampleBlock 12 0])
      = ⟨some .ErrFoundForkedBlock, none, ⟨[(11, sampleBlock 11 0)]⟩, [4], some 3⟩ ∧
    handleObserverBlockMessage sampleChain ⟨[]⟩ (some 3)
        ([sampleBlock 11 0] ++ sampleBlock 9 1 :: [sampleBlock 12 0])
      = ⟨none, some .ErrFoundForkedBlock, ⟨[(11, sampleBlock 11 0)]⟩, [], some 3⟩ :=
  BlockMessage_fork sampleChain ⟨[]⟩ 4 (some 3) [sampleBlock 11 0] [sampleBlock 12 0]
    (sampleBlock 9 1) 900 (by decide) (by decide) rfl (by decide)

/-- C17 as stated fails on the observer path: for a message whose only block
forks the chain at height 9, `handleObserverMessage` returns no
`ErrFoundForkedBlock` and removes no peer; it panics. -/
theorem BlockMessage_fork_counterexample :
    (sampleBlock 9 1).Header.Height ≤ sampleChain.Height ∧
    sampleChain.Hash (sampleBlock 9 1).Header.Height = .ok 900 ∧
    sampleChain.hashHeader (sampleBlock 9 1).Header ≠ 900 ∧
    (handleObserverBlockMessage sampleChain ⟨[]⟩ (some 3) [sampleBlock 9 1]).err
      ≠ some .ErrFoundForkedBlock ∧
    (handleObserverBlockMessage sampleChain ⟨[]⟩ (some 3) [sampleBlock 9 1]).removed = [] ∧
    (handleObserverBlockMessage sampleChain ⟨[]⟩ (some 3) [sampleBlock 9 1]).panic
      = some .ErrFoundForkedBlock := by
  refine ⟨by decide, rfl, by decide, by decide, by decide, by decide⟩

/-! ## Commit of generated blocks -/

theorem drainGenerated_calls (env : ObSignEnv) (T : Nat)
    (signMap : List (Nat × BlockObSignMessage)) (fr : RoundState) (gens : List BlockGenMessage) :
    ∀ (ctxs : List Context) (calls : List (Block × Context)) (bc : Block × Context),
      bc ∈ (drainGenerated env T signMap fr gens ctxs calls).calls →
      bc ∈ calls ∨
      ∃ pre g rest sm c, gens = pre ++ g :: rest ∧ ctxs[pre.length]? = some c ∧
        signMap.lookup g.Block.Header.Height = some sm ∧ g.Block.Header.Height = T ∧
        sm.HeaderHash = env.hashHeader g.Block.Header ∧ bc = (signedBlock g sm, c) ∧
        ∀ x ∈ pre, x.Block.Header.Height ≤ T := by
  induction gens with
  | nil =>
    intro ctxs calls bc h
    simp only [drainGenerated] at h
    exact Or.inl h
  | cons g gs ih =>
    intro ctxs calls bc h
    simp only [drainGenerated] at h
    split at h
    · rename_i hlt
      split at h
      · exact Or.inl h
      · split at h
        · exact Or.inl h
        · rename_i c0 cs
          rcases ih cs calls bc h with h1 | ⟨pre, g2, rest, sm, c, hg, hc, hl, hT, hh, hb, hpre⟩
          · exact Or.inl h1
          · refine Or.inr ⟨g :: pre, g2, rest, sm, c, by rw [hg]; rfl, by simpa using hc, hl, hT,
              hh, hb, ?_⟩
            intro x hx
            rcases List.mem_cons.mp hx with hx | hx
            · subst hx; omega
            · exact hpre x hx
    · rename_i hnlt
      split at h
      · exact Or.inl h
      · rename_i hngt
        have hT : g.Block.Header.Height = T := by omega
        split at h
        · exact Or.inl h
        · rename_i sm hl
          split at h
          · split at h
            · exact Or.inl h
            · rename_i ctx rest
              split at h
              · exact Or.inl h
              · rename_i hhash
                have hh : sm.HeaderHash = env.hashHeader g.Block.Header := by
                  by_contra hne; exact hhash hne
                have hhead : ∃ pre g2 rest2 sm2 c, g :: gs = pre ++ g2 :: rest2 ∧
                    (ctx :: rest)[pre.length]? = some c ∧
                    signMap.lookup g2.Block.Header.Height = some sm2 ∧
                    g2.Block.Header.Height = T ∧
                    sm2.HeaderHash = env.hashHeader g2.Block.Header ∧
                    (signedBlock g sm, ctx) = (signedBlock g2 sm2, c) ∧
                    ∀ x ∈ pre, x.Block.Header.Height ≤ T :=
                  ⟨[], g, gs, sm, ctx, rfl, by simp, hl, hT, hh, rfl, by simp⟩
                split at h
                · simp only [List.mem_append, List.mem_singleton] at h
                  rcases h with h | h
                  · exact Or.inl h
                  · subst h; exact Or.inr hhead
                · rcases ih _ _ bc h with h1 | ⟨pre, g2, rest2, sm2, c, hg, hc, hl2, hT2, hh2, hb,
                    hpre⟩
                  · simp only [List.mem_append, List.mem_singleton] at h1
                    rcases h1 with h1 | h1
                    · exact Or.inl h1
                    · subst h1; exact Or.inr hhead
                  · have hne : gs.isEmpty = false := by
                      rw [hg]; cases pre <;> rfl
                    rw [hne] at hc
                    refine Or.inr ⟨g :: pre, g2, rest2, sm2, c, by rw [hg]; rfl,
                      by simpa using hc, hl2, hT2, hh2, hb, ?_⟩
                    intro x hx
                    rcases List.mem_cons.mp hx with hx | hx
                    · subst hx; omega
                    · exact hpre x hx
          · exact Or.inl h

theorem handleBlockObSignMessage_calls (env : ObSignEnv) (fr : RoundState)
    (msg : BlockObSignMessage) (bc : Block × Context)
    (h : bc ∈ (handleBlockObSignMessage env fr msg).calls) :
    ∃ pre g rest sm c, fr.lastGenMessages = pre ++ g :: rest ∧
      fr.lastContextes[pre.length]? = some c ∧
      (signMapSet fr.lastObSignMessageMap msg.TargetHeight msg).lookup g.Block.Header.Height
        = some sm ∧
      g.Block.Header.Height = u32 (env.Height + 1) ∧
      sm.HeaderHash = env.hashHeader g.Block.Header ∧ bc = (signedBlock g sm, c) ∧
      ∀ x ∈ pre, x.Block.Header.Height ≤ u32 (env.Height + 1) := by
  unfold handleBlockObSignMessage at h
  simp only at h
  split at h
  · simp at h
  · split at h
    · simp at h
    · split at h
      · simp at h
      · rcases drainGenerated_calls _ _ _ _ _ _ _ _ h with h1 | h1
        · simp at h1
        · exact h1

theorem drainGenerated_mismatch (env : ObSignEnv) (T : Nat)
    (signMap : List (Nat × BlockObSignMessage)) (fr : RoundState) (g : BlockGenMessage)
    (rest : List BlockGenMessage) (sm : BlockObSignMessage)
    (hg : g.Block.Header.Height = T) (hsm : signMap.lookup T = some sm)
    (hkey : sm.TargetHeight = T) (hne : sm.HeaderHash ≠ env.hashHeader g.Block.Header)
    (stale : List BlockGenMessage) :
    ∀ (ctxs : List Context) (calls : List (Block × Context)),
      (∀ x ∈ stale, x.Block.Header.Height < T) → stale.length < ctxs.length →
      drainGenerated env T signMap fr (stale ++ g :: rest) ctxs calls
        = ⟨some .ErrInvalidRequest, false, false,
            { fr with lastGenMessages := g :: rest, lastContextes := ctxs.drop stale.length },
            calls⟩ := by
  induction stale with
  | nil =>
    intro ctxs calls _ hlen
    cases ctxs with
    | nil => simp at hlen
    | cons c cs =>
      simp only [List.nil_append, drainGenerated, hg, lt_irrefl, if_false, gt_iff_lt, hsm,
        hkey, if_true, hne, ne_eq, not_false_eq_true, List.length_nil, List.drop_zero]
  | cons x stale ih =>
    intro ctxs calls hst hlen
    cases ctxs with
    | nil => simp at hlen
    | cons c cs =>
      have hx : x.Block.Header.Height < T := hst x (List.mem_cons_self _ _)
      have hne2 : (stale ++ g :: rest).isEmpty = false := by
        cases stale <;> rfl
      simp only [List.cons_append, drainGenerated, hx, if_true, List.append_eq, hne2,
        Bool.false_eq_true, if_false, List.length_cons, List.drop_succ_cons]
      exact ih cs calls (fun y hy => hst y (List.mem_cons_of_mem _ hy))
        (by simpa using hlen)

theorem handleBlockObSignMessage_head_only (env : ObSignEnv) (fr : RoundState)
    (msg : BlockObSignMessage) (req : BlockReqMessage) (g g2 : BlockGenMessage)
    (gs : List BlockGenMessage) (c : Context) (cs : List Context)
    (hreq : fr.lastReqMessage = some req)
    (hwin : msg.TargetHeight < u32 (req.TargetHeight + 10))
    (hgens : fr.lastGenMessages = g :: g2 :: gs) (hctxs : fr.lastContextes = c :: cs)
    (hg : g.Block.Header.Height = u32 (env.Height + 1))
    (hg2 : g.Block.Header.Height < g2.Block.Header.Height)
    (hmsg : msg.TargetHeight = g.Block.Header.Height)
    (hhash : msg.HeaderHash = env.hashHeader g.Block.Header)
    (hok : env.ConnectBlockWithContext (signedBlock g msg) c = none) :
    handleBlockObSignMessage env fr msg
      = ⟨none, false, false,
          { fr with
            lastObSignMessageMap := signMapSet fr.lastObSignMessageMap msg.TargetHeight msg
            lastGenMessages := g2 :: gs
            lastContextes := cs },
          [(signedBlock g msg, c)]⟩ := by
  have hl : (signMapSet fr.lastObSignMessageMap msg.TargetHeight msg).lookup
      g.Block.Header.Height = some msg := by
    simp [signMapSet, hmsg, List.lookup]
  have h1 : ¬ msg.TargetHeight < u32 (env.Height + 1) := by omega
  have h2 : ¬ msg.TargetHeight ≥ u32 (req.TargetHeight + 10) := by omega
  have h3 : ¬ g.Block.Header.Height < u32 (env.Height + 1) := by omega
  have h4 : ¬ g.Block.Header.Height > u32 (env.Height + 1) := by omega
  have h5 : ¬ g2.Block.Header.Height < u32 (env.Height + 1) := by omega
  have h6 : g2.Block.Header.Height > u32 (env.Height + 1) := by omega
  have h7 : g.Block.Header.Height = msg.TargetHeight := hmsg.symm
  have h8 : ¬ msg.HeaderHash ≠ env.hashHeader g.Block.Header := by simp [hhash]
  unfold handleBlockObSignMessage
  simp only [if_neg h1, hreq, if_neg h2, hgens, hctxs, drainGenerated, if_neg h3, if_neg h4, hl,
    if_pos h7, if_neg h8, hok, List.isEmpty_cons, Bool.false_eq_true, if_false, if_neg h5,
    if_pos h6, List.nil_append]

/-- C12 at its failing input: the chain is at height 10, `last_gen` holds the
blocks for heights 11 and 12, `last_sign_map` already holds the matching sign
message for 12, and the matching sign message for 11 arrives; every
`ConnectBlockWithContext` succeeds.  The handler makes one call, for block 11
only, and leaves the entry pair of block 12 in `last_gen`/`last_ctx`: the loop
compares heads with the `TargetHeight` computed at handler entry, so after the
first commit the next head is above it and the loop breaks. -/
theorem handleBlockObSignMessage_commits_one :
    (handleBlockObSignMessage (sampleObSignEnv 10) (generatedRound [(12, ⟨12, 1200, [31]⟩)])
        ⟨11, 1100, [21, 22]⟩).calls.map (fun bc => bc.1.Header.Height) = [11] ∧
    (handleBlockObSignMessage (sampleObSignEnv 10) (generatedRound [(12, ⟨12, 1200, [31]⟩)])
        ⟨11, 1100, [21, 22]⟩).state.lastGenMessages = [sampleGen 12] ∧
    (handleBlockObSignMessage (sampleObSignEnv 10) (generatedRound [(12, ⟨12, 1200, [31]⟩)])
        ⟨11, 1100, [21, 22]⟩).state.lastContextes = [⟨1, 0, 12⟩] ∧
    (handleBlockObSignMessage (sampleObSignEnv 10) (generatedRound [(12, ⟨12, 1200, [31]⟩)])
        ⟨11, 1100, [21, 22]⟩).err = none := by
  refine ⟨by decide, by decide, by decide, by decide⟩

/-- C13: every block the `BlockObSignMessage` handler passes to
`ConnectBlockWithContext` comes from an entry of `last_gen`; its `Signatures`
are the entry's `GeneratorSignature` followed by the observer signatures of the
sign message stashed for the entry's height, in their received order (length 1 +
number of observer signatures), and its header, transaction types, transactions,
transaction signatures and transaction results are those of the generated
block. -/
theorem commit_block_signatures (env : ObSignEnv) (fr : RoundState) (msg : BlockObSignMessage) :
    ∀ bc ∈ (handleBlockObSignMessage env fr msg).calls,
      ∃ g ∈ fr.lastGenMessages, ∃ sm,
        (signMapSet fr.lastObSignMessageMap msg.TargetHeight msg).lookup g.Block.Header.Height
          = some sm ∧
        bc.1.Signatures = g.GeneratorSignature :: sm.ObserverSignatures ∧
        bc.1.Signatures.length = 1 + sm.ObserverSignatures.length ∧
        bc.1.Header = g.Block.Header ∧
        bc.1.TransactionTypes = g.Block.TransactionTypes ∧
        bc.1.Transactions = g.Block.Transactions ∧
        bc.1.TransactionSignatures = g.Block.TransactionSignatures ∧
        bc.1.TransactionResults = g.Block.TransactionResults := by
  intro bc hbc
  obtain ⟨pre, g, rest, sm, c, hg, _, hl, _, _, hb, _⟩ :=
    handleBlockObSignMessage_calls env fr msg bc hbc
  refine ⟨g, by rw [hg]; simp, sm, hl, ?_⟩
  subst hb
  simp [signedBlock]
  omega

/-- Witness for `commit_block_signatures`: the commit of block 11 with generator
signature 11 and observer signatures 21, 22. -/
theorem commit_block_signatures_witness :
    ∃ g ∈ (generatedRound []).lastGenMessages, ∃ sm,
      (signMapSet (generatedRound []).lastObSignMessageMap 11 ⟨11, 1100, [21, 22]⟩).lookup
          g.Block.Header.Height = some sm ∧
      (signedBlock (sampleGen 11) ⟨11, 1100, [21, 22]⟩).Signatures
          = g.GeneratorSignature :: sm.ObserverSignatures ∧
      (signedBlock (sampleGen 11) ⟨11, 1100, [21, 22]⟩).Signatures.length
          = 1 + sm.ObserverSignatures.length ∧
      (signedBlock (sampleGen 11) ⟨11, 1100, [21, 22]⟩).Header = g.Block.Header ∧
      (signedBlock (sampleGen 11) ⟨11, 1100, [21, 22]⟩).TransactionTypes
          = g.Block.TransactionTypes ∧
      (signedBlock (sampleGen 11) ⟨11, 1100, [21, 22]⟩).Transactions = g.Block.Transactions ∧
      (signedBlock (sampleGen 11) ⟨11, 1100, [21, 22]⟩).TransactionSignatures
          = g.Block.TransactionSignatures ∧
      (signedBlock (sampleGen 11) ⟨11, 1100, [21, 22]⟩).TransactionResults
          = g.Block.TransactionResults :=
  commit_block_signatures (sampleObSignEnv 10) (generatedRound []) ⟨11, 1100, [21, 22]⟩
    (signedBlock (sampleGen 11) ⟨11, 1100, [21, 22]⟩, ⟨0, 0, 11⟩) (by decide)

/-- C14 (as amended): every call to `ConnectBlockWithContext` made by the
`BlockObSignMessage` handler is on an entry of `last_gen` together with the entry
of `last_ctx` at the same position, all entries before it being at or below
`chain.height + 1` (they were popped before the call, so the entry is the first
one at that moment); the entry's height equals `chain.height + 1` at handler
entry and the sign message stashed for that height carries the entry's header
hash.  When the first entry not below `chain.height + 1` is at that height and
its stashed sign message carries another header hash, the handler returns
`ErrInvalidRequest` with no commit; `last_gen`/`last_ctx` keep that entry and
everything after it and have lost only the entries before it. -/
theorem commit_head_in_order (env : ObSignEnv) (fr : RoundState) (msg : BlockObSignMessage) :
    (∀ bc ∈ (handleBlockObSignMessage env fr msg).calls,
      ∃ pre g rest sm c, fr.lastGenMessages = pre ++ g :: rest ∧
        fr.lastContextes[pre.length]? = some c ∧
        (signMapSet fr.lastObSignMessageMap msg.TargetHeight msg).lookup g.Block.Header.Height
          = some sm ∧
        g.Block.Header.Height = u32 (env.Height + 1) ∧
        sm.HeaderHash = env.hashHeader g.Block.Header ∧ bc = (signedBlock g sm, c) ∧
        ∀ x ∈ pre, x.Block.Header.Height ≤ u32 (env.Height + 1)) ∧
    (∀ (req : BlockReqMessage) (stale : List BlockGenMessage) (g : BlockGenMessage)
        (rest : List BlockGenMessage) (sm : BlockObSignMessage),
      fr.lastReqMessage = some req →
      ¬ msg.TargetHeight < u32 (env.Height + 1) →
      msg.TargetHeight < u32 (req.TargetHeight + 10) →
      fr.lastGenMessages = stale ++ g :: rest →
      (∀ x ∈ stale, x.Block.Header.Height < u32 (env.Height + 1)) →
      g.Block.Header.Height = u32 (env.Height + 1) →
      (signMapSet fr.lastObSignMessageMap msg.TargetHeight msg).lookup (u32 (env.Height + 1))
        = some sm →
      sm.TargetHeight = u32 (env.Height + 1) →
      sm.HeaderHash ≠ env.hashHeader g.Block.Header →
      fr.lastContextes.length = fr.lastGenMessages.length →
      handleBlockObSignMessage env fr msg
        = ⟨some .ErrInvalidRequest, false, false,
            { fr with
              lastObSignMessageMap := signMapSet fr.lastObSignMessageMap msg.TargetHeight msg
              lastGenMessages := g :: rest
              lastContextes := fr.lastContextes.drop stale.length },
            []⟩) := by
  refine ⟨fun bc hbc => handleBlockObSignMessage_calls env fr msg bc hbc, ?_⟩
  intro req stale g rest sm hreq hlow hwin hgens hstale hg hsm hkey hne hlen
  have h2 : ¬ msg.TargetHeight ≥ u32 (req.TargetHeight + 10) := by omega
  have hl : stale.length < fr.lastContextes.length := by
    rw [hlen, hgens]; simp
  unfold handleBlockObSignMessage
  simp only [if_neg hlow, hreq, if_neg h2, hgens]
  rw [drainGenerated_mismatch env _ _ _ g rest sm hg hsm hkey hne stale _ _ hstale hl]

/-- Witness for `commit_head_in_order`: with the chain at height 11 and blocks 11,
12 generated, a sign message for 12 with the wrong header hash gives
`ErrInvalidRequest`, pops the entry of block 11 and keeps that of block 12. -/
theorem commit_head_in_order_witness :
    handleBlockObSignMessage (sampleObSignEnv 11) (generatedRound []) ⟨12, 1299, [21, 22]⟩
      = ⟨some .ErrInvalidRequest, false, false,
          { generatedRound [] with
            lastObSignMessageMap := signMapSet [] 12 ⟨12, 1299, [21, 22]⟩
            lastGenMessages := [sampleGen 12]
            lastContextes := [⟨1, 0, 12⟩] },
          []⟩ :=
  (commit_head_in_order (sampleObSignEnv 11) (generatedRound []) ⟨12, 1299, [21, 22]⟩).2
    ⟨77, 11, 0, 5, 6⟩ [sampleGen 11] (sampleGen 12) [] ⟨12, 1299, [21, 22]⟩
    rfl (by decide) (by decide) rfl (by decide) (by decide) (by decide) (by decide) (by decide)
    (by decide)

/-- C14 as stated fails: in the run above the handler returns `ErrInvalidRequest`
for the header-hash mismatch at height 12 without a commit, but `last_gen` and
`last_ctx` are not unchanged - the entry of block 11, below `chain.height + 1`,
was popped first. -/
theorem commit_head_in_order_counterexample :
    (handleBlockObSignMessage (sampleObSignEnv 11) (generatedRound [])
        ⟨12, 1299, [21, 22]⟩).err = some .ErrInvalidRequest ∧
    (handleBlockObSignMessage (sampleObSignEnv 11) (generatedRound [])
        ⟨12, 1299, [21, 22]⟩).calls = [] ∧
    (handleBlockObSignMessage (sampleObSignEnv 11) (generatedRound [])
        ⟨12, 1299, [21, 22]⟩).state.lastGenMessages ≠ (generatedRound []).lastGenMessages ∧
    (handleBlockObSignMessage (sampleObSignEnv 11) (generatedRound [])
        ⟨12, 1299, [21, 22]⟩).state.lastContextes ≠ (generatedRound []).lastContextes := by
  refine ⟨by decide, by decide, by decide, by decide⟩

/-! ## Block timestamps -/

theorem blockTimestamp_gt (env : GenEnv) (S : Nat) (nd : Bool) (i : Nat) (ctx : Context)
    (h : ctx.LastTimestamp < 2 ^ 64 - 1) :
    ctx.LastTimestamp < blockTimestamp env S nd i ctx := by
  unfold blockTimestamp
  simp only
  generalize (if (nd = true ∨ S > u64 (env.Now + 3 * second)) then
    u64 (S + u64 (i * millisecond)) else u64 (S + u64 (i * (500 * millisecond)))) = T
  split
  · unfold u64; omega
  · omega

theorem TxLoop_LastTimestamp (env : GenEnv)
    (hExec : ∀ ctx item ctx2, env.execute ctx item = .ok ctx2 →
      ctx2.LastTimestamp = ctx.LastTimestamp) (passes : Nat) :
    ∀ (pool : List PoolItem) (bc : BlockCreator) (Count : Int),
      (TxLoop env passes pool bc Count).2.1.ctx.LastTimestamp = bc.ctx.LastTimestamp := by
  induction passes with
  | zero => intro pool bc Count; rfl
  | succ passes ih =>
    intro pool bc Count
    simp only [TxLoop]
    split
    · rfl
    · split
      · exact ih _ _ _
      · rename_i bc2 hadd
        have hbc : bc2.ctx.LastTimestamp = bc.ctx.LastTimestamp := by
          unfold UnsafeAddTx at hadd
          split at hadd
          · simp at hadd
          · rename_i ctx2 hex
            simp only [Except.ok.injEq] at hadd
            subst hadd
            exact hExec _ _ _ hex
        split
        · exact hbc
        · rw [ih, hbc]

theorem genBlockLoop_timestamps (env : GenEnv) (msg : BlockReqMessage) (S : Nat) (nd : Bool)
    (hNext : ∀ ctx h ts, (env.NextContext ctx h ts).LastTimestamp = ts)
    (hExec : ∀ ctx item ctx2, env.execute ctx item = .ok ctx2 →
      ctx2.LastTimestamp = ctx.LastTimestamp) (left : Nat) :
    ∀ (i : Nat) (ctx : Context) (lastHeader : Option Header) (fr : RoundState)
      (pool : List PoolItem) (sent : List BlockGenMessage),
      ((i = 0 ∧ sent = []) ∨
        (i ≠ 0 ∧ ∃ h nm, lastHeader = some h ∧ sent.getLast? = some nm ∧
          nm.Block.Header.Timestamp = h.Timestamp)) →
      List.Forall₂ (fun (nm : BlockGenMessage) (c : Context) =>
        c.LastTimestamp < 2 ^ 64 - 1 → c.LastTimestamp < nm.Block.Header.Timestamp)
        sent fr.lastContextes →
      List.Chain' (fun (a b : BlockGenMessage) =>
        a.Block.Header.Timestamp < 2 ^ 64 - 1 →
          a.Block.Header.Timestamp + 1 ≤ b.Block.Header.Timestamp) sent →
      List.Forall₂ (fun (nm : BlockGenMessage) (c : Context) =>
        c.LastTimestamp < 2 ^ 64 - 1 → c.LastTimestamp < nm.Block.Header.Timestamp)
        (genBlockLoop env msg S nd left i ctx lastHeader fr pool sent).sent
        (genBlockLoop env msg S nd left i ctx lastHeader fr pool sent).state.lastContextes ∧
      List.Chain' (fun (a b : BlockGenMessage) =>
        a.Block.Header.Timestamp < 2 ^ 64 - 1 →
          a.Block.Header.Timestamp + 1 ≤ b.Block.Header.Timestamp)
        (genBlockLoop env msg S nd left i ctx lastHeader fr pool sent).sent := by
  induction left with
  | zero =>
    intro i ctx lastHeader fr pool sent _ h1 h2
    exact ⟨h1, h2⟩
  | succ left ih =>
    intro i ctx lastHeader fr pool sent hinv h1 h2
    rcases hinv with ⟨hi0, hs⟩ | ⟨hi, h, nm, hl, hlast, hts⟩
    · subst hi0
      subst hs
      simp only [genBlockLoop, if_true]
      have hTx := TxLoop_LastTimestamp env hExec (env.timerPasses 0) pool
        ⟨ctx, msg.Formulator, msg.TimeoutCount, []⟩ 0
      generalize TxLoop env (env.timerPasses 0) pool
        ⟨ctx, msg.Formulator, msg.TimeoutCount, []⟩ 0 = r at hTx ⊢
      obtain ⟨pool2, bc2, cnt⟩ := r
      simp only at hTx ⊢
      repeat' split
      all_goals first | exact ⟨h1, h2⟩ | skip
      apply ih
      · right
        exact ⟨by omega, _, _, rfl, List.getLast?_concat _, rfl⟩
      · apply List.rel_append h1
        refine List.Forall₂.cons ?_ List.Forall₂.nil
        intro hlt
        show bc2.ctx.LastTimestamp < blockTimestamp env S nd 0 ctx
        rw [hTx] at hlt ⊢
        exact blockTimestamp_gt env S nd 0 ctx hlt
      · simp
    · subst hl
      simp only [genBlockLoop, if_neg hi]
      have hc : (env.NextContext ctx (env.hashHeader h) h.Timestamp).LastTimestamp
          = h.Timestamp := hNext _ _ _
      generalize env.NextContext ctx (env.hashHeader h) h.Timestamp = ctx1 at hc ⊢
      have hTx := TxLoop_LastTimestamp env hExec (env.timerPasses i) pool
        ⟨ctx1, msg.Formulator, 0, []⟩ 0
      generalize TxLoop env (env.timerPasses i) pool ⟨ctx1, msg.Formulator, 0, []⟩ 0 = r
        at hTx ⊢
      obtain ⟨pool2, bc2, cnt⟩ := r
      simp only at hTx ⊢
      repeat' split
      all_goals first | exact ⟨h1, h2⟩ | skip
      apply ih
      · right
        exact ⟨by omega, _, _, rfl, List.getLast?_concat _, rfl⟩
      · apply List.rel_append h1
        refine List.Forall₂.cons ?_ List.Forall₂.nil
        intro hlt
        show bc2.ctx.LastTimestamp < blockTimestamp env S nd i ctx1
        rw [hTx] at hlt ⊢
        exact blockTimestamp_gt env S nd i ctx1 hlt
      · apply List.Chain'.append h2 (List.chain'_singleton _)
        intro x hx y hy
        simp only [List.head?_cons, Option.mem_def, Option.some.injEq] at hy
        subst hy
        intro hxlt
        show x.Block.Header.Timestamp + 1 ≤ blockTimestamp env S nd i ctx1
        rw [Option.mem_def, hlast] at hx
        simp only [Option.some.injEq] at hx
        subst hx
        have := blockTimestamp_gt env S nd i ctx1 (by omega)
        omega

/-- C15 (as amended): given that `NextContext(hash, ts).LastTimestamp() = ts` and
that executing a transaction leaves a context's last timestamp as it is, in one
run of `genBlock` every emitted block whose context has a last timestamp below
the largest `uint64` carries a timestamp strictly greater than that last
timestamp, and for consecutively emitted blocks the later timestamp is at least
the earlier one plus 1 ns whenever the earlier one is below the largest
`uint64` - for every start time, chain last timestamp and block index. -/
theorem genBlock_timestamps (env : GenEnv) (fr : RoundState) (pool : List PoolItem)
    (msg : BlockReqMessage)
    (hNext : ∀ ctx h ts, (env.NextContext ctx h ts).LastTimestamp = ts)
    (hExec : ∀ ctx item ctx2, env.execute ctx item = .ok ctx2 →
      ctx2.LastTimestamp = ctx.LastTimestamp) :
    List.Forall₂ (fun (nm : BlockGenMessage) (c : Context) =>
        c.LastTimestamp < 2 ^ 64 - 1 → c.LastTimestamp < nm.Block.Header.Timestamp)
      (genBlock env fr pool msg).sent (genBlock env fr pool msg).state.lastContextes ∧
    List.Chain' (fun (a b : BlockGenMessage) =>
        a.Block.Header.Timestamp < 2 ^ 64 - 1 →
          a.Block.Header.Timestamp + 1 ≤ b.Block.Header.Timestamp)
      (genBlock env fr pool msg).sent := by
  unfold genBlock
  exact genBlockLoop_timestamps env msg _ _ hNext hExec _ 0 _ none _ pool []
    (Or.inl ⟨rfl, rfl⟩) List.Forall₂.nil List.chain'_nil

/-- Witness for `genBlock_timestamps`: a run of three blocks in the sample
environment, whose contexts chain through the block timestamps. -/
theorem genBlock_timestamps_witness :
    List.Forall₂ (fun (nm : BlockGenMessage) (c : Context) =>
        c.LastTimestamp < 2 ^ 64 - 1 → c.LastTimestamp < nm.Block.Header.Timestamp)
      (genBlock (sampleGenEnv 3 0 5000 100) idleRound [] ⟨77, 11, 0, 5, 6⟩).sent
      (genBlock (sampleGenEnv 3 0 5000 100) idleRound [] ⟨77, 11, 0, 5, 6⟩).state.lastContextes ∧
    List.Chain' (fun (a b : BlockGenMessage) =>
        a.Block.Header.Timestamp < 2 ^ 64 - 1 →
          a.Block.Header.Timestamp + 1 ≤ b.Block.Header.Timestamp)
      (genBlock (sampleGenEnv 3 0 5000 100) idleRound [] ⟨77, 11, 0, 5, 6⟩).sent :=
  genBlock_timestamps (sampleGenEnv 3 0 5000 100) idleRound [] ⟨77, 11, 0, 5, 6⟩
    (fun _ _ _ => rfl)
    (fun ctx _ ctx2 h => by
      have e : ctx = ctx2 := by injection h
      rw [e])

/-- C15 as stated fails: on a chain whose last timestamp is `2^64 - 1` the
context's last timestamp plus one wraps to 0, so the emitted block carries
timestamp 0, which is not greater than the last timestamp of its context. -/
theorem genBlock_timestamps_counterexample :
    (genBlock lastTickGenEnv idleRound [] ⟨77, 11, 0, 5, 6⟩).sent.map
        (fun nm => nm.Block.Header.Timestamp) = [0] ∧
    (genBlock lastTickGenEnv idleRound [] ⟨77, 11, 0, 5, 6⟩).state.lastContextes.map
        (fun c => c.LastTimestamp) = [2 ^ 64 - 1] ∧
    ¬ ((2 ^ 64 - 1 : Nat) < 0) := by
  refine ⟨by decide, by decide, by decide⟩

/-! ## Handler errors end the observer connection -/

theorem readLoop_reject {σ μ : Type} (recv : σ → μ → Option (Option Err × σ)) (eof e : Err)
    (m : μ) (post : List μ) (st1 st2 : σ) (hm : recv st1 m = some (some e, st2))
    (pre : List μ) :
    ∀ st, acceptAll recv st pre = some st1 →
      readLoop recv eof st (pre ++ m :: post) = some (e, st2, post) := by
  induction pre with
  | nil =>
    intro st h
    simp only [acceptAll, Option.some.injEq] at h
    subst h
    simp only [List.nil_append, readLoop, hm]
  | cons x pre ih =>
    intro st h
    simp only [acceptAll] at h
    simp only [List.cons_append, readLoop]
    split at h
    · rename_i st3 hx
      rw [hx]
      exact ih st3 h
    · simp at h

theorem lookup_filter_ne (l : List (Nat × Nat)) (ID : Nat) :
    (l.filter (fun e => e.1 != ID)).lookup ID = none := by
  induction l with
  | nil => rfl
  | cons x l ih =>
    obtain ⟨k, v⟩ := x
    by_cases hx : k = ID
    · have hb : (k != ID) = false := by simp [hx]
      rw [List.filter_cons, hb]
      exact ih
    · have hb : (k != ID) = true := by simp [hx]
      have hb2 : (ID == k) = false := by
        simp only [beq_eq_false_iff_ne, ne_eq]
        exact fun h => hx h.symm
      rw [List.filter_cons, hb]
      simp only [if_true, List.lookup, hb2]
      exact ih

theorem mem_closed_Close (ms : MeshState) (conn : Nat) : conn ∈ (ms.Close conn).closed := by
  unfold MeshState.Close
  split
  · assumption
  · simp

theorem Close_peerMap (ms : MeshState) (conn : Nat) : (ms.Close conn).peerMap = ms.peerMap := by
  unfold MeshState.Close
  split <;> rfl

theorem readLoop_skip {σ μ : Type} (recv : σ → μ → Option (Option Err × σ)) (eof : Err)
    (m : μ) (post : List μ) (st1 : σ) (hm : recv st1 m = some (none, st1)) (pre : List μ) :
    ∀ st, acceptAll recv st pre = some st1 →
      readLoop recv eof st (pre ++ m :: post) = readLoop recv eof st (pre ++ post) := by
  induction pre with
  | nil =>
    intro st h
    simp only [acceptAll, Option.some.injEq] at h
    subst h
    simp only [List.nil_append]
    conv_lhs => rw [readLoop, hm]
  | cons x pre ih =>
    intro st h
    simp only [acceptAll] at h
    simp only [List.cons_append, readLoop]
    split at h
    · rename_i st3 hx
      rw [hx]
      exact ih st3 h
    · simp at h

theorem handleBlockReqMessage_err_state (env : ReqEnv) (fr : RoundState) (msg : BlockReqMessage)
    (RetryCount : Nat) (e : Err) (h : (handleBlockReqMessage env fr msg RetryCount).err = some e) :
    (handleBlockReqMessage env fr msg RetryCount).state = fr := by
  unfold handleBlockReqMessage at h ⊢
  dsimp only at h ⊢
  repeat' split
  all_goals first | rfl | simp_all

/-- C19 (as amended): when the call of the handler made by the connection loop of
observer peer `P` returns `ErrInvalidRequest` (all earlier events of the
connection having been handled without error), the connection loop ends with
that error: `client` returns nil, `P` is no longer in the formulator mesh's peer
map, its connection is closed, and the messages after the rejected one are not
read.  When a `BlockReqMessage` fails validation with `ErrInvalidRequest` in a
re-run of the handler by the goroutine of the retry branch, the error is dropped:
the round state is unchanged and the run of `client` is the one it would be
without the re-run, so `P` stays installed and its loop goes on reading. -/
theorem client_invalid_request (reqEnv : ReqEnv) (signEnv : ObSignEnv) (eof : Err)
    (P conn : Nat) (netAddressMap : List Nat) (ms : MeshState) (fr fr1 : RoundState)
    (pre post : List ObserverEvent) (hP : P ∈ netAddressMap)
    (hpre : acceptAll (onObserverEvent reqEnv signEnv) fr pre = some fr1) :
    (∀ (m : ObserverMessage) (fr2 : RoundState),
      onObserverRecv reqEnv signEnv fr1 m = some (some .ErrInvalidRequest, fr2) →
      ∃ out, FormulatorNodeMesh.client none none (.ok P) P netAddressMap conn
          (onObserverEvent reqEnv signEnv) eof ms fr (pre ++ .read m :: post) = some out ∧
        out.err = none ∧ out.loopErr = some .ErrInvalidRequest ∧ out.unread = post ∧
        out.mesh.peerMap.lookup P = none ∧ conn ∈ out.mesh.closed) ∧
    (∀ (env : ReqEnv) (msg : BlockReqMessage) (RetryCount : Nat),
      (handleBlockReqMessage env fr1 msg RetryCount).err = some .ErrInvalidRequest →
      onObserverEvent reqEnv signEnv fr1 (.rerun env msg RetryCount) = some (none, fr1) ∧
      FormulatorNodeMesh.client none none (.ok P) P netAddressMap conn
          (onObserverEvent reqEnv signEnv) eof ms fr (pre ++ .rerun env msg RetryCount :: post)
        = FormulatorNodeMesh.client none none (.ok P) P netAddressMap conn
          (onObserverEvent reqEnv signEnv) eof ms fr (pre ++ post)) := by
  constructor
  · intro m fr2 hm
    have hm2 : onObserverEvent reqEnv signEnv fr1 (.read m)
        = some (some .ErrInvalidRequest, fr2) := hm
    have hloop := readLoop_reject (onObserverEvent reqEnv signEnv) eof .ErrInvalidRequest
      (.read m) post fr1 fr2 hm2 pre fr hpre
    unfold FormulatorNodeMesh.client FormulatorNodeMesh.handleConnection
    simp only [ne_eq, not_true_eq_false, if_false, hP, not_true_eq_false, hloop]
    refine ⟨_, rfl, rfl, rfl, rfl, ?_, mem_closed_Close _ _⟩
    simp only [Close_peerMap]
    unfold MeshState.RemovePeer
    simp only [List.lookup, beq_self_eq_true, Close_peerMap]
    exact lookup_filter_ne _ _
  · intro env msg RetryCount herr
    have hst := handleBlockReqMessage_err_state env fr1 msg RetryCount _ herr
    have hev : onObserverEvent reqEnv signEnv fr1 (.rerun env msg RetryCount)
        = some (none, fr1) := by
      simp only [onObserverEvent, hst]
    have hloop := readLoop_skip (onObserverEvent reqEnv signEnv) eof
      (.rerun env msg RetryCount) post fr1 hev pre fr hpre
    refine ⟨hev, ?_⟩
    unfold FormulatorNodeMesh.client FormulatorNodeMesh.handleConnection
    simp only [ne_eq, not_true_eq_false, if_false, hP, hloop]

/-- Witness for `client_invalid_request`: observer 9 sends a request naming
another formulator, then a valid one; and the same request fails in a re-run
before the valid one is read. -/
theorem client_invalid_request_witness :
    (∃ out, FormulatorNodeMesh.client none none (.ok 9) 9 [9] 1
        (onObserverEvent (sampleReqEnv (.ok 5)) (sampleObSignEnv 10)) (.external 0)
        ⟨[], [], []⟩ idleRound
        ([] ++ ObserverEvent.read (.blockReq ⟨77, 11, 0, 4, 6⟩) ::
          [ObserverEvent.read (.blockReq ⟨77, 11, 0, 5, 6⟩)]) = some out ∧
      out.err = none ∧ out.loopErr = some .ErrInvalidRequest ∧
      out.unread = [ObserverEvent.read (.blockReq ⟨77, 11, 0, 5, 6⟩)] ∧
      out.mesh.peerMap.lookup 9 = none ∧ 1 ∈ out.mesh.closed) ∧
    (handleBlockReqMessage (sampleReqEnv (.ok 5)) idleRound ⟨77, 11, 0, 4, 6⟩ 1).err
      = some .ErrInvalidRequest ∧
    onObserverEvent (sampleReqEnv (.ok 5)) (sampleObSignEnv 10) idleRound
        (.rerun (sampleReqEnv (.ok 5)) ⟨77, 11, 0, 4, 6⟩ 1) = some (none, idleRound) ∧
    FormulatorNodeMesh.client none none (.ok 9) 9 [9] 1
        (onObserverEvent (sampleReqEnv (.ok 5)) (sampleObSignEnv 10)) (.external 0)
        ⟨[], [], []⟩ idleRound
        ([] ++ ObserverEvent.rerun (sampleReqEnv (.ok 5)) ⟨77, 11, 0, 4, 6⟩ 1 ::
          [ObserverEvent.read (.blockReq ⟨77, 11, 0, 5, 6⟩)])
      = FormulatorNodeMesh.client none none (.ok 9) 9 [9] 1
        (onObserverEvent (sampleReqEnv (.ok 5)) (sampleObSignEnv 10)) (.external 0)
        ⟨[], [], []⟩ idleRound ([] ++ [ObserverEvent.read (.blockReq ⟨77, 11, 0, 5, 6⟩)]) :=
  ⟨(client_invalid_request (sampleReqEnv (.ok 5)) (sampleObSignEnv 10) (.external 0) 9 1 [9]
      ⟨[], [], []⟩ idleRound idleRound [] [ObserverEvent.read (.blockReq ⟨77, 11, 0, 5, 6⟩)]
      (by decide) rfl).1 (.blockReq ⟨77, 11, 0, 4, 6⟩) idleRound (by decide),
   by decide,
   ((client_invalid_request (sampleReqEnv (.ok 5)) (sampleObSignEnv 10) (.external 0) 9 1 [9]
      ⟨[], [], []⟩ idleRound idleRound [] [ObserverEvent.read (.blockReq ⟨77, 11, 0, 5, 6⟩)]
      (by decide) rfl).2 (sampleReqEnv (.ok 5)) ⟨77, 11, 0, 4, 6⟩ 1 (by decide)).1,
   ((client_invalid_request (sampleReqEnv (.ok 5)) (sampleObSignEnv 10) (.external 0) 9 1 [9]
      ⟨[], [], []⟩ idleRound idleRound [] [ObserverEvent.read (.blockReq ⟨77, 11, 0, 5, 6⟩)]
      (by decide) rfl).2 (sampleReqEnv (.ok 5)) ⟨77, 11, 0, 4, 6⟩ 1 (by decide)).2⟩

/-- C19 as stated fails: observer 9 is installed, its first message is a
`BlockReqMessage` naming another formulator and is answered with
`ErrInvalidRequest`; afterwards 9 is not in the peer map, its connection is
closed, and the second message was never read. -/
theorem client_invalid_request_counterexample :
    (onObserverRecv (sampleReqEnv (.ok 5)) (sampleObSignEnv 10) idleRound
        (ObserverMessage.blockReq ⟨77, 11, 0, 4, 6⟩)).map (fun r => r.1)
      = some (some .ErrInvalidRequest) ∧
    (FormulatorNodeMesh.client none none (.ok 9) 9 [9] 1
        (onObserverRecv (sampleReqEnv (.ok 5)) (sampleObSignEnv 10)) (.external 0)
        ⟨[], [], []⟩ idleRound
        [ObserverMessage.blockReq ⟨77, 11, 0, 4, 6⟩,
          ObserverMessage.blockReq ⟨77, 11, 0, 5, 6⟩]).map
        (fun out => (out.mesh.peerMap.lookup 9, out.mesh.closed, out.unread))
      = some (none, [1], [ObserverMessage.blockReq ⟨77, 11, 0, 5, 6⟩]) := by
  refine ⟨by decide, by decide⟩

/-! ## Frame layout -/

theorem uint32LE_putUint32LE (v : Nat) (rest : List Nat) (hv : v < 2 ^ 32) :
    uint32LE (putUint32LE v ++ rest) = v := by
  simp only [uint32LE, putUint32LE, u8, u32, List.cons_append, List.getD_cons_succ,
    List.getD_cons_zero, Nat.shiftRight_eq_div_pow, Nat.shiftLeft_eq]
  have e1 : v / 2 ^ 8 % 2 ^ 8 * 2 ^ 8 % 2 ^ 32 = 2 ^ 8 * (v / 2 ^ 8 % 2 ^ 8) := by omega
  have e2 : v / 2 ^ 16 % 2 ^ 8 * 2 ^ 16 % 2 ^ 32 = 2 ^ 16 * (v / 2 ^ 16 % 2 ^ 8) := by omega
  have e3 : v / 2 ^ 24 % 2 ^ 8 * 2 ^ 24 % 2 ^ 32 = 2 ^ 24 * (v / 2 ^ 24) := by omega
  rw [e1, e2, e3]
  have a1 : v % 2 ^ 8 ||| 2 ^ 8 * (v / 2 ^ 8 % 2 ^ 8) = v % 2 ^ 16 := by
    rw [Nat.lor_comm, ← Nat.mul_add_lt_is_or (Nat.mod_lt _ (by norm_num))]; omega
  have a2 : v % 2 ^ 16 ||| 2 ^ 16 * (v / 2 ^ 16 % 2 ^ 8) = v % 2 ^ 24 := by
    rw [Nat.lor_comm, ← Nat.mul_add_lt_is_or (Nat.mod_lt _ (by norm_num))]; omega
  have a3 : v % 2 ^ 24 ||| 2 ^ 24 * (v / 2 ^ 24) = v := by
    rw [Nat.lor_comm, ← Nat.mul_add_lt_is_or (Nat.mod_lt _ (by norm_num))]; omega
  rw [a1, a2, a3]

theorem putUint32LE_length (v : Nat) : (putUint32LE v).length = 4 := rfl

theorem SendRaw_cons (gzip : List Nat → List Nat) (writeErr : Option Err) (a b : Nat)
    (body : List Nat) :
    TCPPeer.SendRaw gzip none writeErr (a :: b :: body)
      = some (writeErr,
          [a, b] ++ putUint32LE
              (u32 (if body.length + 2 > 1000 then gzip body else body).length)
            ++ [if body.length + 2 > 1000 then 1 else 0]
            ++ (if body.length + 2 > 1000 then gzip body else body)) := by
  unfold TCPPeer.SendRaw
  have h2 : ¬ (a :: b :: body).length < 2 := by simp
  rw [if_neg h2]
  by_cases hbig : body.length + 2 > 1000
  · have h3 : (a :: b :: body).length > 1000 := by simpa using hbig
    simp only [if_pos h3, if_pos hbig, List.take, List.drop, List.cons_append, List.nil_append,
      List.length_cons, List.length_append, List.length_nil]
    rw [show (gzip body).length + 1 + 1 + 1 + 1 + 1 + 1 + 1 - 7 = (gzip body).length by omega]
    simp
  · have h3 : ¬ (a :: b :: body).length > 1000 := by simpa using hbig
    simp only [if_neg h3, if_neg hbig]
    cases body with
    | nil => rfl
    | cons x xs =>
      have hne : xs.length + 1 + 1 + 1 > 2 := by omega
      simp only [List.length_cons, if_pos hne, List.take, List.drop, List.cons_append,
        List.nil_append, List.length_append, List.length_nil]
      rw [show xs.length + 1 + 1 + 1 + 1 + 1 + 1 + 1 + 1 - 7 = xs.length + 1 by omega]
      simp

theorem readFrame_frame (pingType a b cps : Nat) (payload rest : List Nat)
    (hping : uint16LE [a, b] ≠ pingType) (h0 : 0 < payload.length)
    (h32 : payload.length < 2 ^ 32) :
    TCPPeer.readFrame pingType
        ([a, b] ++ putUint32LE payload.length ++ [cps] ++ payload ++ rest)
      = .ok (⟨uint16LE [a, b], payload.length, cps, payload⟩, rest) := by
  have hs : [a, b] ++ putUint32LE payload.length ++ [cps] ++ payload ++ rest
      = a :: b :: (putUint32LE payload.length ++ cps :: (payload ++ rest)) := by simp
  have hlen : ¬ (putUint32LE payload.length ++ cps :: (payload ++ rest)).length < 4 := by
    simp [putUint32LE_length]
  have htake : (putUint32LE payload.length ++ cps :: (payload ++ rest)).take 4
      = putUint32LE payload.length := by
    simp [putUint32LE]
  have hdrop : (putUint32LE payload.length ++ cps :: (payload ++ rest)).drop 4
      = cps :: (payload ++ rest) := by
    simp [putUint32LE]
  have hval : uint32LE (putUint32LE payload.length) = payload.length := by
    have := uint32LE_putUint32LE payload.length [] h32
    simpa using this
  have hne : ¬ payload.length = 0 := by omega
  have hl2 : ¬ (payload ++ rest).length < payload.length := by simp
  rw [hs, TCPPeer.readFrame]
  simp only [if_neg hping, if_neg hlen, htake, hdrop, hval, if_neg hne, if_neg hl2,
    List.take_left, List.drop_left]

/-- C20 (as amended): for every message byte string `bs` of length at least 2
whose payload - the body `bs[2..]`, or its gzip output when `len(bs) > 1000` - is
shorter than `2^32` bytes, the bytes `TCPPeer.SendRaw` writes are `bs[0..2]`, a
4-byte little-endian `payload_len`, one flag byte, and exactly `payload_len`
payload bytes; when the flag is 0 the payload is `bs[2..]` verbatim; and, for a
non-empty payload and a type id other than the ping type, the header parse of
`ReadMessageData` applied to these bytes recovers the same type id,
`payload_len`, flag and payload (for flag 0 the body `bs[2..]`). -/
theorem SendRaw_frame (gzip : List Nat → List Nat) (writeErr : Option Err) (pingType : Nat)
    (bs payload rest : List Nat) (flag : Nat) (hlen : 2 ≤ bs.length)
    (hpay : payload = if bs.length > 1000 then gzip (bs.drop 2) else bs.drop 2)
    (hflag : flag = if bs.length > 1000 then 1 else 0)
    (h32 : payload.length < 2 ^ 32) :
    TCPPeer.SendRaw gzip none writeErr bs
      = some (writeErr, bs.take 2 ++ putUint32LE payload.length ++ [flag] ++ payload) ∧
    uint32LE (putUint32LE payload.length) = payload.length ∧
    (flag = 0 → payload = bs.drop 2) ∧
    (uint16LE (bs.take 2) ≠ pingType → 0 < payload.length →
      TCPPeer.readFrame pingType
          (bs.take 2 ++ putUint32LE payload.length ++ [flag] ++ payload ++ rest)
        = .ok (⟨uint16LE (bs.take 2), payload.length, flag, payload⟩, rest)) := by
  obtain ⟨a, b, body, rfl⟩ : ∃ a b body, bs = a :: b :: body := by
    match bs, hlen with
    | a :: b :: body, _ => exact ⟨a, b, body, rfl⟩
  have hc : ((a :: b :: body).length > 1000) = (body.length + 2 > 1000) := by simp
  simp only [hc, List.drop_succ_cons, List.drop_zero] at hpay hflag
  have hu : u32 payload.length = payload.length := by
    unfold u32; omega
  refine ⟨?_, ?_, ?_, ?_⟩
  · rw [SendRaw_cons, ← hpay, ← hflag, hu]
    rfl
  · have := uint32LE_putUint32LE payload.length [] h32
    simpa using this
  · intro h0
    rw [hpay]
    by_cases hbig : body.length + 2 > 1000
    · rw [if_pos hbig] at hflag
      omega
    · rw [if_neg hbig]
      rfl
  · intro hping h0
    exact readFrame_frame pingType a b flag payload rest hping h0 h32

/-- Witness for `SendRaw_frame`: a message with type id bytes 7, 1 and the body
5, 6, 8 is framed as `7 1 | 3 0 0 0 | 0 | 5 6 8` and parsed back. -/
theorem SendRaw_frame_witness :
    TCPPeer.SendRaw storeOnly none none [7, 1, 5, 6, 8]
      = some (none, [7, 1] ++ putUint32LE 3 ++ [0] ++ [5, 6, 8]) ∧
    uint32LE (putUint32LE 3) = 3 ∧
    TCPPeer.readFrame 9 ([7, 1] ++ putUint32LE 3 ++ [0] ++ [5, 6, 8] ++ [4, 4])
      = .ok (⟨uint16LE [7, 1], 3, 0, [5, 6, 8]⟩, [4, 4]) :=
  ⟨(SendRaw_frame storeOnly none 9 [7, 1, 5, 6, 8] [5, 6, 8] [4, 4] 0 (by decide) rfl rfl
      (by decide)).1,
   (SendRaw_frame storeOnly none 9 [7, 1, 5, 6, 8] [5, 6, 8] [4, 4] 0 (by decide) rfl rfl
      (by decide)).2.1,
   (SendRaw_frame storeOnly none 9 [7, 1, 5, 6, 8] [5, 6, 8] [4, 4] 0 (by decide) rfl rfl
      (by decide)).2.2.2 (by decide) (by decide)⟩

theorem SendRaw_length_field (gzip : List Nat → List Nat) (a b : Nat) (body : List Nat)
    (hbig : body.length + 2 > 1000) :
    (TCPPeer.SendRaw gzip none none (a :: b :: body)).map (fun r => uint32LE (r.2.drop 2))
      = some (u32 (gzip body).length) ∧
    (TCPPeer.SendRaw gzip none none (a :: b :: body)).map (fun r => (r.2.drop 7).length)
      = some (gzip body).length := by
  rw [SendRaw_cons]
  simp only [if_pos hbig, Option.map_some', Option.some.injEq]
  constructor
  · have hd : ([a, b] ++ putUint32LE (u32 (gzip body).length) ++ [1] ++ gzip body).drop 2
        = putUint32LE (u32 (gzip body).length) ++ ([1] ++ gzip body) := by simp
    rw [hd]
    exact uint32LE_putUint32LE _ _ (by unfold u32; omega)
  · simp [putUint32LE]

theorem geom_sum_lt (L : Nat) : ∑ k : Fin L, 256 ^ (k : Nat) < 256 ^ L := by
  rw [Fin.sum_univ_eq_sum_range (fun k => 256 ^ k) L]
  exact Nat.geomSum_lt (by norm_num) (fun k hk => Finset.mem_range.mp hk)

theorem exists_long_output (gzip gunzip : List Nat → List Nat)
    (hinv : ∀ body : List Nat, (∀ b ∈ body, b < 256) → gunzip (gzip body) = body)
    (hbytes : ∀ body : List Nat, (∀ b ∈ body, b < 256) → ∀ b ∈ gzip body, b < 256) (L : Nat) :
    ∃ body : List Nat, body.length = L ∧ (∀ b ∈ body, b < 256) ∧ L ≤ (gzip body).length := by
  by_contra hcon
  push_neg at hcon
  have hbody_len : ∀ v : Fin L → Fin 256, (List.ofFn (fun i => (v i).val)).length = L :=
    fun v => List.length_ofFn _
  have hbody_bytes : ∀ v : Fin L → Fin 256, ∀ b ∈ List.ofFn (fun i => (v i).val), b < 256 := by
    intro v b hb
    obtain ⟨i, rfl⟩ := (List.mem_ofFn _ _).mp hb
    exact (v i).isLt
  let c : (Fin L → Fin 256) → (Σ k : Fin L, (Fin k → Fin 256)) := fun v =>
    ⟨⟨(gzip (List.ofFn (fun i => (v i).val))).length,
        hcon _ (hbody_len v) (hbody_bytes v)⟩,
      fun j => ⟨(gzip (List.ofFn (fun i => (v i).val))).get ⟨j.val, j.isLt⟩,
        hbytes _ (hbody_bytes v) _ (List.get_mem _ _ _)⟩⟩
  let decode : (Σ k : Fin L, (Fin k → Fin 256)) → List Nat :=
    fun s => List.ofFn (fun j => (s.2 j).val)
  have hdec : ∀ v, decode (c v) = gzip (List.ofFn (fun i => (v i).val)) := by
    intro v
    exact List.ofFn_get _
  have hinj : Function.Injective c := by
    intro v1 v2 h
    have h1 : List.ofFn (fun i => (v1 i).val) = List.ofFn (fun i => (v2 i).val) := by
      rw [← hinv _ (hbody_bytes v1), ← hinv _ (hbody_bytes v2), ← hdec, ← hdec, h]
    have h2 := List.ofFn_injective h1
    funext i
    exact Fin.ext (congrFun h2 i)
  have hcard := Fintype.card_le_of_injective c hinj
  simp only [Fintype.card_sigma, Fintype.card_fun, Fintype.card_fin] at hcard
  have := geom_sum_lt L
  omega

/-- C20 as stated fails for every gzip writer whose output is bytes and can be
undone by a reader: no such compressor frames every message whose body has
exactly `2^32` bytes with a length field equal to the number of payload bytes.
There are more bodies of `2^32` bytes than byte strings shorter than `2^32`, so
some body of that length comes out with `2^32` bytes or more, and its frame
carries the payload length modulo `2^32`. -/
theorem SendRaw_frame_counterexample :
    ¬ ∃ gzip gunzip : List Nat → List Nat,
      (∀ body : List Nat, (∀ b ∈ body, b < 256) → gunzip (gzip body) = body) ∧
      (∀ body : List Nat, (∀ b ∈ body, b < 256) → ∀ b ∈ gzip body, b < 256) ∧
      ∀ body : List Nat, body.length = 2 ^ 32 → (∀ b ∈ body, b < 256) →
        (TCPPeer.SendRaw gzip none none (0 :: 0 :: body)).map (fun r => uint32LE (r.2.drop 2))
          = (TCPPeer.SendRaw gzip none none (0 :: 0 :: body)).map
              (fun r => (r.2.drop 7).length) := by
  rintro ⟨gzip, gunzip, hinv, hbytes, hall⟩
  obtain ⟨body, hl, hb, hlong⟩ := exists_long_output gzip gunzip hinv hbytes (2 ^ 32)
  have h := hall body hl hb
  have hf := SendRaw_length_field gzip 0 0 body (by omega)
  rw [hf.1, hf.2] at h
  have h2 : u32 (gzip body).length = (gzip body).length := by simpa using h
  have h3 : u32 (gzip body).length < 2 ^ 32 := Nat.mod_lt _ (by norm_num)
  omega

/-! ## Compression threshold -/

theorem SendRaw_flag_cons (gzip : List Nat → List Nat) (writeErr : Option Err) (a b : Nat)
    (body : List Nat) :
    (TCPPeer.SendRaw gzip none writeErr (a :: b :: body)).map (fun r => r.2.getD 6 0)
      = some (if body.length + 2 > 1000 then 1 else 0) ∧
    (TCPPeer.SendRaw gzip none writeErr (a :: b :: body)).map (fun r => r.2.drop 7)
      = some (if body.length + 2 > 1000 then gzip body else body) := by
  rw [SendRaw_cons]
  simp [putUint32LE]

/-- C21 (as amended): `TCPPeer.SendRaw` sets the flag byte to 1 (gzip) exactly
when the whole message - the 2-byte type id and the payload - is larger than 1000
bytes, that is, when the payload is larger than 998 bytes; then the bytes after
the flag are the gzip output.  Every payload of at most 998 bytes is sent raw
with flag 0. -/
theorem SendRaw_flag (gzip : List Nat → List Nat) (writeErr : Option Err) (bs : List Nat)
    (hlen : 2 ≤ bs.length) :
    ((TCPPeer.SendRaw gzip none writeErr bs).map (fun r => r.2.getD 6 0) = some 1 ↔
      bs.length > 1000) ∧
    (bs.length > 1000 ↔ (bs.drop 2).length > 998) ∧
    (bs.length > 1000 →
      (TCPPeer.SendRaw gzip none writeErr bs).map (fun r => r.2.drop 7)
        = some (gzip (bs.drop 2))) ∧
    ((bs.drop 2).length ≤ 998 →
      (TCPPeer.SendRaw gzip none writeErr bs).map (fun r => r.2.getD 6 0) = some 0 ∧
      (TCPPeer.SendRaw gzip none writeErr bs).map (fun r => r.2.drop 7) = some (bs.drop 2)) := by
  obtain ⟨a, b, body, rfl⟩ : ∃ a b body, bs = a :: b :: body := by
    match bs, hlen with
    | a :: b :: body, _ => exact ⟨a, b, body, rfl⟩
  have hf := SendRaw_flag_cons gzip writeErr a b body
  simp only [List.length_cons, List.drop_succ_cons, List.drop_zero]
  rw [hf.1, hf.2]
  refine ⟨?_, ?_, ?_, ?_⟩
  · by_cases h : body.length + 2 > 1000
    · simp [h]
    · simp [h]
  · omega
  · intro h
    rw [if_pos (by omega)]
  · intro h
    rw [if_neg (by omega), if_neg (by omega)]
    exact ⟨rfl, rfl⟩

/-- Witness for `SendRaw_flag`: a three-byte body is sent raw with flag 0. -/
theorem SendRaw_flag_witness :
    (TCPPeer.SendRaw storeOnly none none [7, 1, 5, 6, 8]).map (fun r => r.2.getD 6 0) = some 0 ∧
    (TCPPeer.SendRaw storeOnly none none [7, 1, 5, 6, 8]).map (fun r => r.2.drop 7)
      = some [5, 6, 8] :=
  (SendRaw_flag storeOnly none [7, 1, 5, 6, 8] (by decide)).2.2.2 (by decide)

/-- C21 as stated fails: a payload of 999 bytes is neither larger than 1000 bytes
nor at least 1000 bytes long, yet the message has 1001 bytes and is sent with
flag 1. -/
theorem SendRaw_flag_counterexample :
    ((0 :: 0 :: List.replicate 999 7).drop 2).length = 999 ∧
    (TCPPeer.SendRaw storeOnly none none (0 :: 0 :: List.replicate 999 7)).map
        (fun r => r.2.getD 6 0) = some 1 := by
  constructor
  · rw [List.drop_succ_cons, List.drop_succ_cons, List.drop_zero, List.length_replicate]
  · rw [(SendRaw_flag_cons storeOnly none 0 0 (List.replicate 999 7)).1,
      List.length_replicate]
    rfl

/-! ## Base timestamp -/

theorem genBlock_start (env : GenEnv) (fr : RoundState) (pool : List PoolItem)
    (msg : BlockReqMessage) :
    genBlock env fr pool msg
      = genBlockLoop env msg (startBlockTime env.Now env.LastTimestamp)
          (startNoDelay env.Now env.LastTimestamp (RemainBlocks env msg)) (RemainBlocks env msg)
          0 env.NewContext none
          { fr with lastGenMessages := [], lastObSignMessageMap := [], lastContextes := [] }
          pool [] := rfl

/-- C25 (as amended): in `genBlock` the base timestamp `StartBlockTime` is
`chain.last_timestamp + 1ms` (a `uint64` sum) when `now < chain.last_timestamp`
and `now` otherwise.  It equals `max(now, chain.last_timestamp + 1ms)` when
`now < chain.last_timestamp` and the sum does not exceed the `uint64` range, and
when `now ≥ chain.last_timestamp + 1ms`; for
`last_timestamp ≤ now < last_timestamp + 1ms` it is `now`. -/
theorem startBlockTime_eq (env : GenEnv) (fr : RoundState) (pool : List PoolItem)
    (msg : BlockReqMessage) :
    genBlock env fr pool msg
      = genBlockLoop env msg (startBlockTime env.Now env.LastTimestamp)
          (startNoDelay env.Now env.LastTimestamp (RemainBlocks env msg)) (RemainBlocks env msg)
          0 env.NewContext none
          { fr with lastGenMessages := [], lastObSignMessageMap := [], lastContextes := [] }
          pool [] ∧
    (env.Now < env.LastTimestamp →
      startBlockTime env.Now env.LastTimestamp = u64 (env.LastTimestamp + millisecond)) ∧
    (env.LastTimestamp ≤ env.Now → startBlockTime env.Now env.LastTimestamp = env.Now) ∧
    (env.Now < env.LastTimestamp → env.LastTimestamp + millisecond < 2 ^ 64 →
      startBlockTime env.Now env.LastTimestamp = max env.Now (env.LastTimestamp + millisecond)) ∧
    (env.LastTimestamp + millisecond ≤ env.Now →
      startBlockTime env.Now env.LastTimestamp
        = max env.Now (env.LastTimestamp + millisecond)) := by
  refine ⟨genBlock_start env fr pool msg, ?_, ?_, ?_, ?_⟩
  · intro h
    unfold startBlockTime
    rw [if_pos h]
  · intro h
    unfold startBlockTime
    rw [if_neg (by omega)]
  · intro h h2
    unfold startBlockTime u64
    rw [if_pos h, Nat.mod_eq_of_lt h2]
    omega
  · intro h
    unfold startBlockTime
    rw [if_neg (by omega)]
    omega

/-- Witness for `startBlockTime_eq`: in the sample environment the clock is 1 ms
past the chain's last timestamp, so the base timestamp is the clock, which is
the maximum. -/
theorem startBlockTime_eq_witness :
    startBlockTime (sampleGenEnv 3 0 5000 100).Now (sampleGenEnv 3 0 5000 100).LastTimestamp
      = max (sampleGenEnv 3 0 5000 100).Now
          ((sampleGenEnv 3 0 5000 100).LastTimestamp + millisecond) :=
  (startBlockTime_eq (sampleGenEnv 3 0 5000 100) idleRound [] ⟨77, 11, 0, 5, 6⟩).2.2.2.2
    (by decide)

/-- C25 as stated fails inside the window the claim names: with the clock equal to
the chain's last timestamp the base timestamp is the clock, while
`max(now, last_timestamp + 1ms)` is 1 ms later. -/
theorem startBlockTime_eq_counterexample :
    startBlockTime clock2023 clock2023 = clock2023 ∧
    max clock2023 (clock2023 + millisecond) = clock2023 + 1000000 ∧
    startBlockTime clock2023 clock2023 ≠ max clock2023 (clock2023 + millisecond) := by
  refine ⟨by decide, by decide, by decide⟩

/-! ## A sign message without a request -/

/-- C29 at its failing input: a freshly constructed node has `lastReqMessage = nil`
and the chain is at height 10; a `BlockObSignMessage` with `target_height = 11`
passes the first test and the handler then reads `fr.lastReqMessage.TargetHeight`,
a nil dereference: it panics. -/
theorem handleBlockObSignMessage_without_request :
    idleRound.lastReqMessage = none ∧
    (handleBlockObSignMessage (sampleObSignEnv 10) idleRound ⟨11, 1100, [21]⟩).panic = true := by
  refine ⟨rfl, by decide⟩


/-! ## Block timer -/

theorem PopUntil_items (q : SortedQueue) (key : Nat) :
    (q.PopUntil key).1.toList.map (fun b => (key, b)) ++ (q.PopUntil key).2.items = q.items := by
  unfold SortedQueue.PopUntil
  split
  · rename_i k b rest heq
    by_cases hk : k = key
    · simp [hk, heq]
    · simp [hk]
  · simp

theorem blockTimerLoop_spec {σ : Type} (ops : ChainOps σ)
    (hconn : ∀ s b s2, ops.ConnectBlock s b = .ok s2 → ops.Height s2 = ops.Height s + 1) :
    ∀ (n : Nat) (s : σ) (item : Option Block) (q : SortedQueue) (T c : Nat) (hasItem : Bool)
      (done : List Connected),
      c ≤ 100 → 101 ≤ n + c → (0 < c → hasItem = true) → T = ops.Height s + 1 →
      T + (101 - c) < 2 ^ 64 →
      (blockTimerLoop ops n s item q T c hasItem done).running = false ∧
      ∃ more : List Connected,
        (blockTimerLoop ops n s item q T c hasItem done).connected = done ++ more ∧
        more.length + c ≤ 101 ∧
        ((blockTimerLoop ops n s item q T c hasItem done).hasItem = true ↔
          (hasItem = true ∨ more ≠ [])) ∧
        item.toList.map (fun b => (T, b)) ++ q.items
          = more.map (fun e => (e.TargetHeight, e.block))
            ++ (blockTimerLoop ops n s item q T c hasItem done).failed.toList.map
                (fun b => (T + more.length, b))
            ++ (blockTimerLoop ops n s item q T c hasItem done).blockQ.items ∧
        (∀ e ∈ more, e.TargetHeight = e.chainHeight + 1) ∧
        ops.Height (blockTimerLoop ops n s item q T c hasItem done).chain
          = ops.Height s + more.length ∧
        (∀ b, (blockTimerLoop ops n s item q T c hasItem done).failed = some b →
          ∃ e, ops.ConnectBlock (blockTimerLoop ops n s item q T c hasItem done).chain b
            = .error e) := by
  intro n
  induction n with
  | zero => intro s item q T c hasItem done h1 h2; omega
  | succ n ih =>
    intro s item q T c hasItem done h1 h2 h3 h4 h5
    cases item with
    | none =>
      simp only [blockTimerLoop]
      exact ⟨trivial, [], by simp, by simp; omega, by simp, by simp, by simp, by simp, by simp⟩
    | some b =>
      cases hcb : ops.ConnectBlock s b with
      | error e =>
        simp only [blockTimerLoop, hcb]
        exact ⟨trivial, [], by simp, by simp; omega, by simp, by simp, by simp, by simp,
          by intro b2 hb2; cases hb2; exact ⟨e, hcb⟩⟩
      | ok s2 =>
        have hh := hconn s b s2 hcb
        by_cases hc : c + 1 > 100
        · simp only [blockTimerLoop, hcb, if_pos hc]
          have hi : hasItem = true := h3 (by omega)
          refine ⟨trivial, [⟨ops.Height s, T, b⟩], rfl, by simp; omega, by simp [hi], by simp,
            by simp [h4], by simp [hh], by simp⟩
        · simp only [blockTimerLoop, hcb, if_neg hc]
          have hu : u64 (T + 1) = T + 1 := by
            unfold u64
            exact Nat.mod_eq_of_lt (by omega)
          rw [hu]
          obtain ⟨r1, more, r2, r3, r4, r5, r6, r7, r8⟩ :=
            ih s2 (q.PopUntil (T + 1)).1 (q.PopUntil (T + 1)).2 (T + 1) (c + 1) true
              (done ++ [⟨ops.Height s, T, b⟩]) (by omega) (by omega) (fun _ => rfl)
              (by omega) (by omega)
          refine ⟨r1, ⟨ops.Height s, T, b⟩ :: more, by simp [r2], by simp; omega,
            by simp [r4], ?_, ?_, by rw [r7]; simp; omega, r8⟩
          · rw [PopUntil_items] at r5
            have hlen : T + (more.length + 1) = T + 1 + more.length := by omega
            show (T, b) :: q.items = _
            conv_lhs => rw [r5]
            simp only [List.map_cons, List.cons_append, List.length_cons, hlen]
          · intro e he
            rcases List.mem_cons.mp he with rfl | he
            · exact h4
            · exact r6 e he

theorem heightChain_connect (s : Nat) (b : Block) (s2 : Nat)
    (h : heightChain.ConnectBlock s b = .ok s2) : heightChain.Height s2 = heightChain.Height s + 1 := by
  unfold heightChain at h ⊢
  dsimp only at h ⊢
  split at h
  · cases h; rfl
  · cases h

/-- C26 (as amended): in one firing of the 50ms block timer the loop returns
within 101 iterations and at most 101 queued blocks are connected (the loop leaves
on `Count > 100`, after the 101st); the popped entries are the front of the queue;
when `ConnectBlock` raises the height by one and `chain.height + 1` fits 32 bits,
each connected block was popped with its height exactly `chain.height + 1` at that
moment; the batch stops at the first `ConnectBlock` error, the block it failed on
being popped and not put back; and `hasItem`, under which status is broadcast, is
set exactly when at least one block was connected. -/
theorem blockTimer_batch {σ : Type} (ops : ChainOps σ) (s : σ) (q : SortedQueue)
    (hconn : ∀ s b s2, ops.ConnectBlock s b = .ok s2 → ops.Height s2 = ops.Height s + 1)
    (hH : ops.Height s + 1 < 2 ^ 32) :
    (blockTimer ops s q).running = false ∧
    (blockTimer ops s q).connected.length ≤ 101 ∧
    ((blockTimer ops s q).hasItem = true ↔ (blockTimer ops s q).connected ≠ []) ∧
    q.items = (blockTimer ops s q).connected.map (fun e => (e.TargetHeight, e.block))
        ++ (blockTimer ops s q).failed.toList.map
            (fun b => (ops.Height s + 1 + (blockTimer ops s q).connected.length, b))
        ++ (blockTimer ops s q).blockQ.items ∧
    (∀ e ∈ (blockTimer ops s q).connected, e.TargetHeight = e.chainHeight + 1) ∧
    ops.Height (blockTimer ops s q).chain
      = ops.Height s + (blockTimer ops s q).connected.length ∧
    (∀ b, (blockTimer ops s q).failed = some b →
      ∃ e, ops.ConnectBlock (blockTimer ops s q).chain b = .error e) := by
  have hT : u64 (u32 (ops.Height s + 1)) = ops.Height s + 1 := by
    unfold u64 u32
    rw [Nat.mod_eq_of_lt hH, Nat.mod_eq_of_lt (by omega)]
  unfold blockTimer
  simp only [hT]
  obtain ⟨r1, more, r2, r3, r4, r5, r6, r7, r8⟩ :=
    blockTimerLoop_spec ops hconn 101 s (q.PopUntil (ops.Height s + 1)).1
      (q.PopUntil (ops.Height s + 1)).2 (ops.Height s + 1) 0 false [] (by omega) (by omega)
      (by omega) rfl (by omega)
  rw [List.nil_append] at r2
  rw [PopUntil_items] at r5
  rw [r2]
  refine ⟨r1, by omega, ?_, r5, r6, r7, r8⟩
  rw [r4]
  simp

/-- Witness for `blockTimer_batch`: three queued blocks above a chain at height 10. -/
theorem blockTimer_batch_witness :
    (blockTimer heightChain 10 (queueFrom 11 3)).connected.length ≤ 101 ∧
    ((blockTimer heightChain 10 (queueFrom 11 3)).hasItem = true ↔
      (blockTimer heightChain 10 (queueFrom 11 3)).connected ≠ []) ∧
    (∀ e ∈ (blockTimer heightChain 10 (queueFrom 11 3)).connected,
      e.TargetHeight = e.chainHeight + 1) :=
  ⟨(blockTimer_batch heightChain 10 (queueFrom 11 3) heightChain_connect (by decide)).2.1,
   (blockTimer_batch heightChain 10 (queueFrom 11 3) heightChain_connect (by decide)).2.2.1,
   (blockTimer_batch heightChain 10 (queueFrom 11 3) heightChain_connect (by decide)).2.2.2.2.1⟩

/-- C26 as stated fails: with 120 consecutive blocks queued above a chain at
height 10, one firing of the timer connects 101 blocks, up to height 111. -/
theorem blockTimer_batch_counterexample :
    (blockTimer heightChain 10 (queueFrom 11 120)).connected.length = 101 ∧
    (blockTimer heightChain 10 (queueFrom 11 120)).chain = 111 ∧
    (blockTimer heightChain 10 (queueFrom 11 120)).hasItem = true := by
  decide


/-! ## Drain tasks -/

theorem drainInner_spins (passes : List (List (Option Nat))) :
    ∀ (n : Nat) (handled : List Nat), (drainInner passes true n handled).left = false := by
  induction passes with
  | nil => intro n handled; rfl
  | cons pass rest ih =>
    intro n handled
    unfold drainInner
    cases drainPass pass with
    | none => simpa using ih (n + 1) handled
    | some v => simpa using ih (n + 1) (handled ++ [v])

theorem drainInner_empty_passes (k : Nat) :
    ∀ (n : Nat) (handled : List Nat),
      drainInner (List.replicate k emptyPass) true n handled = ⟨false, n + k, handled⟩ := by
  induction k with
  | zero => intro n handled; rfl
  | succ k ih =>
    intro n handled
    rw [List.replicate_succ]
    unfold drainInner
    have hp : drainPass emptyPass = none := rfl
    simp only [hp]
    rw [show (!true) = false from rfl, if_neg (by simp), ih]
    congr 1
    omega

/-- C27 at its failing input: in one outer iteration of a drain task, after the
pass that handled one message, any number `k` of passes that find all four queues
empty leave the task inside the inner loop (`hasMessage` is never reset): it has
made `k + 1` passes without sleeping or testing `isClose`.  A first pass that
finds all queues empty does leave the loop. -/
theorem drainIteration_spins (k : Nat) :
    drainIteration ([some 1, none, none, none] :: List.replicate k emptyPass)
      = ⟨false, k + 1, [1]⟩ ∧
    drainIteration [emptyPass] = ⟨true, 1, []⟩ := by
  refine ⟨?_, rfl⟩
  unfold drainIteration
  unfold drainInner
  have hp : drainPass [some 1, none, none, none] = some 1 := rfl
  simp only [hp]
  rw [drainInner_empty_passes]
  simp
  omega


/-! ## Status request loop -/

theorem requestLoop_never_returns (env : StatusEnv) (hsend : ∀ h, env.SendTo h = none) :
    ∀ (fuel T : Nat) (timer sent : List Nat) (k : Nat), T < 2 ^ 32 →
      requestLoop env 4294967295 fuel T timer sent k = none := by
  intro fuel
  induction fuel with
  | zero => intro T timer sent k _; rfl
  | succ fuel ih =>
    intro T timer sent k hT
    have hu : u32 (T + 1) < 2 ^ 32 := Nat.mod_lt _ (by norm_num)
    unfold requestLoop
    rw [if_pos (by omega)]
    split
    · split
      · rw [hsend]
        exact ih _ _ _ _ hu
      · exact ih _ _ _ _ hu
    · exact ih _ _ _ _ hu

theorem requestLoop_returns (env : StatusEnv) (msgHeight : Nat) (hmsg : msgHeight < 4294967295) :
    ∀ (fuel T : Nat) (timer sent : List Nat) (k : Nat), T ≤ msgHeight + 1 →
      msgHeight + 1 - T < fuel →
      ∃ out, requestLoop env msgHeight fuel T timer sent k = some out ∧
        out.iterations ≤ k + (msgHeight + 1 - T) ∧
        ∀ h ∈ out.sent, h ∈ sent ∨ (T ≤ h ∧ h ≤ msgHeight ∧ h ∉ timer ∧ env.queued h = false) := by
  intro fuel
  induction fuel with
  | zero => intro T timer sent k _ h; omega
  | succ fuel ih =>
    intro T timer sent k hT hfuel
    unfold requestLoop
    by_cases hle : T ≤ msgHeight
    · have hu : u32 (T + 1) = T + 1 := by
        unfold u32
        exact Nat.mod_eq_of_lt (by omega)
      rw [if_pos hle, hu]
      by_cases ht : timer.contains T = true
      · simp only [ht, Bool.not_true, Bool.false_eq_true, if_false]
        obtain ⟨out, h1, h2, h3⟩ := ih (T + 1) timer sent k.succ (by omega) (by omega)
        refine ⟨out, h1, by omega, ?_⟩
        intro h hh
        rcases h3 h hh with h4 | ⟨h4, h5, h6, h7⟩
        · exact Or.inl h4
        · exact Or.inr ⟨by omega, h5, h6, h7⟩
      · have ht2 : timer.contains T = false := by simpa using ht
        simp only [ht2, Bool.not_false, if_true]
        by_cases hq : env.queued T = true
        · simp only [hq, Bool.not_true, Bool.false_eq_true, if_false]
          obtain ⟨out, h1, h2, h3⟩ := ih (T + 1) timer sent k.succ (by omega) (by omega)
          refine ⟨out, h1, by omega, ?_⟩
          intro h hh
          rcases h3 h hh with h4 | ⟨h4, h5, h6, h7⟩
          · exact Or.inl h4
          · exact Or.inr ⟨by omega, h5, h6, h7⟩
        · have hq2 : env.queued T = false := by simpa using hq
          simp only [hq2, Bool.not_false, if_true]
          cases hs : env.SendTo T with
          | some e =>
            exact ⟨_, rfl, by simp, fun h hh => Or.inl hh⟩
          | none =>
            simp only []
            obtain ⟨out, h1, h2, h3⟩ :=
              ih (T + 1) (T :: timer) (sent ++ [T]) k.succ (by omega) (by omega)
            refine ⟨out, h1, by omega, ?_⟩
            intro h hh
            rcases h3 h hh with h4 | ⟨h4, h5, h6, h7⟩
            · rcases List.mem_append.mp h4 with h4 | h4
              · exact Or.inl h4
              · have : h = T := by simpa using h4
                subst this
                refine Or.inr ⟨le_refl _, hle, ?_, hq2⟩
                simpa using ht2
            · refine Or.inr ⟨by omega, h5, ?_, h7⟩
              intro hm
              exact h6 (List.mem_cons_of_mem _ hm)
    · rw [if_neg hle]
      exact ⟨_, rfl, by simp, fun h hh => Or.inl hh⟩

/-- C30 at its failing input: a chain at height 10 receives from an observer a
`StatusMessage` with `Height = 4294967295`.  The loop condition
`TargetHeight <= msg.Height` holds for every `uint32` and `TargetHeight++` wraps
to 0, so with sends that succeed the request loop has not returned after any
number of iterations, whatever the request timer tracks. -/
theorem handleObserverStatusMessage_never_returns (fuel : Nat) (timer : List Nat) :
    handleObserverStatusMessage sampleStatusEnv 4294967295 timer fuel = none := by
  unfold handleObserverStatusMessage
  exact requestLoop_never_returns sampleStatusEnv (fun _ => rfl) fuel _ timer [] 0
    (Nat.mod_lt _ (by norm_num))


/-! ## Limited cast -/

theorem mapSet_keys (m : List (Nat × NodePeer)) (k : Nat) (p : NodePeer) :
    (mapSet m k p).map (fun e => e.1)
      = if k ∈ m.map (fun e => e.1) then m.map (fun e => e.1) else m.map (fun e => e.1) ++ [k] := by
  induction m with
  | nil => simp [mapSet]
  | cons e rest ih =>
    obtain ⟨k2, p2⟩ := e
    unfold mapSet
    by_cases h : k2 = k
    · subst h
      simp
    · rw [if_neg h, List.map_cons, ih]
      have h2 : ¬ k = k2 := fun hh => h hh.symm
      by_cases hm : k ∈ rest.map (fun e => e.1)
      · simp [hm]
      · simp [hm, h2]

theorem mem_mapSet (m : List (Nat × NodePeer)) (k : Nat) (p : NodePeer) (e : Nat × NodePeer)
    (he : e ∈ mapSet m k p) : e ∈ m ∨ e = (k, p) := by
  induction m with
  | nil => simpa [mapSet] using he
  | cons x rest ih =>
    obtain ⟨k2, p2⟩ := x
    unfold mapSet at he
    by_cases h : k2 = k
    · rw [if_pos h] at he
      rcases List.mem_cons.mp he with h1 | h1
      · exact Or.inr h1
      · exact Or.inl (List.mem_cons_of_mem _ h1)
    · rw [if_neg h] at he
      rcases List.mem_cons.mp he with h1 | h1
      · exact Or.inl (h1 ▸ List.mem_cons_self _ _)
      · rcases ih h1 with h2 | h2
        · exact Or.inl (List.mem_cons_of_mem _ h2)
        · exact Or.inr h2

theorem mapGet_of_key (m : List (Nat × NodePeer)) (k : Nat) (hk : k ∈ m.map (fun e => e.1)) :
    ∃ p, mapGet m k = some p ∧ (k, p) ∈ m := by
  induction m with
  | nil => simp at hk
  | cons x rest ih =>
    obtain ⟨k2, p2⟩ := x
    unfold mapGet
    by_cases h : k2 = k
    · subst h
      exact ⟨p2, by simp, List.mem_cons_self _ _⟩
    · rw [if_neg h]
      have hk2 : k ∈ rest.map (fun e => e.1) := by
        rcases List.mem_cons.mp hk with h1 | h1
        · exact absurd h1.symm h
        · exact h1
      obtain ⟨p, h1, h2⟩ := ih hk2
      exact ⟨p, h1, List.mem_cons_of_mem _ h2⟩

theorem collectExcept_inv (ID : Nat) (P : NodePeer → Prop) (src : List (Nat × NodePeer)) :
    ∀ peerMap : List (Nat × NodePeer),
      (peerMap.map (fun e => e.1)).Nodup →
      (∀ e ∈ peerMap, e.1 = e.2.ID ∧ e.2.ID ≠ ID ∧ P e.2) →
      (∀ e ∈ src, P e.2) →
      ((collectExcept ID peerMap src).map (fun e => e.1)).Nodup ∧
      (∀ e ∈ collectExcept ID peerMap src, e.1 = e.2.ID ∧ e.2.ID ≠ ID ∧ P e.2) := by
  induction src with
  | nil => intro peerMap h1 h2 _; exact ⟨h1, h2⟩
  | cons x rest ih =>
    intro peerMap h1 h2 h3
    obtain ⟨k, p⟩ := x
    unfold collectExcept
    by_cases h : p.ID ≠ ID
    · rw [if_pos h]
      apply ih
      · rw [mapSet_keys]
        split
        · exact h1
        · rename_i hn
          exact List.Nodup.append h1 (List.nodup_singleton _) (by simpa using hn)
      · intro e he
        rcases mem_mapSet _ _ _ _ he with h4 | h4
        · exact h2 e h4
        · subst h4
          exact ⟨rfl, h, h3 (k, p) (List.mem_cons_self _ _)⟩
      · intro e he
        exact h3 e (List.mem_cons_of_mem _ he)
    · rw [if_neg h]
      exact ih peerMap h1 h2 (fun e he => h3 e (List.mem_cons_of_mem _ he))

theorem insertId_perm (x : Nat) (l : List Nat) : (insertId x l).Perm (x :: l) := by
  induction l with
  | nil => exact List.Perm.refl _
  | cons y rest ih =>
    unfold insertId
    split
    · exact List.Perm.refl _
    · exact (List.Perm.cons y ih).trans (List.Perm.swap x y rest)

theorem sortIds_perm (l : List Nat) : (sortIds l).Perm l := by
  induction l with
  | nil => exact List.Perm.refl _
  | cons x rest ih =>
    unfold sortIds
    exact (insertId_perm x (sortIds rest)).trans (List.Perm.cons x ih)

theorem setAdd_spec (s : List Nat) (id : Nat) (hs : s.Nodup) :
    (setAdd s id).Nodup ∧ s.length ≤ (setAdd s id).length ∧ (setAdd s id).length ≤ s.length + 1 ∧
    id ∈ setAdd s id ∧ ∀ x ∈ setAdd s id, x ∈ s ∨ x = id := by
  unfold setAdd
  split
  · rename_i h
    exact ⟨hs, le_refl _, by omega, h, fun x hx => Or.inl hx⟩
  · rename_i h
    refine ⟨List.Nodup.append hs (List.nodup_singleton _) (by simpa using h), by simp, by simp,
      by simp, ?_⟩
    intro x hx
    rcases List.mem_append.mp hx with h1 | h1
    · exact Or.inl h1
    · exact Or.inr (by simpa using h1)

theorem getD_mem (ids : List Nat) (r : Nat) (h : 0 < ids.length) :
    ids.getD (r % ids.length) 0 ∈ ids := by
  have hlt : r % ids.length < ids.length := Nat.mod_lt _ h
  rw [List.getD_eq_getElem _ _ hlt]
  exact List.getElem_mem _

theorem filterMap_mapGet (peerMap : List (Nat × NodePeer))
    (hid : ∀ e ∈ peerMap, e.1 = e.2.ID) :
    ∀ T : List Nat, (∀ id ∈ T, id ∈ peerMap.map (fun e => e.1)) →
      (T.filterMap (fun id => mapGet peerMap id)).map (fun p => p.ID) = T ∧
      ∀ p ∈ T.filterMap (fun id => mapGet peerMap id), (p.ID, p) ∈ peerMap := by
  intro T
  induction T with
  | nil => intro _; simp
  | cons id rest ih =>
    intro h
    obtain ⟨p, h1, h2⟩ := mapGet_of_key peerMap id (h id (List.mem_cons_self _ _))
    obtain ⟨h3, h4⟩ := ih (fun x hx => h x (List.mem_cons_of_mem _ hx))
    have hp : p.ID = id := (hid _ h2).symm
    rw [List.filterMap_cons_some h1]
    refine ⟨by rw [List.map_cons, h3, hp], ?_⟩
    intro q hq
    rcases List.mem_cons.mp hq with h5 | h5
    · subst h5
      rw [hp]
      exact h2
    · exact h4 q h5

theorem mem_setAdd (s : List Nat) (id x : Nat) : x ∈ setAdd s id ↔ x ∈ s ∨ x = id := by
  unfold setAdd
  split
  · rename_i h
    constructor
    · exact fun hx => Or.inl hx
    · rintro (hx | hx)
      · exact hx
      · exact hx ▸ h
  · simp

theorem collectExcept_keys (ID : Nat) (src : List (Nat × NodePeer)) :
    ∀ (peerMap : List (Nat × NodePeer)) (k : Nat),
      k ∈ (collectExcept ID peerMap src).map (fun e => e.1) ↔
        k ∈ peerMap.map (fun e => e.1) ∨ (k ≠ ID ∧ k ∈ src.map (fun e => e.2.ID)) := by
  induction src with
  | nil => intro peerMap k; simp [collectExcept]
  | cons x rest ih =>
    intro peerMap k
    obtain ⟨k2, p⟩ := x
    unfold collectExcept
    by_cases h : p.ID ≠ ID
    · rw [if_pos h, ih, mapSet_keys]
      simp only [List.map_cons, List.mem_cons]
      by_cases hm : p.ID ∈ peerMap.map (fun e => e.1)
      · rw [if_pos hm]
        constructor
        · rintro (h1 | ⟨h1, h2⟩)
          · exact Or.inl h1
          · exact Or.inr ⟨h1, Or.inr h2⟩
        · rintro (h1 | ⟨h1, h2 | h2⟩)
          · exact Or.inl h1
          · exact Or.inl (h2 ▸ hm)
          · exact Or.inr ⟨h1, h2⟩
      · rw [if_neg hm, List.mem_append, List.mem_singleton]
        constructor
        · rintro ((h1 | h1) | ⟨h1, h2⟩)
          · exact Or.inl h1
          · exact Or.inr ⟨h1 ▸ h, Or.inl h1⟩
          · exact Or.inr ⟨h1, Or.inr h2⟩
        · rintro (h1 | ⟨h1, h2 | h2⟩)
          · exact Or.inl (Or.inl h1)
          · exact Or.inl (Or.inr h2)
          · exact Or.inr ⟨h1, h2⟩
    · rw [if_neg h, ih]
      simp only [List.map_cons, List.mem_cons]
      have h2 : p.ID = ID := by simpa using h
      constructor
      · rintro (h1 | ⟨h1, h3⟩)
        · exact Or.inl h1
        · exact Or.inr ⟨h1, Or.inr h3⟩
      · rintro (h1 | ⟨h1, h3 | h3⟩)
        · exact Or.inl h1
        · exact absurd (h3.trans h2) h1
        · exact Or.inr ⟨h1, h3⟩

theorem insertId_ascending (x : Nat) (l : List Nat) (hl : l.Pairwise (fun a b => a < b))
    (hx : x ∉ l) : (insertId x l).Pairwise (fun a b => a < b) := by
  induction l with
  | nil => simp [insertId]
  | cons y rest ih =>
    have hy := List.pairwise_cons.mp hl
    have hxy : x ≠ y := fun h => hx (h ▸ List.mem_cons_self _ _)
    have hxr : x ∉ rest := fun h => hx (List.mem_cons_of_mem _ h)
    unfold insertId
    split
    · rename_i hle
      refine List.pairwise_cons.mpr ⟨?_, hl⟩
      intro z hz
      rcases List.mem_cons.mp hz with h1 | h1
      · omega
      · have := hy.1 z h1
        omega
    · rename_i hle
      refine List.pairwise_cons.mpr ⟨?_, ih hy.2 hxr⟩
      intro z hz
      rcases List.mem_cons.mp ((insertId_perm x rest).mem_iff.mp hz) with h1 | h1
      · omega
      · exact hy.1 z h1

theorem sortIds_ascending (l : List Nat) (hl : l.Nodup) :
    (sortIds l).Pairwise (fun a b => a < b) := by
  induction l with
  | nil => simp [sortIds]
  | cons x rest ih =>
    have hx := List.nodup_cons.mp hl
    unfold sortIds
    exact insertId_ascending x _ (ih hx.2) (fun h => hx.1 ((sortIds_perm rest).mem_iff.mp h))

theorem ascending_unique (l1 l2 : List Nat) (h1 : l1.Pairwise (fun a b => a < b))
    (h2 : l2.Pairwise (fun a b => a < b)) (hmem : ∀ x, x ∈ l1 ↔ x ∈ l2) : l1 = l2 := by
  have n1 : l1.Nodup := h1.imp (fun h => Nat.ne_of_lt h)
  have n2 : l2.Nodup := h2.imp (fun h => Nat.ne_of_lt h)
  have hp : l1.Perm l2 := (List.perm_ext_iff_of_nodup n1 n2).mpr hmem
  exact List.eq_of_perm_of_sorted hp h1 h2

theorem castIds_spec (ms : NodeMeshState) (ID : Nat) (ids : List Nat)
    (hasc : ids.Pairwise (fun a b => a < b))
    (hmem : ∀ id, id ∈ ids ↔ id ≠ ID ∧
      (id ∈ ms.clientPeerMap.map (fun e => e.2.ID) ∨ id ∈ ms.serverPeerMap.map (fun e => e.2.ID))) :
    castIds ms ID = ids := by
  have hinv1 := collectExcept_inv ID (fun _ => True) ms.clientPeerMap []
    List.nodup_nil (by simp) (fun _ _ => trivial)
  have hinv := collectExcept_inv ID (fun _ => True) ms.serverPeerMap
    (collectExcept ID [] ms.clientPeerMap) hinv1.1 hinv1.2 (fun _ _ => trivial)
  apply ascending_unique _ _ (sortIds_ascending _ hinv.1) hasc
  intro x
  rw [(sortIds_perm _).mem_iff, collectExcept_keys, collectExcept_keys, hmem]
  simp only [List.map_nil, List.not_mem_nil, false_or]
  constructor
  · rintro (⟨h1, h2⟩ | ⟨h1, h2⟩)
    · exact ⟨h1, Or.inl h2⟩
    · exact ⟨h1, Or.inr h2⟩
  · rintro ⟨h1, h2 | h2⟩
    · exact Or.inl ⟨h1, h2⟩
    · exact Or.inr ⟨h1, h2⟩

theorem castTargets_spec (peerMap : List (Nat × NodePeer)) (ids : List Nat)
    (hperm : ids.Perm (peerMap.map (fun e => e.1)))
    (hid : ∀ e ∈ peerMap, e.1 = e.2.ID) (hn : 0 < ids.length) (r0 r1 r2 : Nat) :
    ((setAdd (setAdd (setAdd [] (ids.getD (r0 % ids.length) 0))
        (ids.getD (r1 % ids.length) 0)) (ids.getD (r2 % ids.length) 0)).filterMap
          (fun id => mapGet peerMap id)).map (fun p => p.ID)
      = setAdd (setAdd (setAdd [] (ids.getD (r0 % ids.length) 0))
        (ids.getD (r1 % ids.length) 0)) (ids.getD (r2 % ids.length) 0) ∧
    (setAdd (setAdd (setAdd [] (ids.getD (r0 % ids.length) 0))
        (ids.getD (r1 % ids.length) 0)) (ids.getD (r2 % ids.length) 0)).Nodup ∧
    1 ≤ (setAdd (setAdd (setAdd [] (ids.getD (r0 % ids.length) 0))
        (ids.getD (r1 % ids.length) 0)) (ids.getD (r2 % ids.length) 0)).length ∧
    (setAdd (setAdd (setAdd [] (ids.getD (r0 % ids.length) 0))
        (ids.getD (r1 % ids.length) 0)) (ids.getD (r2 % ids.length) 0)).length ≤ 3 ∧
    (setAdd (setAdd (setAdd [] (ids.getD (r0 % ids.length) 0))
        (ids.getD (r1 % ids.length) 0)) (ids.getD (r2 % ids.length) 0)).length ≤ ids.length ∧
    ∀ p ∈ (setAdd (setAdd (setAdd [] (ids.getD (r0 % ids.length) 0))
        (ids.getD (r1 % ids.length) 0)) (ids.getD (r2 % ids.length) 0)).filterMap
          (fun id => mapGet peerMap id), (p.ID, p) ∈ peerMap := by
  have ha := setAdd_spec [] (ids.getD (r0 % ids.length) 0) List.nodup_nil
  have hb := setAdd_spec _ (ids.getD (r1 % ids.length) 0) ha.1
  have hc := setAdd_spec _ (ids.getD (r2 % ids.length) 0) hb.1
  have hsub : ∀ x ∈ setAdd (setAdd (setAdd [] (ids.getD (r0 % ids.length) 0))
      (ids.getD (r1 % ids.length) 0)) (ids.getD (r2 % ids.length) 0), x ∈ ids := by
    intro x hx
    rcases hc.2.2.2.2 x hx with h1 | h1
    · rcases hb.2.2.2.2 x h1 with h2 | h2
      · rcases ha.2.2.2.2 x h2 with h3 | h3
        · simp at h3
        · exact h3 ▸ getD_mem ids r0 hn
      · exact h2 ▸ getD_mem ids r1 hn
    · exact h1 ▸ getD_mem ids r2 hn
  have hfm := filterMap_mapGet peerMap hid _ (fun x hx => hperm.mem_iff.mp (hsub x hx))
  have h0 : ([] : List Nat).length = 0 := rfl
  have hle := (List.Nodup.subperm hc.1 hsub).length_le
  refine ⟨hfm.1, hc.1, ?_, ?_, hle, hfm.2⟩
  · have h1 := ha.2.1
    have h2 := hb.2.1
    have h3 := hc.2.1
    have h4 : 0 < (setAdd [] (ids.getD (r0 % ids.length) 0)).length :=
      List.length_pos_of_mem ha.2.2.2.1
    omega
  · have h1 := ha.2.2.1
    have h2 := hb.2.2.1
    have h3 := hc.2.2.1
    omega

/-- C22 (as amended): for `limit = 3`, let `ids` be the ascending list of the
distinct peer ids other than `except_id` found in the two peer maps, `n` its
length, and `r0`, `r1`, `r2` the three draws.  When the message encodes,
`ExceptCastLimit` returns nil and sends the packet to one peer for each id of the
set `{ids[r0 % n], ids[r1 % n], ids[r2 % n]}` and to no other: to no peer when
`n = 0`, otherwise to at least one and at most `min(3, n)` peers with pairwise
distinct ids; every peer sent to is a peer of one of the two maps and its id
differs from `except_id`. -/
theorem ExceptCastLimit_targets (ms : NodeMeshState) (ID : Nat) (data : List Nat)
    (r0 r1 r2 : Nat) (ids : List Nat) (hasc : ids.Pairwise (fun a b => a < b))
    (hmem : ∀ id, id ∈ ids ↔ id ≠ ID ∧
      (id ∈ ms.clientPeerMap.map (fun e => e.2.ID) ∨ id ∈ ms.serverPeerMap.map (fun e => e.2.ID))) :
    (ms.ExceptCastLimit ID (.ok data) 3 r0 r1 r2).1 = none ∧
    (ids = [] → (ms.ExceptCastLimit ID (.ok data) 3 r0 r1 r2).2 = []) ∧
    (0 < ids.length → ∀ id,
      id ∈ (ms.ExceptCastLimit ID (.ok data) 3 r0 r1 r2).2.map (fun p => p.ID) ↔
        id = ids.getD (r0 % ids.length) 0 ∨ id = ids.getD (r1 % ids.length) 0 ∨
          id = ids.getD (r2 % ids.length) 0) ∧
    ((ms.ExceptCastLimit ID (.ok data) 3 r0 r1 r2).2.map (fun p => p.ID)).Nodup ∧
    (ms.ExceptCastLimit ID (.ok data) 3 r0 r1 r2).2.length ≤ min 3 ids.length ∧
    (0 < ids.length → 1 ≤ (ms.ExceptCastLimit ID (.ok data) 3 r0 r1 r2).2.length) ∧
    (∀ p ∈ (ms.ExceptCastLimit ID (.ok data) 3 r0 r1 r2).2,
      p.ID ≠ ID ∧ ∃ k, (k, p) ∈ ms.clientPeerMap ∨ (k, p) ∈ ms.serverPeerMap) := by
  have hinv1 := collectExcept_inv ID
    (fun p => ∃ k, (k, p) ∈ ms.clientPeerMap ∨ (k, p) ∈ ms.serverPeerMap) ms.clientPeerMap []
    List.nodup_nil (by simp) (fun e he => ⟨e.1, Or.inl he⟩)
  have hinv := collectExcept_inv ID
    (fun p => ∃ k, (k, p) ∈ ms.clientPeerMap ∨ (k, p) ∈ ms.serverPeerMap) ms.serverPeerMap
    (collectExcept ID [] ms.clientPeerMap) hinv1.1 hinv1.2 (fun e he => ⟨e.1, Or.inr he⟩)
  have hperm := sortIds_perm
    ((collectExcept ID (collectExcept ID [] ms.clientPeerMap) ms.serverPeerMap).map (fun e => e.1))
  have hids : sortIds ((collectExcept ID (collectExcept ID [] ms.clientPeerMap)
      ms.serverPeerMap).map (fun e => e.1)) = ids := castIds_spec ms ID ids hasc hmem
  unfold NodeMeshState.ExceptCastLimit
  dsimp only
  rw [hids] at hperm ⊢
  by_cases hn : ids.length > 0
  · rw [if_pos hn]
    obtain ⟨h1, h2, h3, h4, h5, h6⟩ :=
      castTargets_spec _ _ hperm (fun e he => (hinv.2 e he).1) hn r0 r1 r2
    have hlen := congrArg List.length h1
    rw [List.length_map] at hlen
    refine ⟨rfl, ?_, ?_, ?_, ?_, ?_, ?_⟩
    · intro h
      rw [h] at hn
      simp at hn
    · intro _ id
      dsimp only
      rw [h1, mem_setAdd, mem_setAdd, mem_setAdd]
      simp only [List.not_mem_nil, false_or, or_assoc]
    · dsimp only
      rw [h1]
      exact h2
    · dsimp only
      rw [hlen]
      exact le_min h4 h5
    · intro _
      dsimp only
      rw [hlen]
      exact h3
    · intro p hp
      have h7 := hinv.2 _ (h6 p hp)
      exact ⟨h7.2.1, h7.2.2⟩
  · rw [if_neg hn]
    refine ⟨rfl, fun _ => rfl, fun h => absurd h hn, by simp, by simp, fun h => absurd h hn,
      by simp⟩

theorem sampleMesh_ids (id : Nat) :
    id ∈ [1, 2, 3, 4, 5] ↔ id ≠ 6 ∧
      (id ∈ sampleMesh.clientPeerMap.map (fun e => e.2.ID) ∨
        id ∈ sampleMesh.serverPeerMap.map (fun e => e.2.ID)) := by
  simp only [sampleMesh, List.map_cons, List.map_nil, List.mem_cons, List.not_mem_nil, or_false]
  omega

/-- Witness for `ExceptCastLimit_targets`: six peers, peer 6 excepted, so that
`ids` is 1 to 5; the draws 0, 1, 2 send to the peers 1, 2 and 3. -/
theorem ExceptCastLimit_targets_witness :
    (sampleMesh.ExceptCastLimit 6 (.ok []) 3 0 1 2).2 = [⟨1, 11⟩, ⟨2, 12⟩, ⟨3, 13⟩] ∧
    (0 < [1, 2, 3, 4, 5].length → ∀ id,
      id ∈ (sampleMesh.ExceptCastLimit 6 (.ok []) 3 0 1 2).2.map (fun p => p.ID) ↔
        id = [1, 2, 3, 4, 5].getD (0 % [1, 2, 3, 4, 5].length) 0 ∨
          id = [1, 2, 3, 4, 5].getD (1 % [1, 2, 3, 4, 5].length) 0 ∨
          id = [1, 2, 3, 4, 5].getD (2 % [1, 2, 3, 4, 5].length) 0) ∧
    (sampleMesh.ExceptCastLimit 6 (.ok []) 3 0 1 2).2.length ≤ min 3 [1, 2, 3, 4, 5].length ∧
    (∀ p ∈ (sampleMesh.ExceptCastLimit 6 (.ok []) 3 0 1 2).2,
      p.ID ≠ 6 ∧ ∃ k, (k, p) ∈ sampleMesh.clientPeerMap ∨ (k, p) ∈ sampleMesh.serverPeerMap) :=
  ⟨by decide,
   (ExceptCastLimit_targets sampleMesh 6 [] 0 1 2 [1, 2, 3, 4, 5] (by decide)
      sampleMesh_ids).2.2.1,
   (ExceptCastLimit_targets sampleMesh 6 [] 0 1 2 [1, 2, 3, 4, 5] (by decide)
      sampleMesh_ids).2.2.2.2.1,
   (ExceptCastLimit_targets sampleMesh 6 [] 0 1 2 [1, 2, 3, 4, 5] (by decide)
      sampleMesh_ids).2.2.2.2.2.2⟩

/-- C22 as stated fails: with five connected peers other than the excepted one and
three draws that all give index 0, the packet goes to one peer, not to
`min(3, 5) = 3`. -/
theorem ExceptCastLimit_targets_counterexample :
    (castIds sampleMesh 6).length = 5 ∧
    sampleMesh.ExceptCastLimit 6 (.ok []) 3 0 0 0 = (none, [⟨1, 11⟩]) ∧
    (sampleMesh.ExceptCastLimit 6 (.ok []) 3 0 0 0).2.length ≠ min 3 5 := by
  decide

/-! ## Peer maps of the node mesh -/

/-- C23 at its failing input: `removePeerInMap` looks its id up in
`clientPeerMap` whatever map it is given.  A dialed peer installed under an id
that has an entry in `clientPeerMap` is itself deleted from the map and closed,
the older peer is not closed; an accepted peer installed under an id that has an
entry in `serverPeerMap` stays, but the older peer is not closed, and a dialed
peer of that id, if any, is deleted and closed in its place. -/
theorem install_collision (ID c1 c2 c3 : Nat) :
    NodeMeshState.installClient ⟨[(ID, ⟨ID, c1⟩)], [], []⟩ ⟨ID, c2⟩ = ⟨[], [], [c2]⟩ ∧
    NodeMeshState.installServer ⟨[], [(ID, ⟨ID, c1⟩)], []⟩ ⟨ID, c2⟩
      = ⟨[], [(ID, ⟨ID, c2⟩)], []⟩ ∧
    NodeMeshState.installServer ⟨[(ID, ⟨ID, c3⟩)], [(ID, ⟨ID, c1⟩)], []⟩ ⟨ID, c2⟩
      = ⟨[], [(ID, ⟨ID, c2⟩)], [c3]⟩ := by
  simp [NodeMeshState.installClient, NodeMeshState.installServer,
    NodeMeshState.removePeerInMap, mapGet, mapSet, mapDelete]

theorem removePeerInMap_serverPeerMap (ms : NodeMeshState) (ID : Nat)
    (peerMap : List (Nat × NodePeer)) :
    (ms.removePeerInMap ID peerMap).serverPeerMap = ms.serverPeerMap := by
  unfold NodeMeshState.removePeerInMap
  split <;> rfl

/-- C24 at its failing input: the cleanup of an accepted peer never changes
`serverPeerMap`, since `removePeerInMap` works on `clientPeerMap`.  After the
connection loop of the accepted peer of id `ID` has ended, the peer is still in
`serverPeerMap` with its connection closed, `GetPeer` returns it and the
reconnect check does not dial; and a dialed peer stored under the same id in
`clientPeerMap` is deleted and closed by that cleanup. -/
theorem serverCleanup_keeps_entry (ID c1 c2 : Nat) :
    (∀ (ms : NodeMeshState) (p : NodePeer),
      (ms.serverCleanup p).serverPeerMap = ms.serverPeerMap) ∧
    NodeMeshState.serverCleanup ⟨[], [(ID, ⟨ID, c1⟩)], []⟩ ⟨ID, c1⟩
      = ⟨[], [(ID, ⟨ID, c1⟩)], [c1]⟩ ∧
    (NodeMeshState.serverCleanup ⟨[], [(ID, ⟨ID, c1⟩)], []⟩ ⟨ID, c1⟩).GetPeer ID
      = some ⟨ID, c1⟩ ∧
    (NodeMeshState.serverCleanup ⟨[], [(ID, ⟨ID, c1⟩)], []⟩ ⟨ID, c1⟩).dials ID = false ∧
    NodeMeshState.serverCleanup ⟨[(ID, ⟨ID, c2⟩)], [(ID, ⟨ID, c1⟩)], []⟩ ⟨ID, c1⟩
      = ⟨[], [(ID, ⟨ID, c1⟩)], [c2, c1]⟩ := by
  refine ⟨?_, ?_, ?_, ?_, ?_⟩
  · intro ms p
    unfold NodeMeshState.serverCleanup
    exact removePeerInMap_serverPeerMap ms p.ID ms.serverPeerMap
  all_goals simp [NodeMeshState.serverCleanup, NodeMeshState.removePeerInMap,
    NodeMeshState.GetPeer, NodeMeshState.dials, mapGet, mapDelete]


/-! ## Vault fee -/

theorem SubBalance_spec (st : VaultState) (addr : Nat) (am : Int)
    (h : ¬ Vault.Balance st addr < am) :
    (Vault.SubBalance st addr am).1 = none ∧
    Vault.Balance (Vault.SubBalance st addr am).2 addr = Vault.Balance st addr - am ∧
    (∀ a, a ≠ addr → (Vault.SubBalance st addr am).2.balance a = st.balance a) ∧
    (Vault.SubBalance st addr am).2.collectedFee = st.collectedFee ∧
    (Vault.SubBalance st addr am).2.other = st.other := by
  unfold Vault.SubBalance
  simp only [if_neg h]
  by_cases hz : Vault.Balance st addr - am = 0
  · rw [if_pos hz]
    refine ⟨rfl, ?_, ?_, rfl, rfl⟩
    · rw [hz]
      simp [Vault.Balance, Vault.RemoveBalance]
    · intro a ha
      simp [Vault.RemoveBalance, Function.update, ha]
  · rw [if_neg hz]
    refine ⟨rfl, ?_, ?_, rfl, rfl⟩
    · simp [Vault.Balance]
    · intro a ha
      simp [Function.update, ha]

/-- C28: `Vault.WithFee`.  When `balance(tx.From) < fee`, `ErrMinusBalance` is
returned, the callback is not run and the state is unchanged.  Otherwise the
callback is run on a state in which `balance(tx.From)` is lower by exactly `fee`,
the collected fee is higher by exactly `fee` and nothing else differs; when the
callback fails, its error is returned with that state, so its writes are
reverted and the deduction and the collection remain; when it succeeds, nil is
returned with the state it left. -/
theorem WithFee_spec (st : VaultState) (sender : Nat) (fee : Int)
    (fn : VaultState → Option Err × VaultState) :
    (Vault.Balance st sender < fee →
      (Vault.WithFee st sender fee fn).err = some .ErrMinusBalance ∧
      (Vault.WithFee st sender fee fn).ran = false ∧
      (Vault.WithFee st sender fee fn).state = st) ∧
    (¬ Vault.Balance st sender < fee →
      ∃ mid : VaultState,
        Vault.Balance mid sender = Vault.Balance st sender - fee ∧
        Vault.CollectedFee mid = Vault.CollectedFee st + fee ∧
        (∀ a, a ≠ sender → mid.balance a = st.balance a) ∧
        mid.other = st.other ∧
        (Vault.WithFee st sender fee fn).ran = true ∧
        (Vault.WithFee st sender fee fn).err = (fn mid).1 ∧
        (∀ e, (fn mid).1 = some e → (Vault.WithFee st sender fee fn).state = mid) ∧
        ((fn mid).1 = none → (Vault.WithFee st sender fee fn).state = (fn mid).2)) := by
  constructor
  · intro h
    refine ⟨?_, ?_, ?_⟩ <;> simp [Vault.WithFee, Vault.SubBalance, h]
  · intro h
    obtain ⟨h1, h2, h3, h4, h5⟩ := SubBalance_spec st sender fee h
    refine ⟨{ (Vault.SubBalance st sender fee).2 with
      collectedFee := some (Vault.CollectedFee (Vault.SubBalance st sender fee).2 + fee) },
      h2, ?_, h3, h5, ?_⟩
    · simp only [Vault.CollectedFee, h4]
    · unfold Vault.WithFee
      generalize hsb : Vault.SubBalance st sender fee = r at h1 ⊢
      obtain ⟨e1, st1⟩ := r
      dsimp only at h1
      subst h1
      dsimp only
      generalize fn { st1 with collectedFee := some (Vault.CollectedFee st1 + fee) } = r2
      obtain ⟨e2, st3⟩ := r2
      cases e2 with
      | none =>
        refine ⟨rfl, rfl, ?_, fun _ => rfl⟩
        intro e he
        simp at he
      | some e =>
        refine ⟨rfl, rfl, fun _ _ => rfl, ?_⟩
        intro he
        simp at he

/-- Witness for `WithFee_spec`: address 2 holds 5 and cannot pay a fee of 10;
address 1 holds 100, pays 10, and the failing callback's writes are reverted. -/
theorem WithFee_spec_witness :
    ((Vault.WithFee sampleVault 2 10 failingFn).err = some .ErrMinusBalance ∧
      (Vault.WithFee sampleVault 2 10 failingFn).ran = false ∧
      (Vault.WithFee sampleVault 2 10 failingFn).state = sampleVault) ∧
    (∃ mid : VaultState,
      Vault.Balance mid 1 = Vault.Balance sampleVault 1 - 10 ∧
      Vault.CollectedFee mid = Vault.CollectedFee sampleVault + 10 ∧
      (∀ a, a ≠ 1 → mid.balance a = sampleVault.balance a) ∧
      mid.other = sampleVault.other ∧
      (Vault.WithFee sampleVault 1 10 failingFn).ran = true ∧
      (Vault.WithFee sampleVault 1 10 failingFn).err = (failingFn mid).1 ∧
      (∀ e, (failingFn mid).1 = some e →
        (Vault.WithFee sampleVault 1 10 failingFn).state = mid) ∧
      ((failingFn mid).1 = none →
        (Vault.WithFee sampleVault 1 10 failingFn).state = (failingFn mid).2)) ∧
    (Vault.WithFee sampleVault 1 10 failingFn).err = some (.external 3) ∧
    Vault.Balance (Vault.WithFee sampleVault 1 10 failingFn).state 1 = 90 ∧
    Vault.CollectedFee (Vault.WithFee sampleVault 1 10 failingFn).state = 17 ∧
    (Vault.WithFee sampleVault 1 10 failingFn).state.other = [] :=
  ⟨(WithFee_spec sampleVault 2 10 failingFn).1 (by decide),
   (WithFee_spec sampleVault 1 10 failingFn).2 (by decide), rfl, by decide, by decide, rfl⟩

end Fleta
